import Mathlib

/-!
# Health-screening allocation (greedy heuristic): embedding of `project.c`

The C program keeps its data in global arrays and scalars and runs a two-phase
greedy allocation over them.  The embedding below is a state-passing
translation of that program.

Conventions of the embedding:

* C `double` values are rationals (`ℚ`); infinities and NaN are not modelled.  The
  arithmetic of the run is exact, except for the product that `equity_target`
  converts to an `int`, which is rounded to binary64 first (`round_double`)
  because the rounding decides the integer.  A second translation of the run,
  `run_allocation_algorithm_double`, rounds the result of every `double`
  operation; it is the one to consult where the order of the additions matters.
* The global arrays (`tests`, `resources`, `conditions`, `is_scheduled`) are
  total maps from an index to an entry; an access outside the static bounds is
  undefined behaviour in C and has no special treatment here.  Fields that the
  program uses only as array indices (`test_id`, `condition_k`) are natural
  numbers.
* The counters `num_tests`, `num_resources`, `num_conditions`, `equity_count`
  are integers, as in C; a loop `for (j = 0; j < n; j++)` runs over
  `List.range n.toNat`, so a negative bound runs no iteration.
* `qsort` is a library routine outside the repository; it is a parameter of the
  run, constrained by the contract in `QsortPerm` (and `QsortSorted`).
* The greedy walks additionally log one `Visit` per loop iteration; the log is
  ghost data which no program decision reads.
-/

namespace Alloc

/-! ## Constants and data model -/

/-- Macro `#define MAX_TESTS 100`. -/
def MAX_TESTS : Nat := 100

/-- Macro `#define MAX_RESOURCES 10`. -/
def MAX_RESOURCES : Nat := 10

/-- Macro `#define MAX_CONDITIONS 50`. -/
def MAX_CONDITIONS : Nat := 50

/-! ### Double precision

Where a rounding decides an integer or a comparison the embedding follows, the value a C
`double` operation yields is the exact result rounded to binary64 by `round_double`. -/

/-- Upward search for the binade of `x ≥ 1`: from `e` with `2 ^ e ≤ x`, the exponent `e'`
with `2 ^ e' ≤ x < 2 ^ (e' + 1)`, at most `fuel` binades further. -/
def binade_up : Nat → Int → ℚ → Int
  | 0, e, _ => e
  | fuel + 1, e, x => if (2 : ℚ) ^ (e + 1) ≤ x then binade_up fuel (e + 1) x else e

/-- Downward search for the binade of `0 < x < 1`: from `e` with `x < 2 ^ (e + 1)`, the
exponent `e'` with `2 ^ e' ≤ x < 2 ^ (e' + 1)`, at most `fuel` binades further. -/
def binade_down : Nat → Int → ℚ → Int
  | 0, e, _ => e
  | fuel + 1, e, x => if x < (2 : ℚ) ^ e then binade_down fuel (e - 1) x else e

/-- The binary exponent of a positive `x`: the `e` with `2 ^ e ≤ x < 2 ^ (e + 1)`, for the
exponents a binary64 value can have. -/
def binade (x : ℚ) : Int := if 1 ≤ x then binade_up 1100 0 x else binade_down 1100 0 x

/-- Rounding of a rational to the nearest integer, a tie going to the even one. -/
def round_to_even (q : ℚ) : Int :=
  if q - ⌊q⌋ < 1 / 2 then ⌊q⌋
  else if 1 / 2 < q - ⌊q⌋ then ⌊q⌋ + 1
  else if ⌊q⌋ % 2 = 0 then ⌊q⌋ else ⌊q⌋ + 1

/-- Rounding of a positive rational to binary64: the nearest multiple of the unit in the
last place, `2 ^ (e - 52)` in the binade `e` and `2 ^ (-1074)` for subnormal values. -/
def round_double_pos (x : ℚ) : ℚ :=
  round_to_even (x / (2 : ℚ) ^ (max (binade x - 52) (-1074))) *
    (2 : ℚ) ^ (max (binade x - 52) (-1074))

/-- Rounding of a rational to the nearest binary64 value, ties to even, the default IEEE 754
mode in which the program's `double` arithmetic runs.  Overflow to infinity is not
modelled. -/
def round_double (x : ℚ) : ℚ :=
  if x = 0 then 0 else if 0 < x then round_double_pos x else -round_double_pos (-x)

/-- Macro `#define T_EQUITY 0.15`: the binary64 value of the literal `0.15`. -/
def T_EQUITY : ℚ := round_double (15 / 100)

/-- Macro `#define TPS_CUTOFF 50.0`. -/
def TPS_CUTOFF : ℚ := 50

/-- The C type `Condition`. -/
structure Condition where
  condition_id : Int
  W_Crit : ℚ
  W_Surv : ℚ

/-- The C type `Test`. -/
structure Test where
  test_id : Nat
  condition_k : Nat
  C_Explicit : ℚ
  P_Pos : ℚ
  TPS : ℚ
  D_Immediate : Nat → ℚ
  D_Future_Calc : Nat → ℚ
  Marginal_Cost : ℚ

/-- The C type `Resource`. -/
structure Resource where
  Cap_Total : ℚ
  Cap_Rem : ℚ
  Utilized : Bool
  R_SetupCost : ℚ
  Future_Demand_Commit : ℚ

/-- The global variables of the program. -/
structure State where
  tests : Nat → Test
  resources : Nat → Resource
  conditions : Nat → Condition
  num_tests : Int
  num_resources : Int
  num_conditions : Int
  B_Max : ℚ
  is_scheduled : Nat → Bool
  total_cost : ℚ
  total_utility : ℚ
  equity_count : Int

/-! ## The functions of `project.c` -/

/-- One iteration of the loop of `initialize_globals`: `is_scheduled[i] = false`. -/
def initialize_globals_body (s : State) (i : Nat) : State :=
  { s with is_scheduled := Function.update s.is_scheduled i false }

/-- Function `void initialize_globals()`. -/
def initialize_globals (s : State) : State :=
  (List.range MAX_TESTS).foldl initialize_globals_body
    { s with total_cost := 0, total_utility := 0, equity_count := 0 }

/-- One iteration of the loop of `calculate_marginal_cost`. -/
def calculate_marginal_cost_body (resources : Nat → Resource) (test : Test) (j : Nat) : Test :=
  if (resources j).R_SetupCost > 0 ∧ (resources j).Utilized = false then
    { test with Marginal_Cost := test.Marginal_Cost + (resources j).R_SetupCost }
  else test

/-- Function `void calculate_marginal_cost(Test *test, const Resource *resources)`; the global
`num_resources` it reads is the first argument, the updated `*test` is the result. -/
def calculate_marginal_cost (num_resources : Int) (test : Test) (resources : Nat → Resource) :
    Test :=
  (List.range num_resources.toNat).foldl (calculate_marginal_cost_body resources)
    { test with Marginal_Cost := test.C_Explicit }

/-- Function `void calculate_tps(Test *test, const Condition *cond)`; the global
`num_resources` it reads is the first argument, the updated `*test` is the result. -/
def calculate_tps (num_resources : Int) (test : Test) (cond : Condition) : Test :=
  let time_demand_sum : ℚ := if num_resources > 0 then test.D_Immediate 0 else 0
  let numerator : ℚ := cond.W_Crit * cond.W_Surv
  let denominator : ℚ := test.Marginal_Cost + time_demand_sum
  { test with TPS := if denominator > 0 then numerator / denominator else 0 }

/-- The loop of `check_feasibility` over the remaining indices `js`, with its two early
`return false`. -/
def check_feasibility_loop (test : Test) (resources : Nat → Resource) : List Nat → Bool
  | [] => true
  | j :: js =>
    if (resources j).Cap_Rem < test.D_Immediate j then false
    else if (resources j).Cap_Total <
        (resources j).Future_Demand_Commit + test.D_Future_Calc j then false
    else check_feasibility_loop test resources js

/-- Function `bool check_feasibility(const Test *test, const Resource *resources)`; the
global `num_resources` it reads is the first argument. -/
def check_feasibility (num_resources : Int) (test : Test) (resources : Nat → Resource) : Bool :=
  check_feasibility_loop test resources (List.range num_resources.toNat)

/-- One iteration of the loop of `schedule_test`. -/
def schedule_test_body (test : Test) (s : State) (j : Nat) : State :=
  let r := s.resources j
  let r1 : Resource := { r with Cap_Rem := r.Cap_Rem - test.D_Immediate j }
  let r2 : Resource :=
    { r1 with Future_Demand_Commit := r1.Future_Demand_Commit + test.D_Future_Calc j }
  if r2.R_SetupCost > 0 ∧ r2.Utilized = false then
    { s with
      resources := Function.update s.resources j { r2 with Utilized := true }
      total_cost := s.total_cost + r2.R_SetupCost }
  else
    { s with resources := Function.update s.resources j r2 }

/-- Function `void schedule_test(int test_index, const Condition *cond)`, on the globals
`s`. -/
def schedule_test (s : State) (test_index : Nat) (cond : Condition) : State :=
  let test := s.tests test_index
  let s1 : State := { s with is_scheduled := Function.update s.is_scheduled test_index true }
  let s2 := (List.range s.num_resources.toNat).foldl (schedule_test_body test) s1
  { s2 with
    total_cost := s2.total_cost + test.C_Explicit
    total_utility := s2.total_utility + cond.W_Crit * cond.W_Surv }

/-- Comparator `int compare_tps_desc(const void *a, const void *b)`. -/
def compare_tps_desc (testA testB : Test) : Int :=
  if testA.TPS < testB.TPS then 1
  else if testA.TPS > testB.TPS then -1
  else 0

/-- Comparator `int compare_demand_asc(const void *a, const void *b)`. -/
def compare_demand_asc (testA testB : Test) : Int :=
  if testA.D_Immediate 0 < testB.D_Immediate 0 then -1
  else if testA.D_Immediate 0 > testB.D_Immediate 0 then 1
  else 0

/-- The cast `(int)x` of a `double` to the 32-bit `int`: truncation toward zero when the
truncated value lies in `[-2^31, 2^31)`.  Outside that range the conversion is undefined
behaviour in C; the embedding then yields `INT_MIN`, the value the x86-64 conversion
instruction delivers. -/
def c_int_cast (x : ℚ) : Int :=
  if -2 ^ 31 ≤ (if 0 ≤ x then ⌊x⌋ else ⌈x⌉) ∧ (if 0 ≤ x then ⌊x⌋ else ⌈x⌉) < 2 ^ 31 then
    (if 0 ≤ x then ⌊x⌋ else ⌈x⌉)
  else -2 ^ 31

/-- The library routine `qsort`, as used by the program: it receives a comparator and the
array to sort and yields the rearranged array. -/
abbrev Qsort := (Test → Test → Int) → List Test → List Test

/-- Contract of `qsort`, first half: with either comparator of the program the result is a
rearrangement of the input. -/
def QsortPerm (qsort : Qsort) : Prop :=
  ∀ pool : List Test,
    (qsort compare_demand_asc pool).Perm pool ∧ (qsort compare_tps_desc pool).Perm pool

/-- Contract of `qsort`, second half: in the result no element is followed, at any
distance, by one the comparator puts strictly before it. -/
def QsortSorted (qsort : Qsort) : Prop :=
  ∀ pool : List Test,
    (qsort compare_demand_asc pool).Pairwise (fun a b => compare_demand_asc a b ≤ 0) ∧
    (qsort compare_tps_desc pool).Pairwise (fun a b => compare_tps_desc a b ≤ 0)

/-- Insertion sort driven by a C comparator: one admissible `qsort`. -/
def insertion_qsort : Qsort :=
  fun cmp pool => pool.insertionSort (fun a b => cmp a b ≤ 0)

/-- Ghost record of one iteration of a greedy walk of `run_allocation_algorithm`: the
phase (1 or 2), the candidate `original_index`, the state when the iteration starts,
whether the `if` committed the candidate, and the state when the iteration ends. -/
structure Visit where
  phase : Nat
  index : Nat
  pre : State
  committed : Bool
  post : State

/-- The inner loop of the scoring pass: `tests[i].D_Future_Calc[j] = tests[i].P_Pos * 1.0`. -/
def future_demand_body (test : Test) (j : Nat) : Test :=
  { test with D_Future_Calc := Function.update test.D_Future_Calc j (test.P_Pos * 1) }

/-- One iteration of the scoring pass that opens `run_allocation_algorithm`. -/
def scoring_body (s : State) (i : Nat) : State :=
  let k := (s.tests i).condition_k
  let t1 := (List.range s.num_resources.toNat).foldl future_demand_body (s.tests i)
  let t2 := calculate_marginal_cost s.num_resources t1 s.resources
  let t3 := calculate_tps s.num_resources t2 (s.conditions k)
  { s with tests := Function.update s.tests i t3 }

/-- The scoring pass: the first `for` loop of `run_allocation_algorithm`. -/
def scoring_pass (s : State) : State :=
  (List.range s.num_tests.toNat).foldl scoring_body s

/-- The local `int equity_target = (int)(T_EQUITY * resources[0].Cap_Total);`: the
product is a `double` multiplication, so it is rounded before the cast. -/
def equity_target (s : State) : Int :=
  c_int_cast (round_double (T_EQUITY * (s.resources 0).Cap_Total))

/-- One iteration of the loop that fills `pool_low_crit`. -/
def pool_low_crit_body (s : State) (pool : List Test) (i : Nat) : List Test :=
  if s.is_scheduled i = false ∧ (s.tests i).TPS < TPS_CUTOFF then pool ++ [s.tests i] else pool

/-- The loop that fills `pool_low_crit` (before sorting). -/
def build_pool_low_crit (s : State) : List Test :=
  (List.range s.num_tests.toNat).foldl (pool_low_crit_body s) []

/-- The test of the `if` in both greedy walks:
`check_feasibility(&tests[i], resources) && total_cost + tests[i].Marginal_Cost <= B_Max`. -/
def can_commit (s : State) (original_index : Nat) : Bool :=
  check_feasibility s.num_resources (s.tests original_index) s.resources &&
    decide (s.total_cost + (s.tests original_index).Marginal_Cost ≤ s.B_Max)

/-- The Phase 1 walk over the sorted `pool_low_crit`, from its current position on:
`for (...; i < pool_low_crit_size && equity_count < equity_target; i++)`. -/
def phase1_loop (target : Int) : List Test → State → State × List Visit
  | [], s => (s, [])
  | c :: rest, s =>
    if s.equity_count < target then
      let original_index := c.test_id
      if can_commit s original_index then
        let s1 := schedule_test s original_index
          (s.conditions (s.tests original_index).condition_k)
        let s2 : State := { s1 with equity_count := s1.equity_count + 1 }
        let r := phase1_loop target rest s2
        (r.1, ⟨1, original_index, s, true, s2⟩ :: r.2)
      else
        let r := phase1_loop target rest s
        (r.1, ⟨1, original_index, s, false, s⟩ :: r.2)
    else (s, [])

/-- One iteration of the loop that fills `pool_all`: an unscheduled test is rescored in
place and then copied into the pool. -/
def pool_all_body (acc : State × List Test) (i : Nat) : State × List Test :=
  let s := acc.1
  if s.is_scheduled i = false then
    let t1 := calculate_marginal_cost s.num_resources (s.tests i) s.resources
    let t2 := calculate_tps s.num_resources t1 (s.conditions (s.tests i).condition_k)
    ({ s with tests := Function.update s.tests i t2 }, acc.2 ++ [t2])
  else acc

/-- The loop that fills `pool_all` (before sorting). -/
def build_pool_all (s : State) : State × List Test :=
  (List.range s.num_tests.toNat).foldl pool_all_body (s, [])

/-- The Phase 2 walk over the sorted `pool_all`, from its current position on. -/
def phase2_loop : List Test → State → State × List Visit
  | [], s => (s, [])
  | c :: rest, s =>
    let original_index := c.test_id
    if can_commit s original_index then
      let s1 := schedule_test s original_index
        (s.conditions (s.tests original_index).condition_k)
      let r := phase2_loop rest s1
      (r.1, ⟨2, original_index, s, true, s1⟩ :: r.2)
    else
      let r := phase2_loop rest s
      (r.1, ⟨2, original_index, s, false, s⟩ :: r.2)

/-- What a run of `run_allocation_algorithm` goes through. -/
structure Run where
  /-- The state after `initialize_globals` and the scoring pass -/
  scored : State
  /-- The local `equity_target` -/
  target : Int
  /-- The sorted `pool_low_crit` -/
  pool1 : List Test
  /-- The iterations of the Phase 1 walk -/
  trace1 : List Visit
  /-- The state when Phase 1 ends -/
  after_phase1 : State
  /-- The state after `pool_all` is filled (unscheduled tests rescored) -/
  phase2_start : State
  /-- The sorted `pool_all` -/
  pool2 : List Test
  /-- The iterations of the Phase 2 walk -/
  trace2 : List Visit
  /-- The state when the run ends -/
  final : State

/-- Function `void run_allocation_algorithm()` (the `printf` reporting left out), with the
intermediate states and the logs of both walks. -/
def run_allocation_algorithm (qsort : Qsort) (s : State) : Run :=
  let s0 := scoring_pass (initialize_globals s)
  let target := equity_target s0
  let pool1 := qsort compare_demand_asc (build_pool_low_crit s0)
  let r1 := phase1_loop target pool1 s0
  let b := build_pool_all r1.1
  let pool2 := qsort compare_tps_desc b.2
  let r2 := phase2_loop pool2 b.1
  { scored := s0, target := target, pool1 := pool1, trace1 := r1.2, after_phase1 := r1.1,
    phase2_start := b.1, pool2 := pool2, trace2 := r2.2, final := r2.1 }

/-- All iterations of both greedy walks of a run, in execution order. -/
def Run.trace (r : Run) : List Visit := r.trace1 ++ r.trace2

/-! ## The preset data (`setup_preset_data`) and the example input -/

/-- Function `void setup_preset_data()`: the values it stores; entries it does not write
are the zero-initialised statics.  In each compound literal
`(Test){id, k, C_Exp, P_Pos, {d0, d1}, 0.0}` the fifth initialiser meets the scalar member
`TPS`, which takes `d0`, and the trailing `0.0` starts the array `D_Immediate`: the
program stores `TPS = 10, 5, 15, 20, 5` and leaves every immediate demand at 0, although
its comment `// Tests (ID, Condition, C_Exp, P_Pos, R0 Imm, R1 Imm)` announces demands. -/
def setup_preset_data : State where
  B_Max := 1000
  num_resources := 2
  num_conditions := 3
  num_tests := 5
  conditions := fun k =>
    match k with
    | 0 => ⟨0, 80, 70⟩
    | 1 => ⟨1, 20, 95⟩
    | 2 => ⟨2, 50, 10⟩
    | _ => ⟨0, 0, 0⟩
  resources := fun j =>
    match j with
    | 0 => ⟨50, 50, false, 500, 0⟩
    | 1 => ⟨30, 30, false, 0, 0⟩
    | _ => ⟨0, 0, false, 0, 0⟩
  tests := fun i =>
    match i with
    | 0 => ⟨0, 0, 100, 80 / 100, 10, fun _ => 0, fun _ => 0, 0⟩
    | 1 => ⟨1, 1, 50, 10 / 100, 5, fun _ => 0, fun _ => 0, 0⟩
    | 2 => ⟨2, 1, 150, 15 / 100, 15, fun _ => 0, fun _ => 0, 0⟩
    | 3 => ⟨3, 2, 200, 90 / 100, 20, fun _ => 0, fun _ => 0, 0⟩
    | 4 => ⟨4, 0, 50, 50 / 100, 5, fun _ => 0, fun _ => 0, 0⟩
    | _ => ⟨0, 0, 0, 0, 0, fun _ => 0, fun _ => 0, 0⟩
  is_scheduled := fun _ => false
  total_cost := 0
  total_utility := 0
  equity_count := 0

/-- The example input: the data the comment of `setup_preset_data` announces (budget 1000,
resource 0 of capacity 50 with setup cost 500, resource 1 of capacity 30, five tests with
immediate demands 10, 5, 15, 20, 5 on resource 0), in the state `setup_user_input` leaves
when these values are entered. -/
def example_input_data : State where
  B_Max := 1000
  num_resources := 2
  num_conditions := 3
  num_tests := 5
  conditions := fun k =>
    match k with
    | 0 => ⟨0, 80, 70⟩
    | 1 => ⟨1, 20, 95⟩
    | 2 => ⟨2, 50, 10⟩
    | _ => ⟨0, 0, 0⟩
  resources := fun j =>
    match j with
    | 0 => ⟨50, 50, false, 500, 0⟩
    | 1 => ⟨30, 30, false, 0, 0⟩
    | _ => ⟨0, 0, false, 0, 0⟩
  tests := fun i =>
    match i with
    | 0 => ⟨0, 0, 100, 80 / 100, 0, fun j => if j = 0 then 10 else 0, fun _ => 0, 0⟩
    | 1 => ⟨1, 1, 50, 10 / 100, 0, fun j => if j = 0 then 5 else 0, fun _ => 0, 0⟩
    | 2 => ⟨2, 1, 150, 15 / 100, 0, fun j => if j = 0 then 15 else 0, fun _ => 0, 0⟩
    | 3 => ⟨3, 2, 200, 90 / 100, 0, fun j => if j = 0 then 20 else 0, fun _ => 0, 0⟩
    | 4 => ⟨4, 0, 50, 50 / 100, 0, fun j => if j = 0 then 5 else 0, fun _ => 0, 0⟩
    | _ => ⟨0, 0, 0, 0, 0, fun _ => 0, fun _ => 0, 0⟩
  is_scheduled := fun _ => false
  total_cost := 0
  total_utility := 0
  equity_count := 0

/-! ## The run in double precision

The functions of the run that do arithmetic, a second time with the result of every
`double` operation rounded to binary64 by `round_double` (the arithmetic of an x86-64
build, where each operation is rounded on its own).  Comparisons, flags, counters, the
pools and the comparators are the ones above.  The values of a state are then binary64
values. -/

/-- One iteration of the loop of `calculate_marginal_cost`, the addition rounded. -/
def calculate_marginal_cost_double_body (resources : Nat → Resource) (test : Test) (j : Nat) :
    Test :=
  if (resources j).R_SetupCost > 0 ∧ (resources j).Utilized = false then
    { test with
      Marginal_Cost := round_double (test.Marginal_Cost + (resources j).R_SetupCost) }
  else test

/-- Function `void calculate_marginal_cost(Test *test, const Resource *resources)` in double
precision: `C_Explicit` first, then the setup costs in index order. -/
def calculate_marginal_cost_double (num_resources : Int) (test : Test)
    (resources : Nat → Resource) : Test :=
  (List.range num_resources.toNat).foldl (calculate_marginal_cost_double_body resources)
    { test with Marginal_Cost := test.C_Explicit }

/-- Function `void calculate_tps(Test *test, const Condition *cond)` in double precision. -/
def calculate_tps_double (num_resources : Int) (test : Test) (cond : Condition) : Test :=
  let time_demand_sum : ℚ := if num_resources > 0 then test.D_Immediate 0 else 0
  let numerator : ℚ := round_double (cond.W_Crit * cond.W_Surv)
  let denominator : ℚ := round_double (test.Marginal_Cost + time_demand_sum)
  { test with TPS := if denominator > 0 then round_double (numerator / denominator) else 0 }

/-- The loop of `check_feasibility` in double precision: the sum in the second comparison
is rounded. -/
def check_feasibility_double_loop (test : Test) (resources : Nat → Resource) :
    List Nat → Bool
  | [] => true
  | j :: js =>
    if (resources j).Cap_Rem < test.D_Immediate j then false
    else if (resources j).Cap_Total <
        round_double ((resources j).Future_Demand_Commit + test.D_Future_Calc j) then false
    else check_feasibility_double_loop test resources js

/-- Function `bool check_feasibility(const Test *test, const Resource *resources)` in double
precision. -/
def check_feasibility_double (num_resources : Int) (test : Test)
    (resources : Nat → Resource) : Bool :=
  check_feasibility_double_loop test resources (List.range num_resources.toNat)

/-- One iteration of the loop of `schedule_test` in double precision. -/
def schedule_test_double_body (test : Test) (s : State) (j : Nat) : State :=
  let r := s.resources j
  let r1 : Resource := { r with Cap_Rem := round_double (r.Cap_Rem - test.D_Immediate j) }
  let r2 : Resource :=
    { r1 with
      Future_Demand_Commit := round_double (r1.Future_Demand_Commit + test.D_Future_Calc j) }
  if r2.R_SetupCost > 0 ∧ r2.Utilized = false then
    { s with
      resources := Function.update s.resources j { r2 with Utilized := true }
      total_cost := round_double (s.total_cost + r2.R_SetupCost) }
  else
    { s with resources := Function.update s.resources j r2 }

/-- Function `void schedule_test(int test_index, const Condition *cond)` in double
precision: the setup costs are added to `total_cost` in index order, then `C_Explicit`. -/
def schedule_test_double (s : State) (test_index : Nat) (cond : Condition) : State :=
  let test := s.tests test_index
  let s1 : State := { s with is_scheduled := Function.update s.is_scheduled test_index true }
  let s2 := (List.range s.num_resources.toNat).foldl (schedule_test_double_body test) s1
  { s2 with
    total_cost := round_double (s2.total_cost + test.C_Explicit)
    total_utility := round_double (s2.total_utility + round_double (cond.W_Crit * cond.W_Surv)) }

/-- The inner loop of the scoring pass in double precision. -/
def future_demand_double_body (test : Test) (j : Nat) : Test :=
  { test with
    D_Future_Calc := Function.update test.D_Future_Calc j (round_double (test.P_Pos * 1)) }

/-- One iteration of the scoring pass in double precision. -/
def scoring_double_body (s : State) (i : Nat) : State :=
  let k := (s.tests i).condition_k
  let t1 := (List.range s.num_resources.toNat).foldl future_demand_double_body (s.tests i)
  let t2 := calculate_marginal_cost_double s.num_resources t1 s.resources
  let t3 := calculate_tps_double s.num_resources t2 (s.conditions k)
  { s with tests := Function.update s.tests i t3 }

/-- The scoring pass in double precision. -/
def scoring_pass_double (s : State) : State :=
  (List.range s.num_tests.toNat).foldl scoring_double_body s

/-- The test of the `if` in both greedy walks, in double precision: the sum
`total_cost + tests[i].Marginal_Cost` is rounded before it is compared with `B_Max`. -/
def can_commit_double (s : State) (original_index : Nat) : Bool :=
  check_feasibility_double s.num_resources (s.tests original_index) s.resources &&
    decide (round_double (s.total_cost + (s.tests original_index).Marginal_Cost) ≤ s.B_Max)

/-- The Phase 1 walk in double precision. -/
def phase1_loop_double (target : Int) : List Test → State → State × List Visit
  | [], s => (s, [])
  | c :: rest, s =>
    if s.equity_count < target then
      let original_index := c.test_id
      if can_commit_double s original_index then
        let s1 := schedule_test_double s original_index
          (s.conditions (s.tests original_index).condition_k)
        let s2 : State := { s1 with equity_count := s1.equity_count + 1 }
        let r := phase1_loop_double target rest s2
        (r.1, ⟨1, original_index, s, true, s2⟩ :: r.2)
      else
        let r := phase1_loop_double target rest s
        (r.1, ⟨1, original_index, s, false, s⟩ :: r.2)
    else (s, [])

/-- One iteration of the loop that fills `pool_all`, in double precision. -/
def pool_all_double_body (acc : State × List Test) (i : Nat) : State × List Test :=
  let s := acc.1
  if s.is_scheduled i = false then
    let t1 := calculate_marginal_cost_double s.num_resources (s.tests i) s.resources
    let t2 := calculate_tps_double s.num_resources t1 (s.conditions (s.tests i).condition_k)
    ({ s with tests := Function.update s.tests i t2 }, acc.2 ++ [t2])
  else acc

/-- The loop that fills `pool_all`, in double precision. -/
def build_pool_all_double (s : State) : State × List Test :=
  (List.range s.num_tests.toNat).foldl pool_all_double_body (s, [])

/-- The Phase 2 walk in double precision. -/
def phase2_loop_double : List Test → State → State × List Visit
  | [], s => (s, [])
  | c :: rest, s =>
    let original_index := c.test_id
    if can_commit_double s original_index then
      let s1 := schedule_test_double s original_index
        (s.conditions (s.tests original_index).condition_k)
      let r := phase2_loop_double rest s1
      (r.1, ⟨2, original_index, s, true, s1⟩ :: r.2)
    else
      let r := phase2_loop_double rest s
      (r.1, ⟨2, original_index, s, false, s⟩ :: r.2)

/-- Function `void run_allocation_algorithm()` in double precision. -/
def run_allocation_algorithm_double (qsort : Qsort) (s : State) : Run :=
  let s0 := scoring_pass_double (initialize_globals s)
  let target := equity_target s0
  let pool1 := qsort compare_demand_asc (build_pool_low_crit s0)
  let r1 := phase1_loop_double target pool1 s0
  let b := build_pool_all_double r1.1
  let pool2 := qsort compare_tps_desc b.2
  let r2 := phase2_loop_double pool2 b.1
  { scored := s0, target := target, pool1 := pool1, trace1 := r1.2, after_phase1 := r1.1,
    phase2_start := b.1, pool2 := pool2, trace2 := r2.2, final := r2.1 }

/-- The state `setup_user_input` leaves when these values are entered: budget `0.6`; two
resources of capacity 10 with setup costs `0.2` and `0.1`; one condition with both weights
1; one test for condition 0 with explicit cost `0.3`, prevalence 0 and no immediate
demand.  Each decimal is stored as the nearest binary64 value. -/
def budget_rounding_data : State where
  B_Max := round_double (6 / 10)
  num_resources := 2
  num_conditions := 1
  num_tests := 1
  conditions := fun k =>
    match k with
    | 0 => ⟨0, 1, 1⟩
    | _ => ⟨0, 0, 0⟩
  resources := fun j =>
    match j with
    | 0 => ⟨10, 10, false, round_double (2 / 10), 0⟩
    | 1 => ⟨10, 10, false, round_double (1 / 10), 0⟩
    | _ => ⟨0, 0, false, 0, 0⟩
  tests := fun i =>
    match i with
    | 0 => ⟨0, 0, round_double (3 / 10), 0, 0, fun _ => 0, fun _ => 0, 0⟩
    | _ => ⟨0, 0, 0, 0, 0, fun _ => 0, fun _ => 0, 0⟩
  is_scheduled := fun _ => false
  total_cost := 0
  total_utility := 0
  equity_count := 0

/-! ## Specification-side definitions -/

/-- The spec's "sum of setup costs over all resources `j` where `setupCost(j) > 0` and
`utilized(j) == false`", over the configured resources. -/
def unutilized_setup_sum (num_resources : Int) (resources : Nat → Resource) : ℚ :=
  ∑ j in (Finset.range num_resources.toNat).filter
      (fun j => 0 < (resources j).R_SetupCost ∧ (resources j).Utilized = false),
    (resources j).R_SetupCost

/-- The spec's marginal cost: explicit cost plus the setup cost of every chargeable,
not yet utilized resource. -/
def spec_marginal_cost (num_resources : Int) (test : Test) (resources : Nat → Resource) : ℚ :=
  test.C_Explicit + unutilized_setup_sum num_resources resources

/-- What the loop body of `schedule_test` leaves in `resources[j]`. -/
def committed_resource (test : Test) (r : Resource) (j : Nat) : Resource :=
  { Cap_Total := r.Cap_Total
    Cap_Rem := r.Cap_Rem - test.D_Immediate j
    Utilized := r.Utilized || decide (0 < r.R_SetupCost)
    R_SetupCost := r.R_SetupCost
    Future_Demand_Commit := r.Future_Demand_Commit + test.D_Future_Calc j }

/-- An input as `setup_user_input` can build it: one test that needs only resource 0,
and a second resource, never demanded, that has a setup cost of 500. -/
def idle_setup_data : State where
  B_Max := 1000
  num_resources := 2
  num_conditions := 1
  num_tests := 1
  conditions := fun k =>
    match k with
    | 0 => ⟨0, 80, 70⟩
    | _ => ⟨0, 0, 0⟩
  resources := fun j =>
    match j with
    | 0 => ⟨50, 50, false, 0, 0⟩
    | 1 => ⟨30, 30, false, 500, 0⟩
    | _ => ⟨0, 0, false, 0, 0⟩
  tests := fun i =>
    match i with
    | 0 => ⟨0, 0, 100, 50 / 100, 0, fun j => if j = 0 then 10 else 0, fun _ => 0, 0⟩
    | _ => ⟨0, 0, 0, 0, 0, fun _ => 0, fun _ => 0, 0⟩
  is_scheduled := fun _ => false
  total_cost := 0
  total_utility := 0
  equity_count := 0

/-- An input without resource categories, as `setup_user_input` can build it: budget 120,
two conditions and two tests of explicit cost 100 and 50. -/
def no_resource_data : State where
  B_Max := 120
  num_resources := 0
  num_conditions := 2
  num_tests := 2
  conditions := fun k =>
    match k with
    | 0 => ⟨0, 80, 70⟩
    | 1 => ⟨1, 20, 95⟩
    | _ => ⟨0, 0, 0⟩
  resources := fun _ => ⟨0, 0, false, 0, 0⟩
  tests := fun i =>
    match i with
    | 0 => ⟨0, 0, 100, 80 / 100, 0, fun _ => 0, fun _ => 0, 0⟩
    | 1 => ⟨1, 1, 50, 10 / 100, 0, fun _ => 0, fun _ => 0, 0⟩
    | _ => ⟨0, 0, 0, 0, 0, fun _ => 0, fun _ => 0, 0⟩
  is_scheduled := fun _ => false
  total_cost := 0
  total_utility := 0
  equity_count := 0

/-- The example input with the capacity of resource 0 lowered to 10, as
`setup_user_input` can build it; its equity target is 1. -/
def small_capacity_data : State :=
  { example_input_data with
    resources := fun j =>
      match j with
      | 0 => ⟨10, 10, false, 500, 0⟩
      | 1 => ⟨30, 30, false, 0, 0⟩
      | _ => ⟨0, 0, false, 0, 0⟩ }

/-- The example input with `113.33333333333333` entered as the capacity of resource 0:
the program stores the nearest binary64 value. -/
def rounded_target_data : State :=
  { example_input_data with
    resources := fun j =>
      match j with
      | 0 => ⟨round_double (11333333333333333 / 100000000000000),
          round_double (11333333333333333 / 100000000000000), false, 500, 0⟩
      | 1 => ⟨30, 30, false, 0, 0⟩
      | _ => ⟨0, 0, false, 0, 0⟩ }

/-- The example input with `2e10` entered as the capacity of resource 0. -/
def huge_capacity_data : State :=
  { example_input_data with
    resources := fun j =>
      match j with
      | 0 => ⟨20000000000, 20000000000, false, 500, 0⟩
      | 1 => ⟨30, 30, false, 0, 0⟩
      | _ => ⟨0, 0, false, 0, 0⟩ }

/-! ## Vocabulary for the run -/

/-- The entry the scoring pass stores in `tests[i]`. -/
def scored_test (s : State) (i : Nat) : Test :=
  calculate_tps s.num_resources
    (calculate_marginal_cost s.num_resources
      ((List.range s.num_resources.toNat).foldl future_demand_body (s.tests i)) s.resources)
    (s.conditions (s.tests i).condition_k)

/-- The entry the `pool_all` loop stores in `tests[i]` for an unscheduled test. -/
def rescored_test (s : State) (i : Nat) : Test :=
  calculate_tps s.num_resources
    (calculate_marginal_cost s.num_resources (s.tests i) s.resources)
    (s.conditions (s.tests i).condition_k)

/-- What a committing iteration of a greedy walk does to the state: `schedule_test` on the
candidate and, in Phase 1, `equity_count++`. -/
def commit_step (phase : Nat) (s : State) (i : Nat) : State :=
  let s1 := schedule_test s i (s.conditions (s.tests i).condition_k)
  if phase = 1 then { s1 with equity_count := s1.equity_count + 1 } else s1

/-- A logged iteration is consistent with the code of the walk: the candidate was
committed exactly when the `if` held, and the state moved accordingly. -/
def Visit.ok (v : Visit) : Prop :=
  v.committed = can_commit v.pre v.index ∧
    v.post = if v.committed = true then commit_step v.phase v.pre v.index else v.pre

/-- The log `tr` records a walk of the given phase that starts in state `s`, examines the
candidates `ids` in order (possibly stopping early) and ends in state `s'`. -/
def Walk (phase : Nat) : List Nat → State → List Visit → State → Prop
  | _, s, [], s' => s' = s
  | [], _, _ :: _, _ => False
  | i :: ids, s, v :: tr, s' =>
    v.phase = phase ∧ v.index = i ∧ v.pre = s ∧ v.ok ∧ Walk phase ids v.post tr s'

/-- The iteration `v` committed its candidate and the loop body of `schedule_test` took,
for resource `j`, the branch that sets `Utilized` and adds `R_SetupCost[j]` to
`total_cost`. -/
def Visit.charges (v : Visit) (j : Nat) : Bool :=
  v.committed && decide ((j : Int) < v.pre.num_resources) &&
    decide (0 < (v.pre.resources j).R_SetupCost) && !(v.pre.resources j).Utilized

/-- Each test's id equals its array position. -/
def IdsArePositions (s : State) : Prop :=
  ∀ i : Nat, (i : Int) < s.num_tests → (s.tests i).test_id = i

/-- State `b` differs from state `a` only in ways a sequence of commits allows: the tests,
conditions, counts and budget are the same, each resource keeps `Cap_Total` and
`R_SetupCost`, and the `Utilized` and `is_scheduled` flags that are set stay set. -/
structure Later (a b : State) : Prop where
  tests : b.tests = a.tests
  conditions : b.conditions = a.conditions
  num_tests : b.num_tests = a.num_tests
  num_resources : b.num_resources = a.num_resources
  num_conditions : b.num_conditions = a.num_conditions
  B_Max : b.B_Max = a.B_Max
  cap_total : ∀ j, (b.resources j).Cap_Total = (a.resources j).Cap_Total
  setup : ∀ j, (b.resources j).R_SetupCost = (a.resources j).R_SetupCost
  utilized : ∀ j, (a.resources j).Utilized = true → (b.resources j).Utilized = true
  scheduled : ∀ i, a.is_scheduled i = true → b.is_scheduled i = true

/-- The capacity invariant of the spec on a state: every configured resource `j` has
`0 ≤ Cap_Rem[j] ≤ Cap_Total[j]` and `Future_Demand_Commit[j] ≤ Cap_Total[j]`. -/
def CapacityOK (s : State) : Prop :=
  ∀ j : Nat, (j : Int) < s.num_resources →
    0 ≤ (s.resources j).Cap_Rem ∧ (s.resources j).Cap_Rem ≤ (s.resources j).Cap_Total ∧
      (s.resources j).Future_Demand_Commit ≤ (s.resources j).Cap_Total

/-- Every immediate demand stored in the `tests` array, on a configured resource, is
non-negative. -/
def DemandsNonneg (s : State) : Prop :=
  ∀ i j : Nat, (j : Int) < s.num_resources → 0 ≤ (s.tests i).D_Immediate j

/-- Every explicit cost in the `tests` array and every weight in the `conditions` array
is non-negative. -/
def CostsAndWeightsNonneg (s : State) : Prop :=
  (∀ i : Nat, 0 ≤ (s.tests i).C_Explicit) ∧
    ∀ k : Nat, 0 ≤ (s.conditions k).W_Crit ∧ 0 ≤ (s.conditions k).W_Surv

/-- Both running totals of `b` are at least those of `a`. -/
def LedgerLe (a b : State) : Prop :=
  a.total_cost ≤ b.total_cost ∧ a.total_utility ≤ b.total_utility

/-- The scores of Scenario A for one `tests[]` entry: `Marginal_Cost` is `C_Explicit`, and
`TPS` is `(W_Crit * W_Surv) / Marginal_Cost` of the test's condition when
`Marginal_Cost > 0` and 0 otherwise. -/
def ScenarioAScores (conditions : Nat → Condition) (t : Test) : Prop :=
  t.Marginal_Cost = t.C_Explicit ∧
    t.TPS = if 0 < t.Marginal_Cost then
      ((conditions t.condition_k).W_Crit * (conditions t.condition_k).W_Surv) / t.Marginal_Cost
    else 0

/-- Each of the `num_tests` tests has non-negative immediate demands on the configured
resources, a non-negative positivity probability and a non-negative explicit cost. -/
def TestsNonneg (s : State) : Prop :=
  ∀ i : Nat, (i : Int) < s.num_tests →
    (∀ j : Nat, (j : Int) < s.num_resources → 0 ≤ (s.tests i).D_Immediate j) ∧
      0 ≤ (s.tests i).P_Pos ∧ 0 ≤ (s.tests i).C_Explicit

/-- State `b` is later than `a` and at least as tight: no less spent, no more remaining
capacity and no less committed future demand on any configured resource. -/
def Tighter (a b : State) : Prop :=
  Later a b ∧ a.total_cost ≤ b.total_cost ∧
    ∀ j : Nat, (j : Int) < a.num_resources →
      (b.resources j).Cap_Rem ≤ (a.resources j).Cap_Rem ∧
        (a.resources j).Future_Demand_Commit ≤ (b.resources j).Future_Demand_Commit

/-- In state `t` each test below `num_tests` has non-negative immediate and projected
future demands on the configured resources and a non-negative explicit cost. -/
def LoadsNonneg (num_tests num_resources : Int) (t : State) : Prop :=
  t.num_resources = num_resources ∧
    ∀ i : Nat, (i : Int) < num_tests →
      (∀ j : Nat, (j : Int) < num_resources →
        0 ≤ (t.tests i).D_Immediate j ∧ 0 ≤ (t.tests i).D_Future_Calc j) ∧
      0 ≤ (t.tests i).C_Explicit

/-- The Phase 1 walk as a function of the candidates' ids alone. -/
def walk1_ids (target : Int) : List Nat → State → State × List Visit
  | [], s => (s, [])
  | i :: rest, s =>
    if s.equity_count < target then
      if can_commit s i = true then
        ((walk1_ids target rest (commit_step 1 s i)).1,
          ⟨1, i, s, true, commit_step 1 s i⟩ :: (walk1_ids target rest (commit_step 1 s i)).2)
      else ((walk1_ids target rest s).1, ⟨1, i, s, false, s⟩ :: (walk1_ids target rest s).2)
    else (s, [])

/-- The Phase 2 walk as a function of the candidates' ids alone. -/
def walk2_ids : List Nat → State → State × List Visit
  | [], s => (s, [])
  | i :: rest, s =>
    if can_commit s i = true then
      ((walk2_ids rest (commit_step 2 s i)).1,
        ⟨2, i, s, true, commit_step 2 s i⟩ :: (walk2_ids rest (commit_step 2 s i)).2)
    else ((walk2_ids rest s).1, ⟨2, i, s, false, s⟩ :: (walk2_ids rest s).2)

/-- The state in which Phase 1 ends when its sorted pool lists the ids `ids1`. -/
def after_phase1_of (s : State) (ids1 : List Nat) : State :=
  (walk1_ids (equity_target (scoring_pass (initialize_globals s))) ids1
    (scoring_pass (initialize_globals s))).1

/-- The final state and the log of the run in which the two sorted pools list the ids
`ids1` and `ids2`. -/
def replay (s : State) (ids1 ids2 : List Nat) : State × List Visit :=
  ((walk2_ids ids2 (build_pool_all (after_phase1_of s ids1)).1).1,
    (walk1_ids (equity_target (scoring_pass (initialize_globals s))) ids1
        (scoring_pass (initialize_globals s))).2 ++
      (walk2_ids ids2 (build_pool_all (after_phase1_of s ids1)).1).2)

/-- The orders in which a sorting routine may leave the ids of `pool_low_crit`: the
rearrangements of the low-priority ids that are non-decreasing in `D_Immediate[0]`. -/
def phase1_orders (s : State) : List (List Nat) :=
  (((List.range (scoring_pass (initialize_globals s)).num_tests.toNat).filter
      (fun i => decide ((scoring_pass (initialize_globals s)).is_scheduled i = false ∧
        ((scoring_pass (initialize_globals s)).tests i).TPS < TPS_CUTOFF))).permutations').filter
    (fun l => decide (l.Pairwise (fun i j =>
      ((scoring_pass (initialize_globals s)).tests i).D_Immediate 0 ≤
        ((scoring_pass (initialize_globals s)).tests j).D_Immediate 0)))

/-- The orders in which a sorting routine may leave the ids of `pool_all` after a Phase 1
that walked `ids1`: the rearrangements of the unscheduled ids that are non-increasing in
the rescored `TPS`. -/
def phase2_orders (s : State) (ids1 : List Nat) : List (List Nat) :=
  (((List.range (after_phase1_of s ids1).num_tests.toNat).filter
      (fun i => decide ((after_phase1_of s ids1).is_scheduled i = false))).permutations').filter
    (fun l => decide (l.Pairwise (fun i j =>
      ((build_pool_all (after_phase1_of s ids1)).1.tests j).TPS ≤
        ((build_pool_all (after_phase1_of s ids1)).1.tests i).TPS)))

/-- Insertion sort of the reversed array: an admissible `qsort` that leaves equal keys in
the opposite order. -/
def reverse_insertion_qsort : Qsort :=
  fun cmp pool => pool.reverse.insertionSort (fun a b => cmp a b ≤ 0)

/-- The outcome Scenario B expects of the example, on a final state and a log:
one equity commit; resource 0 charged once and resource 1 never; the first commit is the
charging one, of a test of explicit cost 50, and leaves `total_cost = 550`; tests 0, 1, 2
and 4 scheduled and test 3 not; `total_cost = 850`, `total_utility = 15000` and
`Cap_Rem[0] = 15`. -/
def ScenarioBOutcome (r : State × List Visit) : Prop :=
  r.1.equity_count = 1 ∧
  r.2.countP (fun v => v.charges 0) = 1 ∧
  r.2.countP (fun v => v.charges 1) = 0 ∧
  (r.2.find? (fun v => v.committed)).map
    (fun v => (v.charges 0, v.post.total_cost, (v.pre.tests v.index).C_Explicit)) =
      some (true, 550, 50) ∧
  (List.range 5).map r.1.is_scheduled = [true, true, true, false, true] ∧
  r.1.total_cost = 850 ∧ r.1.total_utility = 15000 ∧ (r.1.resources 0).Cap_Rem = 15

instance (r : State × List Visit) : Decidable (ScenarioBOutcome r) := by
  unfold ScenarioBOutcome
  infer_instance

/-- Insertion sort of the array rotated by three places: an admissible `qsort` that
leaves equal keys in yet another order. -/
def rotated_insertion_qsort : Qsort :=
  fun cmp pool => (pool.rotate 3).insertionSort (fun a b => cmp a b ≤ 0)

/-- What a run on the values `setup_preset_data` stores ends with, on a final state and a
log: one equity commit, made by the first iteration of the run; resource 0 charged once,
by that commit, which leaves `total_cost` at 500 plus the explicit cost of its test, and
resource 1 never; `Cap_Rem[0]` still 50; and either the run did not start with test 3 and
ends with tests 0, 1, 2, 4 scheduled, `total_cost = 850` and `total_utility = 15000`, or it
started with test 3 and ends with tests 0, 1, 3, 4 scheduled, `total_cost = 900` and
`total_utility = 13600`. -/
def PresetDataOutcome (r : State × List Visit) : Prop :=
  r.1.equity_count = 1 ∧
  r.2.countP (fun v => v.charges 0) = 1 ∧
  r.2.countP (fun v => v.charges 1) = 0 ∧
  r.2.head?.map (fun v => (v.phase, v.committed, v.charges 0,
    decide (v.post.total_cost = 500 + (v.pre.tests v.index).C_Explicit))) =
      some (1, true, true, true) ∧
  (r.1.resources 0).Cap_Rem = 50 ∧
  ((r.2.head?.map (fun v => decide (v.index = 3)) = some false ∧
      (List.range 5).map r.1.is_scheduled = [true, true, true, false, true] ∧
      r.1.total_cost = 850 ∧ r.1.total_utility = 15000) ∨
    (r.2.head?.map (fun v => decide (v.index = 3)) = some true ∧
      (List.range 5).map r.1.is_scheduled = [true, true, false, true, true] ∧
      r.1.total_cost = 900 ∧ r.1.total_utility = 13600))

instance (r : State × List Visit) : Decidable (PresetDataOutcome r) := by
  unfold PresetDataOutcome
  infer_instance

/-! ## Lemmas on the leaf functions -/

theorem unutilized_setup_sum_nonneg (n : Int) (resources : Nat → Resource) :
    0 ≤ unutilized_setup_sum n resources := by
  unfold unutilized_setup_sum
  apply Finset.sum_nonneg
  intro j hj
  exact le_of_lt (Finset.mem_filter.mp hj).2.1

theorem marginal_cost_foldl (resources : Nat → Resource) (n : Nat) (t : Test) :
    (List.range n).foldl (calculate_marginal_cost_body resources) t =
      { t with Marginal_Cost := t.Marginal_Cost +
          (∑ j in (Finset.range n).filter
              (fun j => 0 < (resources j).R_SetupCost ∧ (resources j).Utilized = false),
            (resources j).R_SetupCost) } := by
  induction n with
  | zero => simp
  | succ n ih =>
    rw [List.range_succ, List.foldl_append, ih, Finset.range_succ, Finset.filter_insert]
    simp only [List.foldl_cons, List.foldl_nil, calculate_marginal_cost_body, gt_iff_lt]
    split_ifs with h
    · rw [Finset.sum_insert (by simp)]
      congr 1
      ring
    · rfl

theorem calculate_marginal_cost_eq (n : Int) (t : Test) (resources : Nat → Resource) :
    calculate_marginal_cost n t resources =
      { t with Marginal_Cost := spec_marginal_cost n t resources } := by
  unfold calculate_marginal_cost spec_marginal_cost unutilized_setup_sum
  rw [marginal_cost_foldl]

theorem check_feasibility_loop_iff (test : Test) (resources : Nat → Resource) (js : List Nat) :
    check_feasibility_loop test resources js = true ↔
      ∀ j ∈ js, (resources j).Cap_Rem ≥ test.D_Immediate j ∧
        (resources j).Cap_Total ≥ (resources j).Future_Demand_Commit + test.D_Future_Calc j := by
  induction js with
  | nil => simp [check_feasibility_loop]
  | cons j js ih =>
    simp only [check_feasibility_loop, List.mem_cons, forall_eq_or_imp, ge_iff_le]
    split_ifs with h1 h2
    · simp only [Bool.false_eq_true, false_iff, not_and]
      intro h
      exact absurd h.1 (not_le.mpr h1)
    · simp only [Bool.false_eq_true, false_iff, not_and]
      intro h
      exact absurd h.2 (not_le.mpr h2)
    · rw [ih]
      simp only [ge_iff_le]
      constructor
      · intro h
        exact ⟨⟨not_lt.mp h1, not_lt.mp h2⟩, h⟩
      · intro h
        exact h.2

theorem mem_range_toNat (n : Int) (j : Nat) : j ∈ List.range n.toNat ↔ (j : Int) < n := by
  rw [List.mem_range]
  omega

theorem check_feasibility_iff (n : Int) (test : Test) (resources : Nat → Resource) :
    check_feasibility n test resources = true ↔
      ∀ j : Nat, (j : Int) < n → (resources j).Cap_Rem ≥ test.D_Immediate j ∧
        (resources j).Cap_Total ≥ (resources j).Future_Demand_Commit + test.D_Future_Calc j := by
  unfold check_feasibility
  rw [check_feasibility_loop_iff]
  simp only [mem_range_toNat]

theorem schedule_test_foldl (test : Test) (n : Nat) (s : State) :
    (List.range n).foldl (schedule_test_body test) s =
      { s with
        resources := fun j =>
          if j < n then committed_resource test (s.resources j) j else s.resources j
        total_cost := s.total_cost +
          (∑ j in (Finset.range n).filter
              (fun j => 0 < (s.resources j).R_SetupCost ∧ (s.resources j).Utilized = false),
            (s.resources j).R_SetupCost) } := by
  induction n with
  | zero => simp
  | succ n ih =>
    rw [List.range_succ, List.foldl_append, ih, Finset.range_succ, Finset.filter_insert]
    simp only [List.foldl_cons, List.foldl_nil, schedule_test_body, gt_iff_lt, lt_irrefl,
      if_false]
    have hres : ∀ (u : Bool), (Function.update
        (fun j => if j < n then committed_resource test (s.resources j) j else s.resources j) n
        { Cap_Total := (s.resources n).Cap_Total,
          Cap_Rem := (s.resources n).Cap_Rem - test.D_Immediate n,
          Utilized := u,
          R_SetupCost := (s.resources n).R_SetupCost,
          Future_Demand_Commit := (s.resources n).Future_Demand_Commit + test.D_Future_Calc n }) =
        fun j => if j < n + 1 then
          (if j = n then { committed_resource test (s.resources j) j with Utilized := u }
            else committed_resource test (s.resources j) j) else s.resources j := by
      intro u
      funext j
      by_cases hj : j = n
      · subst hj
        simp [committed_resource]
      · rw [Function.update_noteq hj]
        by_cases hlt : j < n
        · simp [hlt, hj, Nat.lt_succ_of_lt hlt]
        · have : ¬ j < n + 1 := by omega
          simp [hlt, this]
    split_ifs with h
    · rw [Finset.sum_insert (by simp), hres]
      congr 1
      · funext j
        by_cases hj : j = n
        · subst hj
          simp [committed_resource, h.1, h.2]
        · simp [hj]
      · ring
    · rw [hres]
      congr 1
      funext j
      by_cases hj : j = n
      · subst hj
        simp only [if_true, committed_resource]
        by_cases hu : (s.resources j).Utilized = true
        · simp [hu]
        · have hc : ¬ 0 < (s.resources j).R_SetupCost := fun hc => h ⟨hc, by simpa using hu⟩
          simp [hc]
      · simp [hj]

theorem schedule_test_eq (s : State) (i : Nat) (cond : Condition) :
    schedule_test s i cond =
      { s with
        is_scheduled := Function.update s.is_scheduled i true
        resources := fun j =>
          if j < s.num_resources.toNat then committed_resource (s.tests i) (s.resources j) j
          else s.resources j
        total_cost := s.total_cost + unutilized_setup_sum s.num_resources s.resources +
          (s.tests i).C_Explicit
        total_utility := s.total_utility + cond.W_Crit * cond.W_Surv } := by
  unfold schedule_test unutilized_setup_sum
  simp only [schedule_test_foldl]

/-! ## Claims on the leaf functions -/

/-- C3: `check_feasibility` returns true if and only if every configured resource `j`
(`0 ≤ j < num_resources`) satisfies `Cap_Rem[j] ≥ D_Immediate[j]` and
`Cap_Total[j] ≥ Future_Demand_Commit[j] + D_Future_Calc[j]`; the second condition reads
the total capacity, not the remaining one.  The function is a pure predicate of its
arguments: it yields a boolean and no state. -/
theorem C3_check_feasibility_iff (num_resources : Int) (test : Test)
    (resources : Nat → Resource) :
    check_feasibility num_resources test resources = true ↔
      ∀ j : Nat, (j : Int) < num_resources →
        (resources j).Cap_Rem ≥ test.D_Immediate j ∧
        (resources j).Cap_Total ≥
          (resources j).Future_Demand_Commit + test.D_Future_Calc j :=
  check_feasibility_iff num_resources test resources

/-- C4: after `calculate_marginal_cost` the test's `Marginal_Cost` is `C_Explicit` plus the
sum of `R_SetupCost[j]` over all configured resources `j` with `R_SetupCost[j] > 0` and
`Utilized[j] == false`; no other field of the test changes; the result depends on the
test only through `C_Explicit` (neither on its demands nor on the previous
`Marginal_Cost`); and a second call on the unchanged resource state changes nothing. -/
theorem C4_calculate_marginal_cost_spec (num_resources : Int) (test : Test)
    (resources : Nat → Resource) :
    (calculate_marginal_cost num_resources test resources).Marginal_Cost =
        test.C_Explicit +
          ∑ j in (Finset.range num_resources.toNat).filter
              (fun j => 0 < (resources j).R_SetupCost ∧ (resources j).Utilized = false),
            (resources j).R_SetupCost ∧
      calculate_marginal_cost num_resources test resources =
        { test with Marginal_Cost := spec_marginal_cost num_resources test resources } ∧
      (∀ other : Test, other.C_Explicit = test.C_Explicit →
        (calculate_marginal_cost num_resources other resources).Marginal_Cost =
          (calculate_marginal_cost num_resources test resources).Marginal_Cost) ∧
      calculate_marginal_cost num_resources
          (calculate_marginal_cost num_resources test resources) resources =
        calculate_marginal_cost num_resources test resources := by
  refine ⟨?_, calculate_marginal_cost_eq _ _ _, ?_, ?_⟩
  · rw [calculate_marginal_cost_eq]
    rfl
  · intro other h
    rw [calculate_marginal_cost_eq, calculate_marginal_cost_eq]
    simp only [spec_marginal_cost, h]
  · rw [calculate_marginal_cost_eq, calculate_marginal_cost_eq]
    rfl

/-- C5: `calculate_tps` sets `TPS = (W_Crit * W_Surv) / (Marginal_Cost + D_Immediate[0])`
when `num_resources > 0` and that denominator is strictly positive, and `TPS = 0` when the
denominator is zero or negative; when no resource is configured the `D_Immediate[0]` term
is replaced by 0, so the denominator is `Marginal_Cost` alone; the score depends on the
demands only through index 0; and no other field of the test changes. -/
theorem C5_calculate_tps_spec (num_resources : Int) (test : Test) (cond : Condition) :
    (0 < num_resources →
      (calculate_tps num_resources test cond).TPS =
        if 0 < test.Marginal_Cost + test.D_Immediate 0 then
          (cond.W_Crit * cond.W_Surv) / (test.Marginal_Cost + test.D_Immediate 0)
        else 0) ∧
    (num_resources ≤ 0 →
      (calculate_tps num_resources test cond).TPS =
        if 0 < test.Marginal_Cost then (cond.W_Crit * cond.W_Surv) / test.Marginal_Cost
        else 0) ∧
    (∀ other : Test, other.Marginal_Cost = test.Marginal_Cost →
      other.D_Immediate 0 = test.D_Immediate 0 →
      (calculate_tps num_resources other cond).TPS =
        (calculate_tps num_resources test cond).TPS) ∧
    calculate_tps num_resources test cond =
      { test with TPS := (calculate_tps num_resources test cond).TPS } := by
  refine ⟨?_, ?_, ?_, rfl⟩
  · intro h
    simp [calculate_tps, h]
  · intro h
    simp [calculate_tps, not_lt.mpr h]
  · intro other h1 h2
    simp [calculate_tps, h1, h2]

/-- C6: `schedule_test(i)` sets `is_scheduled[i]`, and for each configured resource `j`
lowers `Cap_Rem[j]` by exactly `tests[i].D_Immediate[j]` and raises
`Future_Demand_Commit[j]` by exactly `tests[i].D_Future_Calc[j]`; it leaves unchanged every
other scheduled flag, all tests, every resource's `Cap_Total` and `R_SetupCost`, the
resources that are not configured, the conditions, the counts, `B_Max` and
`equity_count`. -/
theorem C6_schedule_test_frame (s : State) (i : Nat) (cond : Condition) :
    (schedule_test s i cond).is_scheduled i = true ∧
    (∀ j : Nat, (j : Int) < s.num_resources →
      ((schedule_test s i cond).resources j).Cap_Rem =
          (s.resources j).Cap_Rem - (s.tests i).D_Immediate j ∧
      ((schedule_test s i cond).resources j).Future_Demand_Commit =
          (s.resources j).Future_Demand_Commit + (s.tests i).D_Future_Calc j) ∧
    (∀ k : Nat, k ≠ i → (schedule_test s i cond).is_scheduled k = s.is_scheduled k) ∧
    (schedule_test s i cond).tests = s.tests ∧
    (∀ j : Nat, ((schedule_test s i cond).resources j).Cap_Total = (s.resources j).Cap_Total ∧
      ((schedule_test s i cond).resources j).R_SetupCost = (s.resources j).R_SetupCost) ∧
    (∀ j : Nat, ¬ (j : Int) < s.num_resources →
      (schedule_test s i cond).resources j = s.resources j) ∧
    (schedule_test s i cond).conditions = s.conditions ∧
    (schedule_test s i cond).num_tests = s.num_tests ∧
    (schedule_test s i cond).num_resources = s.num_resources ∧
    (schedule_test s i cond).num_conditions = s.num_conditions ∧
    (schedule_test s i cond).B_Max = s.B_Max ∧
    (schedule_test s i cond).equity_count = s.equity_count := by
  rw [schedule_test_eq]
  refine ⟨by simp, ?_, ?_, rfl, ?_, ?_, rfl, rfl, rfl, rfl, rfl, rfl⟩
  · intro j hj
    have hj2 : j < s.num_resources.toNat := by omega
    simp [hj2, committed_resource]
  · intro k hk
    simp [Function.update_noteq hk]
  · intro j
    by_cases hj : j < s.num_resources.toNat <;> simp [hj, committed_resource]
  · intro j hj
    have hj2 : ¬ j < s.num_resources.toNat := by omega
    simp [hj2]

/-! ## Closed forms of the loops of `run_allocation_algorithm` -/

theorem initialize_globals_foldl (n : Nat) (s : State) :
    (List.range n).foldl initialize_globals_body s =
      { s with is_scheduled := fun i => if i < n then false else s.is_scheduled i } := by
  induction n with
  | zero => simp
  | succ n ih =>
    rw [List.range_succ, List.foldl_append, ih]
    simp only [List.foldl_cons, List.foldl_nil, initialize_globals_body]
    congr 1
    funext i
    by_cases hi : i = n
    · subst hi
      simp
    · rw [Function.update_noteq hi]
      by_cases hlt : i < n
      · simp [hlt, Nat.lt_succ_of_lt hlt]
      · have : ¬ i < n + 1 := by omega
        simp [hlt, this]

theorem initialize_globals_eq (s : State) :
    initialize_globals s =
      { s with
        total_cost := 0
        total_utility := 0
        equity_count := 0
        is_scheduled := fun i => if i < MAX_TESTS then false else s.is_scheduled i } := by
  unfold initialize_globals
  rw [initialize_globals_foldl]

theorem scoring_foldl (n : Nat) (s : State) :
    (List.range n).foldl scoring_body s =
      { s with tests := fun i => if i < n then scored_test s i else s.tests i } := by
  induction n with
  | zero => simp
  | succ n ih =>
    rw [List.range_succ, List.foldl_append, ih]
    simp only [List.foldl_cons, List.foldl_nil, scoring_body, lt_irrefl, if_false]
    congr 1
    funext i
    by_cases hi : i = n
    · subst hi
      simp [scored_test]
    · rw [Function.update_noteq hi]
      by_cases hlt : i < n
      · simp [hlt, Nat.lt_succ_of_lt hlt]
      · have : ¬ i < n + 1 := by omega
        simp [hlt, this]

theorem scoring_pass_eq (s : State) :
    scoring_pass s =
      { s with tests := fun i => if i < s.num_tests.toNat then scored_test s i else s.tests i } :=
  scoring_foldl _ s

theorem pool_low_crit_foldl (s : State) (n : Nat) :
    (List.range n).foldl (pool_low_crit_body s) [] =
      ((List.range n).filter
        (fun i => decide (s.is_scheduled i = false ∧ (s.tests i).TPS < TPS_CUTOFF))).map
        s.tests := by
  induction n with
  | zero => simp
  | succ n ih =>
    rw [List.range_succ, List.foldl_append, ih, List.filter_append, List.map_append]
    simp only [List.foldl_cons, List.foldl_nil, pool_low_crit_body]
    split_ifs with h
    · simp [List.filter_cons, h]
    · simp [List.filter_cons, h]

theorem pool_all_foldl (s : State) (n : Nat) :
    (List.range n).foldl pool_all_body (s, []) =
      ({ s with tests := fun i =>
          if i < n ∧ s.is_scheduled i = false then rescored_test s i else s.tests i },
        ((List.range n).filter (fun i => decide (s.is_scheduled i = false))).map
          (rescored_test s)) := by
  induction n with
  | zero => simp
  | succ n ih =>
    rw [List.range_succ, List.foldl_append, ih, List.filter_append, List.map_append]
    simp only [List.foldl_cons, List.foldl_nil, pool_all_body]
    by_cases h : s.is_scheduled n = false
    · have htests : (Function.update
          (fun i => if i < n ∧ s.is_scheduled i = false then rescored_test s i else s.tests i) n
          (rescored_test s n)) =
          fun i => if i < n + 1 ∧ s.is_scheduled i = false then rescored_test s i
            else s.tests i := by
        funext i
        by_cases hi : i = n
        · subst hi
          simp [h]
        · rw [Function.update_noteq hi]
          have : i < n + 1 ↔ i < n := by omega
          simp [this]
      simp only [h, if_true, lt_irrefl, false_and, if_false, List.filter_cons, decide_True,
        List.filter_nil, List.map_cons, List.map_nil]
      rw [← htests]
      rfl
    · have htests : (fun i => if i < n ∧ s.is_scheduled i = false then rescored_test s i
            else s.tests i) =
          fun i => if i < n + 1 ∧ s.is_scheduled i = false then rescored_test s i
            else s.tests i := by
        funext i
        by_cases hi : i = n
        · subst hi
          simp [h]
        · have : i < n + 1 ↔ i < n := by omega
          simp [this]
      have h2 : s.is_scheduled n = true := by simpa using h
      rw [← htests]
      simp [h2]

theorem future_demand_foldl (n : Nat) (t : Test) :
    (List.range n).foldl future_demand_body t =
      { t with D_Future_Calc := fun j => if j < n then t.P_Pos * 1 else t.D_Future_Calc j } := by
  induction n with
  | zero => simp
  | succ n ih =>
    rw [List.range_succ, List.foldl_append, ih]
    simp only [List.foldl_cons, List.foldl_nil, future_demand_body]
    congr 1
    funext j
    by_cases hj : j = n
    · subst hj
      simp
    · rw [Function.update_noteq hj]
      by_cases hlt : j < n
      · simp [hlt, Nat.lt_succ_of_lt hlt]
      · have : ¬ j < n + 1 := by omega
        simp [hlt, this]

theorem scored_test_test_id (s : State) (i : Nat) :
    (scored_test s i).test_id = (s.tests i).test_id := by
  simp [scored_test, calculate_tps, calculate_marginal_cost_eq, future_demand_foldl]

theorem scored_test_C_Explicit (s : State) (i : Nat) :
    (scored_test s i).C_Explicit = (s.tests i).C_Explicit := by
  simp [scored_test, calculate_tps, calculate_marginal_cost_eq, future_demand_foldl]

theorem scored_test_D_Immediate (s : State) (i : Nat) :
    (scored_test s i).D_Immediate = (s.tests i).D_Immediate := by
  simp [scored_test, calculate_tps, calculate_marginal_cost_eq, future_demand_foldl]

theorem scored_test_Marginal_Cost (s : State) (i : Nat) :
    (scored_test s i).Marginal_Cost =
      (s.tests i).C_Explicit + unutilized_setup_sum s.num_resources s.resources := by
  simp [scored_test, calculate_tps, calculate_marginal_cost_eq, future_demand_foldl,
    spec_marginal_cost]

theorem rescored_test_test_id (s : State) (i : Nat) :
    (rescored_test s i).test_id = (s.tests i).test_id := by
  simp [rescored_test, calculate_tps, calculate_marginal_cost_eq]

theorem rescored_test_C_Explicit (s : State) (i : Nat) :
    (rescored_test s i).C_Explicit = (s.tests i).C_Explicit := by
  simp [rescored_test, calculate_tps, calculate_marginal_cost_eq]

theorem rescored_test_D_Immediate (s : State) (i : Nat) :
    (rescored_test s i).D_Immediate = (s.tests i).D_Immediate := by
  simp [rescored_test, calculate_tps, calculate_marginal_cost_eq]

theorem rescored_test_D_Future_Calc (s : State) (i : Nat) :
    (rescored_test s i).D_Future_Calc = (s.tests i).D_Future_Calc := by
  simp [rescored_test, calculate_tps, calculate_marginal_cost_eq]

theorem rescored_test_Marginal_Cost (s : State) (i : Nat) :
    (rescored_test s i).Marginal_Cost =
      (s.tests i).C_Explicit + unutilized_setup_sum s.num_resources s.resources := by
  simp [rescored_test, calculate_tps, calculate_marginal_cost_eq, spec_marginal_cost]

/-! ## The commit step -/

theorem commit_step_eq (phase : Nat) (s : State) (i : Nat) :
    commit_step phase s i =
      { s with
        is_scheduled := Function.update s.is_scheduled i true
        resources := fun j =>
          if j < s.num_resources.toNat then committed_resource (s.tests i) (s.resources j) j
          else s.resources j
        total_cost := s.total_cost + unutilized_setup_sum s.num_resources s.resources +
          (s.tests i).C_Explicit
        total_utility := s.total_utility +
          (s.conditions (s.tests i).condition_k).W_Crit *
            (s.conditions (s.tests i).condition_k).W_Surv
        equity_count := if phase = 1 then s.equity_count + 1 else s.equity_count } := by
  unfold commit_step
  simp only [schedule_test_eq]
  split_ifs <;> rfl

theorem Later.refl (a : State) : Later a a :=
  ⟨rfl, rfl, rfl, rfl, rfl, rfl, fun _ => rfl, fun _ => rfl, fun _ h => h, fun _ h => h⟩

theorem Later.trans {a b c : State} (h1 : Later a b) (h2 : Later b c) : Later a c where
  tests := h2.tests.trans h1.tests
  conditions := h2.conditions.trans h1.conditions
  num_tests := h2.num_tests.trans h1.num_tests
  num_resources := h2.num_resources.trans h1.num_resources
  num_conditions := h2.num_conditions.trans h1.num_conditions
  B_Max := h2.B_Max.trans h1.B_Max
  cap_total := fun j => (h2.cap_total j).trans (h1.cap_total j)
  setup := fun j => (h2.setup j).trans (h1.setup j)
  utilized := fun j h => h2.utilized j (h1.utilized j h)
  scheduled := fun i h => h2.scheduled i (h1.scheduled i h)

theorem commit_step_later (phase : Nat) (s : State) (i : Nat) :
    Later s (commit_step phase s i) := by
  rw [commit_step_eq]
  refine ⟨rfl, rfl, rfl, rfl, rfl, rfl, ?_, ?_, ?_, ?_⟩
  · intro j
    by_cases hj : j < s.num_resources.toNat <;> simp [hj, committed_resource]
  · intro j
    by_cases hj : j < s.num_resources.toNat <;> simp [hj, committed_resource]
  · intro j h
    by_cases hj : j < s.num_resources.toNat <;> simp [hj, committed_resource, h]
  · intro k h
    by_cases hk : k = i
    · subst hk
      simp
    · simpa [Function.update_noteq hk] using h

theorem Visit.ok.step_later {v : Visit} (h : v.ok) : Later v.pre v.post := by
  rw [h.2]
  split_ifs
  · exact commit_step_later _ _ _
  · exact Later.refl _

theorem unutilized_setup_sum_later {a b : State} (h : Later a b) :
    unutilized_setup_sum b.num_resources b.resources ≤
      unutilized_setup_sum a.num_resources a.resources := by
  unfold unutilized_setup_sum
  rw [h.num_resources]
  have hsub : (Finset.range a.num_resources.toNat).filter
        (fun j => 0 < (b.resources j).R_SetupCost ∧ (b.resources j).Utilized = false) ⊆
      (Finset.range a.num_resources.toNat).filter
        (fun j => 0 < (a.resources j).R_SetupCost ∧ (a.resources j).Utilized = false) := by
    intro j hj
    rw [Finset.mem_filter] at hj ⊢
    refine ⟨hj.1, ?_, ?_⟩
    · rw [← h.setup j]
      exact hj.2.1
    · by_contra hu
      have hu2 : (a.resources j).Utilized = true := by simpa using hu
      have := h.utilized j hu2
      rw [hj.2.2] at this
      exact Bool.false_ne_true this
  calc ∑ j in (Finset.range a.num_resources.toNat).filter
          (fun j => 0 < (b.resources j).R_SetupCost ∧ (b.resources j).Utilized = false),
          (b.resources j).R_SetupCost
      = ∑ j in (Finset.range a.num_resources.toNat).filter
          (fun j => 0 < (b.resources j).R_SetupCost ∧ (b.resources j).Utilized = false),
          (a.resources j).R_SetupCost := by
        apply Finset.sum_congr rfl
        intro j _
        exact h.setup j
    _ ≤ _ := by
        apply Finset.sum_le_sum_of_subset_of_nonneg hsub
        intro j hj _
        exact le_of_lt (Finset.mem_filter.mp hj).2.1

/-! ## The greedy walks and their logs -/

theorem phase1_loop_walk (target : Int) (pool : List Test) (s : State) :
    Walk 1 (pool.map Test.test_id) s (phase1_loop target pool s).2
      (phase1_loop target pool s).1 := by
  induction pool generalizing s with
  | nil => simp [phase1_loop, Walk]
  | cons c rest ih =>
    simp only [phase1_loop, List.map_cons]
    split_ifs with h1 h2
    · refine ⟨rfl, rfl, rfl, ⟨h2.symm, ?_⟩, ih _⟩
      simp [commit_step]
    · refine ⟨rfl, rfl, rfl, ⟨?_, ?_⟩, ih _⟩
      · simpa using h2
      · simp
    · simp [Walk]

theorem phase2_loop_walk (pool : List Test) (s : State) :
    Walk 2 (pool.map Test.test_id) s (phase2_loop pool s).2 (phase2_loop pool s).1 := by
  induction pool generalizing s with
  | nil => simp [phase2_loop, Walk]
  | cons c rest ih =>
    simp only [phase2_loop, List.map_cons]
    split_ifs with h2
    · refine ⟨rfl, rfl, rfl, ⟨h2.symm, ?_⟩, ih _⟩
      simp [commit_step]
    · refine ⟨rfl, rfl, rfl, ⟨?_, ?_⟩, ih _⟩
      · simpa using h2
      · simp

theorem phase2_loop_indices (pool : List Test) (s : State) :
    (phase2_loop pool s).2.map Visit.index = pool.map Test.test_id := by
  induction pool generalizing s with
  | nil => simp [phase2_loop]
  | cons c rest ih =>
    simp only [phase2_loop, List.map_cons]
    split_ifs with h2
    · simp [ih]
    · simp [ih]

theorem Walk.inv {phase : Nat} (P : State → Prop)
    (hstep : ∀ v : Visit, v.phase = phase → v.ok → P v.pre → P v.post) :
    ∀ (tr : List Visit) (ids : List Nat) (s s' : State), Walk phase ids s tr s' → P s →
      (∀ v ∈ tr, v.phase = phase ∧ v.ok ∧ P v.pre ∧ P v.post) ∧ P s' := by
  intro tr
  induction tr with
  | nil =>
    intro ids s s' hw hs
    simp only [Walk] at hw
    subst hw
    simp [hs]
  | cons v tr ih =>
    intro ids s s' hw hs
    cases ids with
    | nil => simp [Walk] at hw
    | cons i ids =>
      simp only [Walk] at hw
      obtain ⟨hph, _, hpre, hok, hrest⟩ := hw
      have hpre2 : P v.pre := hpre ▸ hs
      have hpost : P v.post := hstep v hph hok hpre2
      obtain ⟨h1, h2⟩ := ih ids v.post s' hrest hpost
      refine ⟨?_, h2⟩
      intro w hwmem
      rcases List.mem_cons.mp hwmem with rfl | hmem
      · exact ⟨hph, hok, hpre2, hpost⟩
      · exact h1 w hmem

theorem Walk.visits_initial {phase : Nat} :
    ∀ (tr : List Visit) (ids : List Nat) (s s' : State), Walk phase ids s tr s' →
      tr.map Visit.index <+: ids := by
  intro tr
  induction tr with
  | nil =>
    intro ids s s' _
    exact List.nil_prefix
  | cons v tr ih =>
    intro ids s s' hw
    cases ids with
    | nil => simp [Walk] at hw
    | cons i ids =>
      simp only [Walk] at hw
      obtain ⟨_, hidx, _, _, hrest⟩ := hw
      rw [List.map_cons, hidx]
      exact (List.cons_prefix_cons).mpr ⟨rfl, ih ids v.post s' hrest⟩

theorem Walk.all_later {phase : Nat} {tr : List Visit} {ids : List Nat} {s s' : State}
    (hw : Walk phase ids s tr s') :
    (∀ v ∈ tr, v.phase = phase ∧ v.ok ∧ Later s v.pre ∧ Later s v.post) ∧ Later s s' :=
  Walk.inv (Later s) (fun _ _ hok h => h.trans hok.step_later) tr ids s s' hw (Later.refl s)

theorem Walk.pairwise {phase : Nat} :
    ∀ (tr : List Visit) (ids : List Nat) (s s' : State), Walk phase ids s tr s' →
      tr.Pairwise (fun v w => Later v.post w.pre) ∧ ∀ v ∈ tr, Later v.post s' := by
  intro tr
  induction tr with
  | nil =>
    intro ids s s' _
    simp
  | cons v tr ih =>
    intro ids s s' hw
    cases ids with
    | nil => simp [Walk] at hw
    | cons i ids =>
      simp only [Walk] at hw
      obtain ⟨_, _, _, _, hrest⟩ := hw
      obtain ⟨h1, h2⟩ := ih ids v.post s' hrest
      refine ⟨List.pairwise_cons.mpr ⟨?_, h1⟩, ?_⟩
      · intro w hwmem
        exact ((Walk.all_later hrest).1 w hwmem).2.2.1
      · intro w hwmem
        rcases List.mem_cons.mp hwmem with rfl | hmem
        · exact (Walk.all_later hrest).2
        · exact h2 w hmem

theorem Walk.unscheduled {phase : Nat} :
    ∀ (tr : List Visit) (ids : List Nat) (s s' : State), Walk phase ids s tr s' →
      ids.Nodup → (∀ i ∈ ids, s.is_scheduled i = false) →
      ∀ v ∈ tr, v.pre.is_scheduled v.index = false := by
  intro tr
  induction tr with
  | nil =>
    intro ids s s' _ _ _ v hv
    simp at hv
  | cons v tr ih =>
    intro ids s s' hw hnd hun
    cases ids with
    | nil => simp [Walk] at hw
    | cons i ids =>
      simp only [Walk] at hw
      obtain ⟨_, hidx, hpre, hok, hrest⟩ := hw
      have hnd2 := List.nodup_cons.mp hnd
      intro w hwmem
      rcases List.mem_cons.mp hwmem with rfl | hmem
      · rw [hpre, hidx]
        exact hun i (List.mem_cons_self _ _)
      · refine ih ids v.post s' hrest hnd2.2 ?_ w hmem
        intro k hk
        have hki : k ≠ v.index := by
          rw [hidx]
          intro h
          exact hnd2.1 (h ▸ hk)
        have hks : v.pre.is_scheduled k = false := by
          rw [hpre]
          exact hun k (List.mem_cons_of_mem _ hk)
        rw [hok.2]
        split_ifs
        · rw [commit_step_eq]
          simpa [Function.update_noteq hki] using hks
        · exact hks

/-! ## Structure of a run -/

theorem scored_test_initialize_globals (s : State) (i : Nat) :
    scored_test (initialize_globals s) i = scored_test s i := by
  rw [initialize_globals_eq]
  rfl

theorem run_scored_eq (qsort : Qsort) (s : State) :
    (run_allocation_algorithm qsort s).scored =
      { s with
        total_cost := 0
        total_utility := 0
        equity_count := 0
        is_scheduled := fun i => if i < MAX_TESTS then false else s.is_scheduled i
        tests := fun i => if i < s.num_tests.toNat then scored_test s i else s.tests i } := by
  show scoring_pass (initialize_globals s) = _
  rw [scoring_pass_eq]
  simp only [scored_test_initialize_globals]
  rw [initialize_globals_eq]

theorem run_walk1 (qsort : Qsort) (s : State) :
    Walk 1 ((run_allocation_algorithm qsort s).pool1.map Test.test_id)
      (run_allocation_algorithm qsort s).scored (run_allocation_algorithm qsort s).trace1
      (run_allocation_algorithm qsort s).after_phase1 :=
  phase1_loop_walk _ _ _

theorem run_walk2 (qsort : Qsort) (s : State) :
    Walk 2 ((run_allocation_algorithm qsort s).pool2.map Test.test_id)
      (run_allocation_algorithm qsort s).phase2_start (run_allocation_algorithm qsort s).trace2
      (run_allocation_algorithm qsort s).final :=
  phase2_loop_walk _ _

theorem run_pool1_eq (qsort : Qsort) (s : State) :
    (run_allocation_algorithm qsort s).pool1 =
      qsort compare_demand_asc
        (((List.range (run_allocation_algorithm qsort s).scored.num_tests.toNat).filter
          (fun i => decide ((run_allocation_algorithm qsort s).scored.is_scheduled i = false ∧
            ((run_allocation_algorithm qsort s).scored.tests i).TPS < TPS_CUTOFF))).map
          (run_allocation_algorithm qsort s).scored.tests) := by
  show qsort compare_demand_asc (build_pool_low_crit _) = _
  unfold build_pool_low_crit
  rw [pool_low_crit_foldl]
  rfl

theorem run_phase2_start_eq (qsort : Qsort) (s : State) :
    (run_allocation_algorithm qsort s).phase2_start =
      { (run_allocation_algorithm qsort s).after_phase1 with
        tests := fun i =>
          if i < (run_allocation_algorithm qsort s).after_phase1.num_tests.toNat ∧
              (run_allocation_algorithm qsort s).after_phase1.is_scheduled i = false then
            rescored_test (run_allocation_algorithm qsort s).after_phase1 i
          else (run_allocation_algorithm qsort s).after_phase1.tests i } := by
  show (build_pool_all _).1 = _
  unfold build_pool_all
  rw [pool_all_foldl]
  rfl

theorem run_pool2_eq (qsort : Qsort) (s : State) :
    (run_allocation_algorithm qsort s).pool2 =
      qsort compare_tps_desc
        (((List.range (run_allocation_algorithm qsort s).after_phase1.num_tests.toNat).filter
          (fun i => decide ((run_allocation_algorithm qsort s).after_phase1.is_scheduled i =
            false))).map
          (rescored_test (run_allocation_algorithm qsort s).after_phase1)) := by
  show qsort compare_tps_desc (build_pool_all _).2 = _
  unfold build_pool_all
  rw [pool_all_foldl]
  rfl

theorem run_later1 (qsort : Qsort) (s : State) :
    Later (run_allocation_algorithm qsort s).scored
      (run_allocation_algorithm qsort s).after_phase1 :=
  (Walk.all_later (run_walk1 qsort s)).2

theorem run_later2 (qsort : Qsort) (s : State) :
    Later (run_allocation_algorithm qsort s).phase2_start
      (run_allocation_algorithm qsort s).final :=
  (Walk.all_later (run_walk2 qsort s)).2

theorem map_ids_eq_self (f : Nat → Test) (l : List Nat) (h : ∀ i ∈ l, (f i).test_id = i) :
    (l.map f).map Test.test_id = l := by
  rw [List.map_map]
  calc l.map (Test.test_id ∘ f) = l.map id := List.map_congr_left (fun i hi => h i hi)
    _ = l := List.map_id l

theorem scored_test_id (qsort : Qsort) (s : State) (hid : IdsArePositions s) (i : Nat)
    (hi : i < s.num_tests.toNat) :
    ((run_allocation_algorithm qsort s).scored.tests i).test_id = i := by
  rw [run_scored_eq]
  simp only [hi, if_true, scored_test_test_id]
  exact hid i (by omega)

theorem run_pool1_ids (qsort : Qsort) (hq : QsortPerm qsort) (s : State)
    (hid : IdsArePositions s) :
    ((run_allocation_algorithm qsort s).pool1.map Test.test_id).Perm
      ((List.range s.num_tests.toNat).filter
        (fun i => decide ((run_allocation_algorithm qsort s).scored.is_scheduled i = false ∧
          ((run_allocation_algorithm qsort s).scored.tests i).TPS < TPS_CUTOFF))) := by
  have hn : (run_allocation_algorithm qsort s).scored.num_tests = s.num_tests := by
    rw [run_scored_eq]
  rw [run_pool1_eq, hn]
  refine ((hq _).1.map Test.test_id).trans ?_
  rw [map_ids_eq_self]
  intro i hi
  have hi2 := (List.mem_filter.mp hi).1
  exact scored_test_id qsort s hid i (List.mem_range.mp hi2)

theorem run_pool2_ids (qsort : Qsort) (hq : QsortPerm qsort) (s : State)
    (hid : IdsArePositions s) :
    ((run_allocation_algorithm qsort s).pool2.map Test.test_id).Perm
      ((List.range s.num_tests.toNat).filter
        (fun i => decide ((run_allocation_algorithm qsort s).after_phase1.is_scheduled i =
          false))) := by
  have hl := run_later1 qsort s
  have hn : (run_allocation_algorithm qsort s).after_phase1.num_tests = s.num_tests := by
    rw [hl.num_tests, run_scored_eq]
  rw [run_pool2_eq, hn]
  refine ((hq _).2.map Test.test_id).trans ?_
  rw [map_ids_eq_self]
  intro i hi
  have hi2 := (List.mem_filter.mp hi).1
  rw [rescored_test_test_id, hl.tests]
  exact scored_test_id qsort s hid i (List.mem_range.mp hi2)

theorem trace1_facts (qsort : Qsort) (hq : QsortPerm qsort) (s : State)
    (hid : IdsArePositions s) :
    ∀ v ∈ (run_allocation_algorithm qsort s).trace1,
      v.phase = 1 ∧ v.ok ∧
      Later (run_allocation_algorithm qsort s).scored v.pre ∧
      Later (run_allocation_algorithm qsort s).scored v.post ∧
      v.index < s.num_tests.toNat ∧
      (run_allocation_algorithm qsort s).scored.is_scheduled v.index = false ∧
      ((run_allocation_algorithm qsort s).scored.tests v.index).TPS < TPS_CUTOFF := by
  intro v hv
  obtain ⟨h1, h2, h3, h4⟩ := (Walk.all_later (run_walk1 qsort s)).1 v hv
  have hmem : v.index ∈ (run_allocation_algorithm qsort s).pool1.map Test.test_id :=
    (Walk.visits_initial _ _ _ _ (run_walk1 qsort s)).subset (List.mem_map_of_mem _ hv)
  have hmem2 := (run_pool1_ids qsort hq s hid).subset hmem
  rw [List.mem_filter, List.mem_range] at hmem2
  have hd := of_decide_eq_true hmem2.2
  exact ⟨h1, h2, h3, h4, hmem2.1, hd.1, hd.2⟩

theorem trace2_facts (qsort : Qsort) (hq : QsortPerm qsort) (s : State)
    (hid : IdsArePositions s) :
    ∀ v ∈ (run_allocation_algorithm qsort s).trace2,
      v.phase = 2 ∧ v.ok ∧
      Later (run_allocation_algorithm qsort s).phase2_start v.pre ∧
      Later (run_allocation_algorithm qsort s).phase2_start v.post ∧
      v.index < s.num_tests.toNat ∧
      (run_allocation_algorithm qsort s).after_phase1.is_scheduled v.index = false := by
  intro v hv
  obtain ⟨h1, h2, h3, h4⟩ := (Walk.all_later (run_walk2 qsort s)).1 v hv
  have hmem : v.index ∈ (run_allocation_algorithm qsort s).pool2.map Test.test_id :=
    (Walk.visits_initial _ _ _ _ (run_walk2 qsort s)).subset (List.mem_map_of_mem _ hv)
  have hmem2 := (run_pool2_ids qsort hq s hid).subset hmem
  rw [List.mem_filter, List.mem_range] at hmem2
  exact ⟨h1, h2, h3, h4, hmem2.1, of_decide_eq_true hmem2.2⟩

theorem can_commit_affordable {s : State} {i : Nat} (h : can_commit s i = true) :
    s.total_cost + (s.tests i).Marginal_Cost ≤ s.B_Max := by
  unfold can_commit at h
  rw [Bool.and_eq_true] at h
  exact of_decide_eq_true h.2

theorem can_commit_feasible {s : State} {i : Nat} (h : can_commit s i = true) :
    check_feasibility s.num_resources (s.tests i) s.resources = true := by
  unfold can_commit at h
  rw [Bool.and_eq_true] at h
  exact h.1

theorem Visit.ok.post_of_committed {v : Visit} (hok : v.ok) (hc : v.committed = true) :
    v.post = commit_step v.phase v.pre v.index := by
  rw [hok.2, if_pos hc]

theorem Visit.ok.post_of_skipped {v : Visit} (hok : v.ok) (hc : v.committed = false) :
    v.post = v.pre := by
  rw [hok.2, if_neg (by simp [hc])]

theorem Visit.ok.guard_holds {v : Visit} (hok : v.ok) (hc : v.committed = true) :
    Alloc.can_commit v.pre v.index = true := by
  rw [← hok.1, hc]

/-- A commit stays within the budget whenever the candidate's stored marginal cost was
computed from a state `start` that the current state is later than. -/
theorem commit_within_budget (start : State) (v : Visit) (hok : v.ok)
    (hl : Later start v.pre) (hc : v.committed = true)
    (hmc : (start.tests v.index).Marginal_Cost =
      (start.tests v.index).C_Explicit +
        unutilized_setup_sum start.num_resources start.resources) :
    v.post.total_cost ≤ start.B_Max := by
  have h1 := can_commit_affordable (hok.guard_holds hc)
  rw [hl.tests, hl.B_Max, hmc] at h1
  have h2 := unutilized_setup_sum_later hl
  rw [hok.post_of_committed hc, commit_step_eq]
  simp only [hl.tests]
  linarith

theorem Walk.total_cost_cases {phase : Nat} :
    ∀ (tr : List Visit) (ids : List Nat) (s s' : State), Walk phase ids s tr s' →
      (s'.total_cost = s.total_cost ∧ ∀ v ∈ tr, v.committed = false) ∨
        ∃ v ∈ tr, v.committed = true ∧ s'.total_cost = v.post.total_cost := by
  intro tr
  induction tr with
  | nil =>
    intro ids s s' hw
    simp only [Walk] at hw
    subst hw
    exact Or.inl ⟨rfl, by simp⟩
  | cons v tr ih =>
    intro ids s s' hw
    cases ids with
    | nil => simp [Walk] at hw
    | cons i ids =>
      simp only [Walk] at hw
      obtain ⟨_, _, hpre, hok, hrest⟩ := hw
      rcases ih ids v.post s' hrest with ⟨h, hall⟩ | ⟨w, hw1, hw2, hw3⟩
      · by_cases hc : v.committed = true
        · exact Or.inr ⟨v, List.mem_cons_self _ _, hc, h⟩
        · have hc2 : v.committed = false := by simpa using hc
          left
          refine ⟨?_, ?_⟩
          · rw [h, hok.post_of_skipped hc2, hpre]
          · intro w hwmem
            rcases List.mem_cons.mp hwmem with rfl | hmem
            · exact hc2
            · exact hall w hmem
      · exact Or.inr ⟨w, List.mem_cons_of_mem _ hw1, hw2, hw3⟩

/-! ## Concrete instances used by the witnesses -/

theorem insertion_qsort_perm : QsortPerm insertion_qsort := by
  intro pool
  exact ⟨List.perm_insertionSort _ _, List.perm_insertionSort _ _⟩

theorem example_input_data_ids : IdsArePositions example_input_data := by
  intro i hi
  have h5 : i < 5 := by
    have : (i : Int) < 5 := hi
    omega
  interval_cases i <;> rfl

/-! ## Claims on the run -/

/-- The budget invariant in exact arithmetic: for every input in which each test's id
equals its array position, and every admissible `qsort`, after every commit of Phase 1 or
Phase 2 of the run over exact rationals `total_cost ≤ B_Max` (and `B_Max` is still the
input budget); consequently, once any commit has happened, the bound also holds in the
final state.  The affordability check reads the stored `Marginal_Cost`.  The bound rests
on the sum the check compares being the sum the commit stores, which holds for exact
amounts and not for rounded ones (see the evaluation on `budget_rounding_data`). -/
theorem budget_invariant_exact (qsort : Qsort) (hq : QsortPerm qsort) (s : State)
    (hid : IdsArePositions s) :
    (∀ v ∈ (run_allocation_algorithm qsort s).trace, v.committed = true →
      v.post.total_cost ≤ v.post.B_Max ∧ v.post.B_Max = s.B_Max) ∧
    ((∃ v ∈ (run_allocation_algorithm qsort s).trace, v.committed = true) →
      (run_allocation_algorithm qsort s).final.total_cost ≤
          (run_allocation_algorithm qsort s).final.B_Max ∧
        (run_allocation_algorithm qsort s).final.B_Max = s.B_Max) := by
  have hB0 : (run_allocation_algorithm qsort s).scored.B_Max = s.B_Max := by
    rw [run_scored_eq]
  have hB1 : (run_allocation_algorithm qsort s).after_phase1.B_Max = s.B_Max := by
    rw [(run_later1 qsort s).B_Max, hB0]
  have hB2 : (run_allocation_algorithm qsort s).phase2_start.B_Max = s.B_Max := by
    rw [run_phase2_start_eq]
    exact hB1
  have hB3 : (run_allocation_algorithm qsort s).final.B_Max = s.B_Max := by
    rw [(run_later2 qsort s).B_Max, hB2]
  have hcost2 : (run_allocation_algorithm qsort s).phase2_start.total_cost =
      (run_allocation_algorithm qsort s).after_phase1.total_cost := by
    rw [run_phase2_start_eq]
  have key1 : ∀ v ∈ (run_allocation_algorithm qsort s).trace1, v.committed = true →
      v.post.total_cost ≤ v.post.B_Max ∧ v.post.B_Max = s.B_Max := by
    intro v hv hc
    obtain ⟨_, hok, hpre, hpost, hlt, _, _⟩ := trace1_facts qsort hq s hid v hv
    have hb : v.post.B_Max = s.B_Max := by rw [hpost.B_Max, hB0]
    refine ⟨?_, hb⟩
    rw [hb, ← hB0]
    apply commit_within_budget _ v hok hpre hc
    rw [run_scored_eq]
    simp only [hlt, if_true, scored_test_Marginal_Cost, scored_test_C_Explicit]
  have key2 : ∀ v ∈ (run_allocation_algorithm qsort s).trace2, v.committed = true →
      v.post.total_cost ≤ v.post.B_Max ∧ v.post.B_Max = s.B_Max := by
    intro v hv hc
    obtain ⟨_, hok, hpre, hpost, hlt, hun⟩ := trace2_facts qsort hq s hid v hv
    have hb : v.post.B_Max = s.B_Max := by rw [hpost.B_Max, hB2]
    refine ⟨?_, hb⟩
    rw [hb, ← hB2]
    apply commit_within_budget _ v hok hpre hc
    have hn : (run_allocation_algorithm qsort s).after_phase1.num_tests = s.num_tests := by
      rw [(run_later1 qsort s).num_tests, run_scored_eq]
    rw [run_phase2_start_eq]
    simp only [hn, hlt, hun, and_self, if_true, rescored_test_Marginal_Cost,
      rescored_test_C_Explicit]
  have key : ∀ v ∈ (run_allocation_algorithm qsort s).trace, v.committed = true →
      v.post.total_cost ≤ v.post.B_Max ∧ v.post.B_Max = s.B_Max := by
    intro v hv hc
    rcases List.mem_append.mp hv with h | h
    · exact key1 v h hc
    · exact key2 v h hc
  refine ⟨key, ?_⟩
  rintro ⟨v, hv, hc⟩
  refine ⟨?_, hB3⟩
  rw [hB3]
  rcases Walk.total_cost_cases _ _ _ _ (run_walk2 qsort s) with ⟨h2, hall2⟩ | ⟨w, hw, hwc, hw2⟩
  · rw [h2, hcost2]
    rcases Walk.total_cost_cases _ _ _ _ (run_walk1 qsort s) with ⟨_, hall1⟩ | ⟨w, hw, hwc, hw1⟩
    · exfalso
      rcases List.mem_append.mp hv with h | h
      · rw [hall1 v h] at hc
        exact Bool.false_ne_true hc
      · rw [hall2 v h] at hc
        exact Bool.false_ne_true hc
    · rw [hw1]
      have := key1 w hw hwc
      rw [this.2] at this
      exact this.1
  · rw [hw2]
    have := key2 w hw hwc
    rw [this.2] at this
    exact this.1

/-- The exact budget invariant on the example input with insertion sort as `qsort`; the
run commits four tests and ends with `total_cost = 850` under the budget 1000. -/
theorem budget_invariant_exact_example :
    QsortPerm insertion_qsort ∧ IdsArePositions example_input_data ∧
    ((run_allocation_algorithm insertion_qsort example_input_data).trace.filter
      (fun v => v.committed)).length = 4 ∧
    (run_allocation_algorithm insertion_qsort example_input_data).final.total_cost = 850 ∧
    ((∀ v ∈ (run_allocation_algorithm insertion_qsort example_input_data).trace,
      v.committed = true →
        v.post.total_cost ≤ v.post.B_Max ∧ v.post.B_Max = example_input_data.B_Max) ∧
    ((∃ v ∈ (run_allocation_algorithm insertion_qsort example_input_data).trace,
        v.committed = true) →
      (run_allocation_algorithm insertion_qsort example_input_data).final.total_cost ≤
          (run_allocation_algorithm insertion_qsort example_input_data).final.B_Max ∧
        (run_allocation_algorithm insertion_qsort example_input_data).final.B_Max =
          example_input_data.B_Max)) :=
  ⟨insertion_qsort_perm, example_input_data_ids, by decide!, by decide!,
    budget_invariant_exact insertion_qsort insertion_qsort_perm example_input_data
      example_input_data_ids⟩

/-- C1, evaluated at the failing input `budget_rounding_data` in double precision: every
test's id is its position; the run examines test 0 once, in Phase 1, and commits it; the
scoring pass stores `Marginal_Cost = (0.3 + 0.2) + 0.1`, which rounds to the double `0.6`,
so the check `total_cost + Marginal_Cost <= B_Max` holds with `total_cost = 0` and
`B_Max = 0.6`; `schedule_test` stores `total_cost = ((0 + 0.2) + 0.1) + 0.3`, which rounds
to `0.6000000000000001`, the next double above `0.6`; so after the commit, and at the end of
the run, `total_cost > B_Max`. -/
theorem C1_budget_overrun_in_double_precision :
    IdsArePositions budget_rounding_data ∧
    (run_allocation_algorithm_double insertion_qsort budget_rounding_data).trace.map
      (fun v => (v.phase, v.index, v.committed)) = [(1, 0, true)] ∧
    budget_rounding_data.B_Max = 5404319552844595 / 9007199254740992 ∧
    (∀ v ∈ (run_allocation_algorithm_double insertion_qsort budget_rounding_data).trace,
      v.pre.total_cost = 0 ∧
      (v.pre.tests v.index).Marginal_Cost = 5404319552844595 / 9007199254740992 ∧
      round_double (v.pre.total_cost + (v.pre.tests v.index).Marginal_Cost) ≤ v.pre.B_Max ∧
      v.post.total_cost = 5404319552844596 / 9007199254740992 ∧
      v.post.B_Max = budget_rounding_data.B_Max ∧
      v.post.B_Max < v.post.total_cost) ∧
    (run_allocation_algorithm_double insertion_qsort budget_rounding_data).final.B_Max <
      (run_allocation_algorithm_double insertion_qsort budget_rounding_data).final.total_cost := by
  refine ⟨?_, by decide!, by decide!, by decide!, by decide!⟩
  intro i hi
  have h1 : i < 1 := by
    have : (i : Int) < 1 := hi
    omega
  interval_cases i
  rfl

theorem capacity_step (v : Visit) (hok : v.ok)
    (h : CapacityOK v.pre ∧ DemandsNonneg v.pre) : CapacityOK v.post ∧ DemandsNonneg v.post := by
  by_cases hc : v.committed = true
  · have hf := (check_feasibility_iff _ _ _).mp (can_commit_feasible (hok.guard_holds hc))
    rw [hok.post_of_committed hc, commit_step_eq]
    refine ⟨?_, h.2⟩
    intro j hj
    have hj' : (j : Int) < v.pre.num_resources := hj
    have hj2 : j < v.pre.num_resources.toNat := by omega
    obtain ⟨c1, c2, _⟩ := h.1 j hj'
    obtain ⟨f1, f2⟩ := hf j hj'
    have hd := h.2 v.index j hj'
    simp only [hj2, if_true, committed_resource]
    refine ⟨by linarith, by linarith, by linarith⟩
  · rw [hok.post_of_skipped (by simpa using hc)]
    exact h

theorem demands_nonneg_scored (qsort : Qsort) (s : State) (h : DemandsNonneg s) :
    DemandsNonneg (run_allocation_algorithm qsort s).scored := by
  rw [run_scored_eq]
  intro i j hj
  by_cases hi : i < s.num_tests.toNat
  · simp only [hi, if_true, scored_test_D_Immediate]
    exact h i j hj
  · simp only [hi, if_false]
    exact h i j hj

theorem build_pool_all_state (a : State) :
    (build_pool_all a).1 =
      { a with tests := fun i =>
          if i < a.num_tests.toNat ∧ a.is_scheduled i = false then rescored_test a i
          else a.tests i } := by
  unfold build_pool_all
  rw [pool_all_foldl]

theorem rescoring_keeps_capacity (a : State) (h : CapacityOK a ∧ DemandsNonneg a) :
    CapacityOK (build_pool_all a).1 ∧ DemandsNonneg (build_pool_all a).1 := by
  rw [build_pool_all_state]
  refine ⟨h.1, ?_⟩
  intro i j hj
  have hj2 : (j : Int) < a.num_resources := hj
  by_cases hi : i < a.num_tests.toNat ∧ a.is_scheduled i = false
  · simp only [hi, and_self, if_true, rescored_test_D_Immediate]
    exact h.2 i j hj2
  · simp only [hi, if_false]
    exact h.2 i j hj2

/-- C2 (capacity invariant): for every input in which all immediate demands are
non-negative and every configured resource `j` starts with `0 ≤ Cap_Rem[j] ≤ Cap_Total[j]`
and `Future_Demand_Commit[j] ≤ Cap_Total[j]`, these three inequalities hold for every
configured resource when each iteration of either greedy walk starts and ends (so after
every commit) and in the final state of the run. -/
theorem C2_capacity_invariant (qsort : Qsort) (s : State) (hdem : DemandsNonneg s)
    (hcap : CapacityOK s) :
    (∀ v ∈ (run_allocation_algorithm qsort s).trace,
      v.post.num_resources = s.num_resources ∧ CapacityOK v.pre ∧ CapacityOK v.post) ∧
    (run_allocation_algorithm qsort s).final.num_resources = s.num_resources ∧
    CapacityOK (run_allocation_algorithm qsort s).final := by
  have hn0 : (run_allocation_algorithm qsort s).scored.num_resources = s.num_resources := by
    rw [run_scored_eq]
  have h0 : CapacityOK (run_allocation_algorithm qsort s).scored ∧
      DemandsNonneg (run_allocation_algorithm qsort s).scored := by
    refine ⟨?_, demands_nonneg_scored qsort s hdem⟩
    rw [run_scored_eq]
    exact hcap
  obtain ⟨t1, e1⟩ := Walk.inv (fun t => CapacityOK t ∧ DemandsNonneg t)
    (fun v _ hok h => capacity_step v hok h) _ _ _ _ (run_walk1 qsort s) h0
  have hn1 : (run_allocation_algorithm qsort s).after_phase1.num_resources =
      s.num_resources := by
    rw [(run_later1 qsort s).num_resources, hn0]
  have hn2 : (run_allocation_algorithm qsort s).phase2_start.num_resources =
      s.num_resources := by
    rw [run_phase2_start_eq]
    exact hn1
  have h2 : CapacityOK (run_allocation_algorithm qsort s).phase2_start ∧
      DemandsNonneg (run_allocation_algorithm qsort s).phase2_start :=
    rescoring_keeps_capacity _ e1
  obtain ⟨t2, e2⟩ := Walk.inv (fun t => CapacityOK t ∧ DemandsNonneg t)
    (fun v _ hok h => capacity_step v hok h) _ _ _ _ (run_walk2 qsort s) h2
  refine ⟨?_, ?_, e2.1⟩
  · intro v hv
    rcases List.mem_append.mp hv with h | h
    · obtain ⟨_, _, hp, hq⟩ := t1 v h
      obtain ⟨_, _, _, hl⟩ := (Walk.all_later (run_walk1 qsort s)).1 v h
      exact ⟨by rw [hl.num_resources, hn0], hp.1, hq.1⟩
    · obtain ⟨_, _, hp, hq⟩ := t2 v h
      obtain ⟨_, _, _, hl⟩ := (Walk.all_later (run_walk2 qsort s)).1 v h
      exact ⟨by rw [hl.num_resources, hn2], hp.1, hq.1⟩
  · rw [(run_later2 qsort s).num_resources, hn2]

theorem example_input_data_demands : DemandsNonneg example_input_data := by
  intro i j _
  unfold example_input_data
  dsimp only
  split <;> dsimp only <;> first | exact le_refl _ | (split_ifs <;> norm_num)

theorem example_input_data_capacity : CapacityOK example_input_data := by
  intro j hj
  have h2 : j < 2 := by
    have : (j : Int) < 2 := hj
    omega
  interval_cases j <;> (simp only [example_input_data]; norm_num)

/-- Witness for C2: the example input with insertion sort as `qsort`; resource 0 ends
with `Cap_Rem = 15` of 50. -/
theorem C2_capacity_invariant_witness :
    DemandsNonneg example_input_data ∧ CapacityOK example_input_data ∧
    ((run_allocation_algorithm insertion_qsort example_input_data).final.resources 0).Cap_Rem
      = 15 ∧
    ((∀ v ∈ (run_allocation_algorithm insertion_qsort example_input_data).trace,
      v.post.num_resources = example_input_data.num_resources ∧
        CapacityOK v.pre ∧ CapacityOK v.post) ∧
    (run_allocation_algorithm insertion_qsort example_input_data).final.num_resources =
      example_input_data.num_resources ∧
    CapacityOK (run_allocation_algorithm insertion_qsort example_input_data).final) :=
  ⟨example_input_data_demands, example_input_data_capacity, by decide!,
    C2_capacity_invariant insertion_qsort example_input_data example_input_data_demands
      example_input_data_capacity⟩

theorem commits_nodup (tr : List Visit)
    (hflag : ∀ v ∈ tr, v.committed = true →
      v.pre.is_scheduled v.index = false ∧ v.post.is_scheduled v.index = true)
    (hpw : tr.Pairwise
      (fun v w => ∀ i, v.post.is_scheduled i = true → w.pre.is_scheduled i = true)) :
    ((tr.filter (fun v => v.committed)).map Visit.index).Nodup := by
  induction tr with
  | nil => simp
  | cons v tr ih =>
    obtain ⟨hv, hrest⟩ := List.pairwise_cons.mp hpw
    have ih2 := ih (fun w hw => hflag w (List.mem_cons_of_mem _ hw)) hrest
    by_cases hc : v.committed = true
    · rw [List.filter_cons_of_pos hc, List.map_cons, List.nodup_cons]
      refine ⟨?_, ih2⟩
      intro hmem
      obtain ⟨w, hw, hidx⟩ := List.mem_map.mp hmem
      obtain ⟨hw1, hw2⟩ := List.mem_filter.mp hw
      have h1 := (hflag w (List.mem_cons_of_mem _ hw1) hw2).1
      have h2 := hv w hw1 v.index (hflag v (List.mem_cons_self _ _) hc).2
      rw [hidx, h2] at h1
      exact Bool.noConfusion h1
    · rw [List.filter_cons_of_neg hc]
      exact ih2

theorem run_pool1_nodup (qsort : Qsort) (hq : QsortPerm qsort) (s : State)
    (hid : IdsArePositions s) :
    ((run_allocation_algorithm qsort s).pool1.map Test.test_id).Nodup :=
  (run_pool1_ids qsort hq s hid).nodup_iff.mpr ((List.nodup_range _).filter _)

theorem run_pool2_nodup (qsort : Qsort) (hq : QsortPerm qsort) (s : State)
    (hid : IdsArePositions s) :
    ((run_allocation_algorithm qsort s).pool2.map Test.test_id).Nodup :=
  (run_pool2_ids qsort hq s hid).nodup_iff.mpr ((List.nodup_range _).filter _)

theorem run_phase2_start_def (qsort : Qsort) (s : State) :
    (run_allocation_algorithm qsort s).phase2_start =
      (build_pool_all (run_allocation_algorithm qsort s).after_phase1).1 := rfl

theorem run_phase2_start_is_scheduled (qsort : Qsort) (s : State) :
    (run_allocation_algorithm qsort s).phase2_start.is_scheduled =
      (run_allocation_algorithm qsort s).after_phase1.is_scheduled := by
  rw [run_phase2_start_def, build_pool_all_state]

theorem run_phase2_start_resources (qsort : Qsort) (s : State) :
    (run_allocation_algorithm qsort s).phase2_start.resources =
      (run_allocation_algorithm qsort s).after_phase1.resources := by
  rw [run_phase2_start_def, build_pool_all_state]

theorem run_phase2_start_num_resources (qsort : Qsort) (s : State) :
    (run_allocation_algorithm qsort s).phase2_start.num_resources =
      (run_allocation_algorithm qsort s).after_phase1.num_resources := by
  rw [run_phase2_start_def, build_pool_all_state]

theorem commit_flags (v : Visit) (hok : v.ok) (hc : v.committed = true) :
    v.post.is_scheduled v.index = true := by
  rw [hok.post_of_committed hc, commit_step_eq]
  simp

/-- The flags observed at the end of any iteration are still set when any later iteration
starts, and in the final state. -/
theorem run_flags_persist (qsort : Qsort) (s : State) :
    (run_allocation_algorithm qsort s).trace.Pairwise
      (fun v w => ∀ i, v.post.is_scheduled i = true → w.pre.is_scheduled i = true) ∧
    (∀ v ∈ (run_allocation_algorithm qsort s).trace1, ∀ i, v.post.is_scheduled i = true →
      (run_allocation_algorithm qsort s).after_phase1.is_scheduled i = true) ∧
    (∀ v ∈ (run_allocation_algorithm qsort s).trace, ∀ i, v.post.is_scheduled i = true →
      (run_allocation_algorithm qsort s).final.is_scheduled i = true) := by
  obtain ⟨p1, f1⟩ := Walk.pairwise _ _ _ _ (run_walk1 qsort s)
  obtain ⟨p2, f2⟩ := Walk.pairwise _ _ _ _ (run_walk2 qsort s)
  have hmid : ∀ i, (run_allocation_algorithm qsort s).after_phase1.is_scheduled i = true →
      (run_allocation_algorithm qsort s).phase2_start.is_scheduled i = true := by
    intro i h
    rw [run_phase2_start_is_scheduled]
    exact h
  refine ⟨?_, fun v hv i h => (f1 v hv).scheduled i h, ?_⟩
  · unfold Run.trace
    rw [List.pairwise_append]
    refine ⟨p1.imp (fun h i hi => h.scheduled i hi), p2.imp (fun h i hi => h.scheduled i hi), ?_⟩
    intro v hv w hw i hi
    have hw2 := ((Walk.all_later (run_walk2 qsort s)).1 w hw).2.2.1
    exact hw2.scheduled i (hmid i ((f1 v hv).scheduled i hi))
  · intro v hv i hi
    rcases List.mem_append.mp hv with h | h
    · exact (run_later2 qsort s).scheduled i (hmid i ((f1 v h).scheduled i hi))
    · exact (f2 v h).scheduled i hi

theorem run_trace_ok (qsort : Qsort) (s : State) :
    ∀ v ∈ (run_allocation_algorithm qsort s).trace, v.ok := by
  intro v hv
  rcases List.mem_append.mp hv with h | h
  · exact ((Walk.all_later (run_walk1 qsort s)).1 v h).2.1
  · exact ((Walk.all_later (run_walk2 qsort s)).1 v h).2.1

theorem run_candidates_unscheduled (qsort : Qsort) (hq : QsortPerm qsort) (s : State)
    (hid : IdsArePositions s) :
    ∀ v ∈ (run_allocation_algorithm qsort s).trace, v.pre.is_scheduled v.index = false := by
  intro v hv
  rcases List.mem_append.mp hv with h | h
  · refine Walk.unscheduled _ _ _ _ (run_walk1 qsort s) (run_pool1_nodup qsort hq s hid) ?_ v h
    intro i hi
    have := (run_pool1_ids qsort hq s hid).subset hi
    exact (of_decide_eq_true (List.mem_filter.mp this).2).1
  · refine Walk.unscheduled _ _ _ _ (run_walk2 qsort s) (run_pool2_nodup qsort hq s hid) ?_ v h
    intro i hi
    have := (run_pool2_ids qsort hq s hid).subset hi
    rw [run_phase2_start_is_scheduled]
    exact of_decide_eq_true (List.mem_filter.mp this).2

/-- C7 (at-most-once scheduling): for every input in which each test's id equals its array
position, and every admissible `qsort`: the indices on which `schedule_test` is called
during the run are pairwise distinct; each such call turns a flag that was false into
true; a test committed in Phase 1 is not in the Phase 2 pool and is not examined by the
Phase 2 walk; and a flag that is set is never reset, neither within an iteration, nor
between one iteration and a later one, nor up to the final state. -/
theorem C7_at_most_once (qsort : Qsort) (hq : QsortPerm qsort) (s : State)
    (hid : IdsArePositions s) :
    (((run_allocation_algorithm qsort s).trace.filter (fun v => v.committed)).map
      Visit.index).Nodup ∧
    (∀ v ∈ (run_allocation_algorithm qsort s).trace, v.committed = true →
      v.pre.is_scheduled v.index = false ∧ v.post.is_scheduled v.index = true) ∧
    (∀ v ∈ (run_allocation_algorithm qsort s).trace1, v.committed = true →
      v.index ∉ (run_allocation_algorithm qsort s).pool2.map Test.test_id ∧
      ∀ w ∈ (run_allocation_algorithm qsort s).trace2, w.index ≠ v.index) ∧
    (∀ v ∈ (run_allocation_algorithm qsort s).trace, ∀ i,
      v.pre.is_scheduled i = true → v.post.is_scheduled i = true) ∧
    (run_allocation_algorithm qsort s).trace.Pairwise
      (fun v w => ∀ i, v.post.is_scheduled i = true → w.pre.is_scheduled i = true) ∧
    (∀ v ∈ (run_allocation_algorithm qsort s).trace, ∀ i,
      v.post.is_scheduled i = true →
        (run_allocation_algorithm qsort s).final.is_scheduled i = true) := by
  obtain ⟨hpw, hmid, hfin⟩ := run_flags_persist qsort s
  have hflag : ∀ v ∈ (run_allocation_algorithm qsort s).trace, v.committed = true →
      v.pre.is_scheduled v.index = false ∧ v.post.is_scheduled v.index = true :=
    fun v hv hc => ⟨run_candidates_unscheduled qsort hq s hid v hv,
      commit_flags v (run_trace_ok qsort s v hv) hc⟩
  refine ⟨commits_nodup _ hflag hpw, hflag, ?_, ?_, hpw, hfin⟩
  · intro v hv hc
    have hv2 : v ∈ (run_allocation_algorithm qsort s).trace := List.mem_append_left _ hv
    have hset := hmid v hv v.index (hflag v hv2 hc).2
    have hnot : v.index ∉ (run_allocation_algorithm qsort s).pool2.map Test.test_id := by
      intro hmem
      have := (run_pool2_ids qsort hq s hid).subset hmem
      have hun := of_decide_eq_true (List.mem_filter.mp this).2
      rw [hset] at hun
      exact Bool.noConfusion hun
    refine ⟨hnot, ?_⟩
    intro w hw hidx
    apply hnot
    rw [← hidx]
    exact (Walk.visits_initial _ _ _ _ (run_walk2 qsort s)).subset (List.mem_map_of_mem _ hw)
  · intro v hv i hi
    exact (run_trace_ok qsort s v hv).step_later.scheduled i hi

/-- Witness for C7: the example input with insertion sort as `qsort`; `schedule_test`
is called on tests 1, 4, 0, 2 in this order, test 1 in Phase 1. -/
theorem C7_at_most_once_witness :
    QsortPerm insertion_qsort ∧ IdsArePositions example_input_data ∧
    ((run_allocation_algorithm insertion_qsort example_input_data).trace.filter
      (fun v => v.committed)).map Visit.index = [1, 4, 0, 2] ∧
    ((((run_allocation_algorithm insertion_qsort example_input_data).trace.filter
        (fun v => v.committed)).map Visit.index).Nodup ∧
    (∀ v ∈ (run_allocation_algorithm insertion_qsort example_input_data).trace,
      v.committed = true →
        v.pre.is_scheduled v.index = false ∧ v.post.is_scheduled v.index = true) ∧
    (∀ v ∈ (run_allocation_algorithm insertion_qsort example_input_data).trace1,
      v.committed = true →
        v.index ∉ (run_allocation_algorithm insertion_qsort example_input_data).pool2.map
          Test.test_id ∧
        ∀ w ∈ (run_allocation_algorithm insertion_qsort example_input_data).trace2,
          w.index ≠ v.index) ∧
    (∀ v ∈ (run_allocation_algorithm insertion_qsort example_input_data).trace, ∀ i,
      v.pre.is_scheduled i = true → v.post.is_scheduled i = true) ∧
    (run_allocation_algorithm insertion_qsort example_input_data).trace.Pairwise
      (fun v w => ∀ i, v.post.is_scheduled i = true → w.pre.is_scheduled i = true) ∧
    (∀ v ∈ (run_allocation_algorithm insertion_qsort example_input_data).trace, ∀ i,
      v.post.is_scheduled i = true →
        (run_allocation_algorithm insertion_qsort example_input_data).final.is_scheduled i
          = true)) :=
  ⟨insertion_qsort_perm, example_input_data_ids, by decide!,
    C7_at_most_once insertion_qsort insertion_qsort_perm example_input_data
      example_input_data_ids⟩

/-- A relation between states that is transitive, follows from `Later`, and holds across
the rescoring between the phases, relates the end of every iteration to the start of
every later iteration and to the final state. -/
theorem run_pairwise (qsort : Qsort) (s : State) (R : State → State → Prop)
    (htrans : ∀ a b c, R a b → R b c → R a c) (hlater : ∀ a b, Later a b → R a b)
    (hmid : R (run_allocation_algorithm qsort s).after_phase1
      (run_allocation_algorithm qsort s).phase2_start) :
    (run_allocation_algorithm qsort s).trace.Pairwise (fun v w => R v.post w.pre) ∧
    (∀ v ∈ (run_allocation_algorithm qsort s).trace,
      R v.post (run_allocation_algorithm qsort s).final) ∧
    (∀ v ∈ (run_allocation_algorithm qsort s).trace,
      R (run_allocation_algorithm qsort s).scored v.pre) := by
  obtain ⟨p1, f1⟩ := Walk.pairwise _ _ _ _ (run_walk1 qsort s)
  obtain ⟨p2, f2⟩ := Walk.pairwise _ _ _ _ (run_walk2 qsort s)
  refine ⟨?_, ?_, ?_⟩
  · unfold Run.trace
    rw [List.pairwise_append]
    refine ⟨p1.imp (hlater _ _), p2.imp (hlater _ _), ?_⟩
    intro v hv w hw
    have hw2 := ((Walk.all_later (run_walk2 qsort s)).1 w hw).2.2.1
    exact htrans _ _ _ (hlater _ _ (f1 v hv)) (htrans _ _ _ hmid (hlater _ _ hw2))
  · intro v hv
    rcases List.mem_append.mp hv with h | h
    · exact htrans _ _ _ (hlater _ _ (f1 v h))
        (htrans _ _ _ hmid (hlater _ _ (run_later2 qsort s)))
    · exact hlater _ _ (f2 v h)
  · intro v hv
    rcases List.mem_append.mp hv with h | h
    · exact hlater _ _ ((Walk.all_later (run_walk1 qsort s)).1 v h).2.2.1
    · exact htrans _ _ _ (hlater _ _ (run_later1 qsort s))
        (htrans _ _ _ hmid (hlater _ _ ((Walk.all_later (run_walk2 qsort s)).1 v h).2.2.1))

theorem countP_le_one_of_pairwise {α : Type} (p : α → Bool) (l : List α)
    (h : l.Pairwise (fun a b => p a = true → p b = false)) : l.countP p ≤ 1 := by
  induction l with
  | nil => simp
  | cons a l ih =>
    obtain ⟨ha, hl⟩ := List.pairwise_cons.mp h
    by_cases hp : p a = true
    · rw [List.countP_cons_of_pos _ _ hp]
      have : l.countP p = 0 := by
        rw [List.countP_eq_zero]
        intro b hb
        rw [ha b hb hp]
        exact Bool.false_ne_true
      omega
    · rw [List.countP_cons_of_neg _ _ hp]
      exact ih hl

theorem charges_iff (v : Visit) (j : Nat) :
    v.charges j = true ↔
      v.committed = true ∧ (j : Int) < v.pre.num_resources ∧
        0 < (v.pre.resources j).R_SetupCost ∧ (v.pre.resources j).Utilized = false := by
  simp [Visit.charges, and_assoc]

theorem charges_sets_utilized (v : Visit) (hok : v.ok) (j : Nat) (h : v.charges j = true) :
    (v.post.resources j).Utilized = true := by
  obtain ⟨hc, hj, hs, _⟩ := (charges_iff v j).mp h
  have hj2 : j < v.pre.num_resources.toNat := by omega
  rw [hok.post_of_committed hc, commit_step_eq]
  simp [hj2, committed_resource, hs]

theorem visit_total_cost (v : Visit) (hok : v.ok) :
    v.post.total_cost = v.pre.total_cost +
      (if v.committed = true then
        (∑ k in (Finset.range v.pre.num_resources.toNat).filter
            (fun k => v.charges k = true), (v.pre.resources k).R_SetupCost) +
          (v.pre.tests v.index).C_Explicit
      else 0) := by
  by_cases hc : v.committed = true
  · rw [hok.post_of_committed hc, commit_step_eq, if_pos hc]
    have hfilter : (Finset.range v.pre.num_resources.toNat).filter
          (fun k => v.charges k = true) =
        (Finset.range v.pre.num_resources.toNat).filter
          (fun k => 0 < (v.pre.resources k).R_SetupCost ∧
            (v.pre.resources k).Utilized = false) := by
      apply Finset.filter_congr
      intro k hk
      have hk2 : (k : Int) < v.pre.num_resources := by
        have := Finset.mem_range.mp hk
        omega
      rw [charges_iff]
      constructor
      · intro h
        exact ⟨h.2.2.1, h.2.2.2⟩
      · intro h
        exact ⟨hc, hk2, h.1, h.2⟩
    rw [hfilter]
    simp only [unutilized_setup_sum]
    ring
  · rw [hok.post_of_skipped (by simpa using hc), if_neg hc, add_zero]

/-- C8 (setup-cost singularity): in every run, for every resource `j`, at most one
iteration takes the branch that adds `R_SetupCost[j]` to `total_cost`; an iteration
changes `total_cost` by exactly the setup costs of the resources it charges plus the
explicit cost of the committed test (by nothing when it skips); a resource that is
utilized is not charged and stays utilized, within an iteration and from the end of one
iteration to the start of any later one; and `R_SetupCost[j]` is the same at every
iteration. -/
theorem C8_setup_cost_once (qsort : Qsort) (s : State) (j : Nat) :
    (run_allocation_algorithm qsort s).trace.countP (fun v => v.charges j) ≤ 1 ∧
    (∀ v ∈ (run_allocation_algorithm qsort s).trace,
      v.post.total_cost = v.pre.total_cost +
        (if v.committed = true then
          (∑ k in (Finset.range v.pre.num_resources.toNat).filter
              (fun k => v.charges k = true), (v.pre.resources k).R_SetupCost) +
            (v.pre.tests v.index).C_Explicit
        else 0)) ∧
    (∀ v ∈ (run_allocation_algorithm qsort s).trace,
      (v.pre.resources j).Utilized = true →
        v.charges j = false ∧ (v.post.resources j).Utilized = true) ∧
    (∀ v ∈ (run_allocation_algorithm qsort s).trace,
      v.charges j = true → (v.post.resources j).Utilized = true) ∧
    (run_allocation_algorithm qsort s).trace.Pairwise
      (fun v w => (v.post.resources j).Utilized = true →
        (w.pre.resources j).Utilized = true) ∧
    (∀ v ∈ (run_allocation_algorithm qsort s).trace,
      (v.pre.resources j).R_SetupCost = (s.resources j).R_SetupCost) := by
  have hmidres := run_phase2_start_resources qsort s
  obtain ⟨hpw, _, _⟩ := run_pairwise qsort s
    (fun a b => (a.resources j).Utilized = true → (b.resources j).Utilized = true)
    (fun _ _ _ h1 h2 h => h2 (h1 h)) (fun _ _ h => h.utilized j)
    (fun h => by rw [hmidres]; exact h)
  obtain ⟨_, _, hsetup⟩ := run_pairwise qsort s
    (fun a b => (b.resources j).R_SetupCost = (a.resources j).R_SetupCost)
    (fun _ _ _ h1 h2 => h2.trans h1) (fun _ _ h => h.setup j)
    (by show (_ : Resource).R_SetupCost = _; rw [hmidres])
  have hnot : ∀ v : Visit, (v.pre.resources j).Utilized = true → v.charges j = false := by
    intro v hu
    simp [Visit.charges, hu]
  refine ⟨?_, fun v hv => visit_total_cost v (run_trace_ok qsort s v hv), ?_,
    fun v hv h => charges_sets_utilized v (run_trace_ok qsort s v hv) j h, hpw, ?_⟩
  · apply countP_le_one_of_pairwise
    have hok : ∀ v ∈ (run_allocation_algorithm qsort s).trace, v.ok := run_trace_ok qsort s
    generalize (run_allocation_algorithm qsort s).trace = tr at hpw hok
    induction tr with
    | nil => exact List.Pairwise.nil
    | cons v tr ih =>
      obtain ⟨hv, hrest⟩ := List.pairwise_cons.mp hpw
      refine List.pairwise_cons.mpr ⟨?_, ih hrest (fun w hw => hok w (List.mem_cons_of_mem _ hw))⟩
      intro w hw hch
      exact hnot w (hv w hw (charges_sets_utilized v (hok v (List.mem_cons_self _ _)) j hch))
  · intro v hv hu
    exact ⟨hnot v hu, (run_trace_ok qsort s v hv).step_later.utilized j hu⟩
  · intro v hv
    rw [hsetup v hv, run_scored_eq]

theorem Walk.first_commit {phase : Nat} :
    ∀ (tr : List Visit) (ids : List Nat) (s s' : State), Walk phase ids s tr s' →
      (∀ v, tr.find? (fun v => v.committed) = some v → v.pre = s) ∧
      (tr.find? (fun v => v.committed) = none → s' = s) := by
  intro tr
  induction tr with
  | nil =>
    intro ids s s' hw
    simp only [Walk] at hw
    simp [hw]
  | cons v tr ih =>
    intro ids s s' hw
    cases ids with
    | nil => simp [Walk] at hw
    | cons i ids =>
      simp only [Walk] at hw
      obtain ⟨_, _, hpre, hok, hrest⟩ := hw
      obtain ⟨ih1, ih2⟩ := ih ids v.post s' hrest
      by_cases hc : v.committed = true
      · simp only [List.find?_cons, hc]
        refine ⟨?_, by simp⟩
        intro w hw
        cases hw
        exact hpre
      · have hc2 : v.committed = false := by simpa using hc
        have hpost : v.post = s := by rw [hok.post_of_skipped hc2, hpre]
        simp only [List.find?_cons, hc2]
        rw [hpost] at ih1 ih2
        exact ⟨ih1, ih2⟩

theorem run_first_commit_resources (qsort : Qsort) (s : State) (v : Visit)
    (h : (run_allocation_algorithm qsort s).trace.find? (fun v => v.committed) = some v) :
    v.pre.resources = s.resources := by
  have h0 : (run_allocation_algorithm qsort s).scored.resources = s.resources := by
    rw [run_scored_eq]
  obtain ⟨a1, b1⟩ := Walk.first_commit _ _ _ _ (run_walk1 qsort s)
  obtain ⟨a2, _⟩ := Walk.first_commit _ _ _ _ (run_walk2 qsort s)
  unfold Run.trace at h
  rw [List.find?_append] at h
  cases h1 : (run_allocation_algorithm qsort s).trace1.find? (fun v => v.committed) with
  | some w =>
    rw [h1] at h
    simp only [Option.or_some] at h
    cases h
    rw [a1 _ h1, h0]
  | none =>
    rw [h1] at h
    simp only [Option.none_or] at h
    rw [a2 v h, run_phase2_start_resources, b1 h1, h0]

/-- C9, counterexample: on `idle_setup_data` the run commits test 0, whose demand on
resource 1 is zero, and that commit takes the charging branch for resource 1, adding its
setup cost 500 (and the explicit cost 100) to `total_cost`. -/
theorem C9_counterexample :
    ∃ v ∈ (run_allocation_algorithm insertion_qsort idle_setup_data).trace,
      v.charges 1 = true ∧ (v.pre.resources 1).R_SetupCost = 500 ∧
      (v.pre.tests v.index).D_Immediate 1 = 0 ∧
      (v.post.resources 1).Utilized = true ∧
      v.post.total_cost = v.pre.total_cost + 500 + 100 := by
  decide!

/-- C9, amended: for every run and every configured resource `j` with
`R_SetupCost[j] > 0`, every commit made while `Utilized[j]` is false takes the charging
branch for `j` (sets `Utilized[j]`, adds `R_SetupCost[j]`), whatever the committed test's
demand on `j`; a commit made while `Utilized[j]` is true does not; hence the first commit
of the run charges `j` exactly when `j` was not utilized at the start, no iteration after
a commit charges `j`, and an iteration that skips its candidate charges nothing. -/
theorem C9_setup_charged_by_first_commit (qsort : Qsort) (s : State) (j : Nat)
    (hj : (j : Int) < s.num_resources) (hs : 0 < (s.resources j).R_SetupCost) :
    (∀ v ∈ (run_allocation_algorithm qsort s).trace, v.committed = true →
      (v.charges j = true ↔ (v.pre.resources j).Utilized = false) ∧
        (v.post.resources j).Utilized = true) ∧
    (∀ v, (run_allocation_algorithm qsort s).trace.find? (fun v => v.committed) = some v →
      (v.charges j = true ↔ (s.resources j).Utilized = false)) ∧
    (run_allocation_algorithm qsort s).trace.Pairwise
      (fun v w => v.committed = true → w.charges j = false) ∧
    (∀ v ∈ (run_allocation_algorithm qsort s).trace, v.committed = false →
      v.charges j = false ∧ v.post = v.pre) := by
  have hmidres := run_phase2_start_resources qsort s
  have hmidn := run_phase2_start_num_resources qsort s
  obtain ⟨_, _, hstatic⟩ := run_pairwise qsort s
    (fun a b => b.num_resources = a.num_resources ∧
      (b.resources j).R_SetupCost = (a.resources j).R_SetupCost)
    (fun _ _ _ h1 h2 => ⟨h2.1.trans h1.1, h2.2.trans h1.2⟩)
    (fun _ _ h => ⟨h.num_resources, h.setup j⟩)
    (by
      show _ = _ ∧ (_ : Resource).R_SetupCost = _
      rw [hmidres, hmidn]
      exact ⟨rfl, rfl⟩)
  obtain ⟨hpw, _, _⟩ := run_pairwise qsort s
    (fun a b => (a.resources j).Utilized = true → (b.resources j).Utilized = true)
    (fun _ _ _ h1 h2 h => h2 (h1 h)) (fun _ _ h => h.utilized j)
    (fun h => by rw [hmidres]; exact h)
  have hpre : ∀ v ∈ (run_allocation_algorithm qsort s).trace,
      (j : Int) < v.pre.num_resources ∧ 0 < (v.pre.resources j).R_SetupCost := by
    intro v hv
    obtain ⟨h1, h2⟩ := hstatic v hv
    rw [run_scored_eq] at h1 h2
    rw [h1, h2]
    exact ⟨hj, hs⟩
  have hcommit : ∀ v ∈ (run_allocation_algorithm qsort s).trace, v.committed = true →
      (v.charges j = true ↔ (v.pre.resources j).Utilized = false) ∧
        (v.post.resources j).Utilized = true := by
    intro v hv hc
    obtain ⟨h1, h2⟩ := hpre v hv
    have hj2 : j < v.pre.num_resources.toNat := by omega
    refine ⟨?_, ?_⟩
    · rw [charges_iff]
      exact ⟨fun h => h.2.2.2, fun h => ⟨hc, h1, h2, h⟩⟩
    · rw [(run_trace_ok qsort s v hv).post_of_committed hc, commit_step_eq]
      simp [hj2, committed_resource, h2]
  refine ⟨hcommit, ?_, ?_, ?_⟩
  · intro v hv
    have hmem := List.mem_of_find?_eq_some hv
    have hc : v.committed = true := List.find?_some hv
    rw [(hcommit v hmem hc).1, run_first_commit_resources qsort s v hv]
  · have hall : ∀ v ∈ (run_allocation_algorithm qsort s).trace, v.committed = true →
        (v.post.resources j).Utilized = true := fun v hv hc => (hcommit v hv hc).2
    generalize (run_allocation_algorithm qsort s).trace = tr at hpw hall
    induction tr with
    | nil => exact List.Pairwise.nil
    | cons v tr ih =>
      obtain ⟨hv, hrest⟩ := List.pairwise_cons.mp hpw
      refine List.pairwise_cons.mpr
        ⟨?_, ih hrest (fun w hw => hall w (List.mem_cons_of_mem _ hw))⟩
      intro w hw hc
      have hu := hv w hw (hall v (List.mem_cons_self _ _) hc)
      simp [Visit.charges, hu]
  · intro v hv hc
    refine ⟨?_, (run_trace_ok qsort s v hv).post_of_skipped hc⟩
    simp [Visit.charges, hc]

/-- Witness for the amended C9: resource 1 of `idle_setup_data`. -/
theorem C9_setup_charged_by_first_commit_witness :
    ((1 : Nat) : Int) < idle_setup_data.num_resources ∧
    0 < (idle_setup_data.resources 1).R_SetupCost ∧
    ((∀ v ∈ (run_allocation_algorithm insertion_qsort idle_setup_data).trace,
      v.committed = true →
        (v.charges 1 = true ↔ (v.pre.resources 1).Utilized = false) ∧
          (v.post.resources 1).Utilized = true) ∧
    (∀ v, (run_allocation_algorithm insertion_qsort idle_setup_data).trace.find?
        (fun v => v.committed) = some v →
      (v.charges 1 = true ↔ (idle_setup_data.resources 1).Utilized = false)) ∧
    (run_allocation_algorithm insertion_qsort idle_setup_data).trace.Pairwise
      (fun v w => v.committed = true → w.charges 1 = false) ∧
    (∀ v ∈ (run_allocation_algorithm insertion_qsort idle_setup_data).trace,
      v.committed = false → v.charges 1 = false ∧ v.post = v.pre)) :=
  ⟨by decide, by decide!,
    C9_setup_charged_by_first_commit insertion_qsort idle_setup_data 1 (by decide)
      (by decide!)⟩

theorem Walk.head_pre {phase : Nat} {tr : List Visit} {ids : List Nat} {s s' : State}
    (hw : Walk phase ids s tr s') (v : Visit) (h : tr.head? = some v) : v.pre = s := by
  cases tr with
  | nil => simp at h
  | cons w tr =>
    cases ids with
    | nil => simp [Walk] at hw
    | cons i ids =>
      simp only [Walk] at hw
      simp only [List.head?_cons, Option.some.injEq] at h
      rw [← h]
      exact hw.2.2.1

theorem trace1_marginal_cost (qsort : Qsort) (hq : QsortPerm qsort) (s : State)
    (hid : IdsArePositions s) :
    ∀ v ∈ (run_allocation_algorithm qsort s).trace1,
      (v.pre.tests v.index).Marginal_Cost =
        spec_marginal_cost s.num_resources (v.pre.tests v.index) s.resources := by
  intro v hv
  obtain ⟨_, _, hpre, _, hlt, _, _⟩ := trace1_facts qsort hq s hid v hv
  rw [hpre.tests, run_scored_eq]
  simp only [hlt, if_true, scored_test_Marginal_Cost, spec_marginal_cost,
    scored_test_C_Explicit]

theorem trace2_marginal_cost (qsort : Qsort) (hq : QsortPerm qsort) (s : State)
    (hid : IdsArePositions s) :
    ∀ v ∈ (run_allocation_algorithm qsort s).trace2,
      (v.pre.tests v.index).Marginal_Cost =
        spec_marginal_cost (run_allocation_algorithm qsort s).after_phase1.num_resources
          (v.pre.tests v.index) (run_allocation_algorithm qsort s).after_phase1.resources := by
  intro v hv
  obtain ⟨_, _, hpre, _, hlt, hun⟩ := trace2_facts qsort hq s hid v hv
  have hn : (run_allocation_algorithm qsort s).after_phase1.num_tests = s.num_tests := by
    rw [(run_later1 qsort s).num_tests, run_scored_eq]
  rw [hpre.tests, run_phase2_start_def, build_pool_all_state]
  simp only [hn, hlt, hun, and_self, if_true, rescored_test_Marginal_Cost, spec_marginal_cost,
    rescored_test_C_Explicit]

/-- C10, counterexample: on the example input the second iteration of Phase 1 examines
test 4 after test 1 was committed; test 4 is feasible, its stored `Marginal_Cost` is 550
while the up-to-date value is 50, and the affordability check rejects it although
`total_cost + 50 ≤ B_Max`. -/
theorem C10_counterexample :
    ∃ v ∈ (run_allocation_algorithm insertion_qsort example_input_data).trace,
      v.phase = 1 ∧ v.index = 4 ∧
      check_feasibility v.pre.num_resources (v.pre.tests v.index) v.pre.resources = true ∧
      (v.pre.tests v.index).Marginal_Cost = 550 ∧
      spec_marginal_cost v.pre.num_resources (v.pre.tests v.index) v.pre.resources = 50 ∧
      v.committed = false ∧ v.pre.total_cost + 50 ≤ v.pre.B_Max := by
  decide!

/-- C10, amended: for every input in which each test's id equals its array position, at
every affordability check the candidate's `Marginal_Cost` is `C_Explicit` plus the setup
costs of the resources that were chargeable and not utilized when the current phase was
scored: at the start of the run for Phase 1, at the start of Phase 2 for Phase 2.  The
Cost Projector is re-applied once per phase, not after every commitment; so the stored
value is up to date at the first check of each phase and is never below the up-to-date
value at the later ones. -/
theorem C10_marginal_cost_as_of_phase_start (qsort : Qsort) (hq : QsortPerm qsort)
    (s : State) (hid : IdsArePositions s) :
    (∀ v ∈ (run_allocation_algorithm qsort s).trace1,
      (v.pre.tests v.index).Marginal_Cost =
        spec_marginal_cost s.num_resources (v.pre.tests v.index) s.resources) ∧
    (∀ v ∈ (run_allocation_algorithm qsort s).trace2,
      (v.pre.tests v.index).Marginal_Cost =
        spec_marginal_cost (run_allocation_algorithm qsort s).after_phase1.num_resources
          (v.pre.tests v.index) (run_allocation_algorithm qsort s).after_phase1.resources) ∧
    (∀ v ∈ (run_allocation_algorithm qsort s).trace,
      spec_marginal_cost v.pre.num_resources (v.pre.tests v.index) v.pre.resources ≤
        (v.pre.tests v.index).Marginal_Cost) ∧
    (∀ v, (run_allocation_algorithm qsort s).trace1.head? = some v →
      (v.pre.tests v.index).Marginal_Cost =
        spec_marginal_cost v.pre.num_resources (v.pre.tests v.index) v.pre.resources) ∧
    (∀ v, (run_allocation_algorithm qsort s).trace2.head? = some v →
      (v.pre.tests v.index).Marginal_Cost =
        spec_marginal_cost v.pre.num_resources (v.pre.tests v.index) v.pre.resources) := by
  have h1 := trace1_marginal_cost qsort hq s hid
  have h2 := trace2_marginal_cost qsort hq s hid
  have hn0 : (run_allocation_algorithm qsort s).scored.num_resources = s.num_resources := by
    rw [run_scored_eq]
  have hr0 : (run_allocation_algorithm qsort s).scored.resources = s.resources := by
    rw [run_scored_eq]
  refine ⟨h1, h2, ?_, ?_, ?_⟩
  · intro v hv
    rcases List.mem_append.mp hv with h | h
    · rw [h1 v h]
      have hl := ((Walk.all_later (run_walk1 qsort s)).1 v h).2.2.1
      have := unutilized_setup_sum_later hl
      rw [hn0, hr0] at this
      simp only [spec_marginal_cost]
      linarith
    · rw [h2 v h]
      have hl := ((Walk.all_later (run_walk2 qsort s)).1 v h).2.2.1
      have := unutilized_setup_sum_later hl
      rw [run_phase2_start_num_resources, run_phase2_start_resources] at this
      simp only [spec_marginal_cost]
      linarith
  · intro v hv
    have hpre := Walk.head_pre (run_walk1 qsort s) v hv
    rw [h1 v (List.mem_of_mem_head? hv), hpre, hn0, hr0]
  · intro v hv
    have hpre := Walk.head_pre (run_walk2 qsort s) v hv
    rw [h2 v (List.mem_of_mem_head? hv), hpre, run_phase2_start_num_resources,
      run_phase2_start_resources]

/-- Witness for the amended C10: the example input with insertion sort as `qsort`; the
candidates' stored marginal costs at the nine checks are listed. -/
theorem C10_marginal_cost_as_of_phase_start_witness :
    QsortPerm insertion_qsort ∧ IdsArePositions example_input_data ∧
    (run_allocation_algorithm insertion_qsort example_input_data).trace.map
      (fun v => (v.pre.tests v.index).Marginal_Cost) =
        [550, 550, 600, 650, 700, 50, 100, 150, 200] ∧
    ((∀ v ∈ (run_allocation_algorithm insertion_qsort example_input_data).trace1,
      (v.pre.tests v.index).Marginal_Cost =
        spec_marginal_cost example_input_data.num_resources (v.pre.tests v.index)
          example_input_data.resources) ∧
    (∀ v ∈ (run_allocation_algorithm insertion_qsort example_input_data).trace2,
      (v.pre.tests v.index).Marginal_Cost =
        spec_marginal_cost
          (run_allocation_algorithm insertion_qsort example_input_data).after_phase1.num_resources
          (v.pre.tests v.index)
          (run_allocation_algorithm insertion_qsort example_input_data).after_phase1.resources) ∧
    (∀ v ∈ (run_allocation_algorithm insertion_qsort example_input_data).trace,
      spec_marginal_cost v.pre.num_resources (v.pre.tests v.index) v.pre.resources ≤
        (v.pre.tests v.index).Marginal_Cost) ∧
    (∀ v, (run_allocation_algorithm insertion_qsort example_input_data).trace1.head? = some v →
      (v.pre.tests v.index).Marginal_Cost =
        spec_marginal_cost v.pre.num_resources (v.pre.tests v.index) v.pre.resources) ∧
    (∀ v, (run_allocation_algorithm insertion_qsort example_input_data).trace2.head? = some v →
      (v.pre.tests v.index).Marginal_Cost =
        spec_marginal_cost v.pre.num_resources (v.pre.tests v.index) v.pre.resources)) :=
  ⟨insertion_qsort_perm, example_input_data_ids, by decide!,
    C10_marginal_cost_as_of_phase_start insertion_qsort insertion_qsort_perm
      example_input_data example_input_data_ids⟩

/-! ## Relations along a run -/

/-- A reflexive and transitive relation that every iteration of a walk respects, as long
as an invariant holds, relates all states of the walk in execution order. -/
theorem Walk.rel {phase : Nat} (R : State → State → Prop) (Inv : State → Prop)
    (hrefl : ∀ a, R a a) (htrans : ∀ a b c, R a b → R b c → R a c) :
    ∀ (tr : List Visit) (ids : List Nat) (s s' : State), Walk phase ids s tr s' →
      (∀ v ∈ tr, v.phase = phase → v.ok → Inv v.pre → Inv v.post ∧ R v.pre v.post) →
      Inv s →
      Inv s' ∧ R s s' ∧
        (∀ v ∈ tr, Inv v.pre ∧ Inv v.post ∧ R s v.pre ∧ R v.pre v.post ∧ R v.post s') ∧
        tr.Pairwise (fun v w => R v.post w.pre) := by
  intro tr
  induction tr with
  | nil =>
    intro ids s s' hw _ hs
    simp only [Walk] at hw
    subst hw
    exact ⟨hs, hrefl _, by simp, List.Pairwise.nil⟩
  | cons v tr ih =>
    intro ids s s' hw hstep hs
    cases ids with
    | nil => simp [Walk] at hw
    | cons i ids =>
      simp only [Walk] at hw
      obtain ⟨hph, _, hpre, hok, hrest⟩ := hw
      have hpre2 : Inv v.pre := hpre ▸ hs
      obtain ⟨hpost, hR⟩ := hstep v (List.mem_cons_self _ _) hph hok hpre2
      obtain ⟨h1, h2, h3, h4⟩ := ih ids v.post s' hrest
        (fun w hw => hstep w (List.mem_cons_of_mem _ hw)) hpost
      have hsv : R s v.pre := hpre ▸ hrefl v.pre
      have hspost : R s v.post := htrans _ _ _ hsv hR
      refine ⟨h1, htrans _ _ _ hspost h2, ?_, List.pairwise_cons.mpr ⟨?_, h4⟩⟩
      · intro w hwmem
        rcases List.mem_cons.mp hwmem with rfl | hmem
        · exact ⟨hpre2, hpost, hsv, hR, h2⟩
        · obtain ⟨a, b, c, d, e⟩ := h3 w hmem
          exact ⟨a, b, htrans _ _ _ hspost c, d, e⟩
      · intro w hwmem
        exact (h3 w hwmem).2.2.1

/-- The run-level form of `Walk.rel`: the relation must also hold across the rescoring
between the two phases. -/
theorem run_rel (qsort : Qsort) (s : State) (R : State → State → Prop) (Inv : State → Prop)
    (hrefl : ∀ a, R a a) (htrans : ∀ a b c, R a b → R b c → R a c)
    (hstep : ∀ v ∈ (run_allocation_algorithm qsort s).trace, v.ok → Inv v.pre →
      Inv v.post ∧ R v.pre v.post)
    (hmid : ∀ a, Inv a → Inv (build_pool_all a).1 ∧ R a (build_pool_all a).1)
    (h0 : Inv (run_allocation_algorithm qsort s).scored) :
    (∀ v ∈ (run_allocation_algorithm qsort s).trace,
      Inv v.pre ∧ Inv v.post ∧ R (run_allocation_algorithm qsort s).scored v.pre ∧
        R v.pre v.post ∧ R v.post (run_allocation_algorithm qsort s).final) ∧
    (run_allocation_algorithm qsort s).trace.Pairwise (fun v w => R v.post w.pre) ∧
    Inv (run_allocation_algorithm qsort s).final ∧
    R (run_allocation_algorithm qsort s).scored (run_allocation_algorithm qsort s).final ∧
    Inv (run_allocation_algorithm qsort s).after_phase1 ∧
    R (run_allocation_algorithm qsort s).scored
      (run_allocation_algorithm qsort s).after_phase1 ∧
    Inv (run_allocation_algorithm qsort s).phase2_start ∧
    R (run_allocation_algorithm qsort s).phase2_start
      (run_allocation_algorithm qsort s).final := by
  obtain ⟨a1, a2, a3, a4⟩ := Walk.rel R Inv hrefl htrans _ _ _ _ (run_walk1 qsort s)
    (fun v hv _ hok hi => hstep v (List.mem_append_left _ hv) hok hi) h0
  obtain ⟨m1, m2⟩ := hmid _ a1
  have m1' : Inv (run_allocation_algorithm qsort s).phase2_start := m1
  have m2' : R (run_allocation_algorithm qsort s).after_phase1
      (run_allocation_algorithm qsort s).phase2_start := m2
  obtain ⟨b1, b2, b3, b4⟩ := Walk.rel R Inv hrefl htrans _ _ _ _ (run_walk2 qsort s)
    (fun v hv _ hok hi => hstep v (List.mem_append_right _ hv) hok hi) m1'
  have hmidfin := htrans _ _ _ m2' b2
  have hs2 := htrans _ _ _ a2 m2'
  refine ⟨?_, ?_, b1, htrans _ _ _ a2 hmidfin, a1, a2, m1', b2⟩
  · intro v hv
    rcases List.mem_append.mp hv with h | h
    · obtain ⟨c1, c2, c3, c4, c5⟩ := a3 v h
      exact ⟨c1, c2, c3, c4, htrans _ _ _ c5 hmidfin⟩
    · obtain ⟨c1, c2, c3, c4, c5⟩ := b3 v h
      exact ⟨c1, c2, htrans _ _ _ hs2 c3, c4, c5⟩
  · unfold Run.trace
    rw [List.pairwise_append]
    refine ⟨a4, b4, ?_⟩
    intro v hv w hw
    exact htrans _ _ _ (a3 v hv).2.2.2.2 (htrans _ _ _ m2' (b3 w hw).2.2.1)

theorem costs_nonneg_step (v : Visit) (hok : v.ok) (h : CostsAndWeightsNonneg v.pre) :
    CostsAndWeightsNonneg v.post ∧ LedgerLe v.pre v.post := by
  by_cases hc : v.committed = true
  · rw [hok.post_of_committed hc, commit_step_eq]
    refine ⟨h, ?_, ?_⟩
    · have h1 := unutilized_setup_sum_nonneg v.pre.num_resources v.pre.resources
      have h2 := h.1 v.index
      show v.pre.total_cost ≤ v.pre.total_cost + _ + _
      linarith
    · have h3 := h.2 (v.pre.tests v.index).condition_k
      have h4 := mul_nonneg h3.1 h3.2
      show v.pre.total_utility ≤ v.pre.total_utility + _
      linarith
  · rw [hok.post_of_skipped (by simpa using hc)]
    exact ⟨h, le_refl _, le_refl _⟩

theorem costs_nonneg_rescored (a : State) (h : CostsAndWeightsNonneg a) :
    CostsAndWeightsNonneg (build_pool_all a).1 ∧ LedgerLe a (build_pool_all a).1 := by
  rw [build_pool_all_state]
  refine ⟨⟨?_, h.2⟩, le_refl _, le_refl _⟩
  intro i
  by_cases hi : i < a.num_tests.toNat ∧ a.is_scheduled i = false
  · simp only [hi, and_self, if_true, rescored_test_C_Explicit]
    exact h.1 i
  · simp only [hi, if_false]
    exact h.1 i

theorem costs_nonneg_scored (qsort : Qsort) (s : State) (h : CostsAndWeightsNonneg s) :
    CostsAndWeightsNonneg (run_allocation_algorithm qsort s).scored := by
  rw [run_scored_eq]
  refine ⟨?_, h.2⟩
  intro i
  by_cases hi : i < s.num_tests.toNat
  · simp only [hi, if_true, scored_test_C_Explicit]
    exact h.1 i
  · simp only [hi, if_false]
    exact h.1 i

/-- C12 (monotonic ledger): for every input with non-negative explicit costs and
non-negative condition weights, `total_cost` and `total_utility` are zero after
`initialize_globals` and the scoring pass, and never decrease afterwards: not within an
iteration of either walk, not from the end of an iteration to the start of a later one,
not up to the final state.  Only a commit changes them: an iteration that skips its
candidate and the rescoring between the phases leave both totals as they are. -/
theorem C12_monotonic_ledger (qsort : Qsort) (s : State) (h : CostsAndWeightsNonneg s) :
    (run_allocation_algorithm qsort s).scored.total_cost = 0 ∧
    (run_allocation_algorithm qsort s).scored.total_utility = 0 ∧
    (∀ v ∈ (run_allocation_algorithm qsort s).trace,
      LedgerLe (run_allocation_algorithm qsort s).scored v.pre ∧ LedgerLe v.pre v.post ∧
        LedgerLe v.post (run_allocation_algorithm qsort s).final) ∧
    (run_allocation_algorithm qsort s).trace.Pairwise (fun v w => LedgerLe v.post w.pre) ∧
    LedgerLe (run_allocation_algorithm qsort s).scored
      (run_allocation_algorithm qsort s).final ∧
    (∀ v ∈ (run_allocation_algorithm qsort s).trace, v.committed = false →
      v.post.total_cost = v.pre.total_cost ∧ v.post.total_utility = v.pre.total_utility) ∧
    (run_allocation_algorithm qsort s).phase2_start.total_cost =
      (run_allocation_algorithm qsort s).after_phase1.total_cost ∧
    (run_allocation_algorithm qsort s).phase2_start.total_utility =
      (run_allocation_algorithm qsort s).after_phase1.total_utility := by
  obtain ⟨h1, h2, _, h4, _⟩ := run_rel qsort s LedgerLe CostsAndWeightsNonneg
    (fun _ => ⟨le_refl _, le_refl _⟩)
    (fun _ _ _ x y => ⟨le_trans x.1 y.1, le_trans x.2 y.2⟩)
    (fun v _ hok hi => costs_nonneg_step v hok hi)
    costs_nonneg_rescored (costs_nonneg_scored qsort s h)
  refine ⟨by rw [run_scored_eq], by rw [run_scored_eq], ?_, h2, h4, ?_, ?_, ?_⟩
  · intro v hv
    obtain ⟨_, _, c, d, e⟩ := h1 v hv
    exact ⟨c, d, e⟩
  · intro v hv hc
    rw [(run_trace_ok qsort s v hv).post_of_skipped hc]
    exact ⟨rfl, rfl⟩
  · rw [run_phase2_start_def, build_pool_all_state]
  · rw [run_phase2_start_def, build_pool_all_state]

theorem example_input_data_costs : CostsAndWeightsNonneg example_input_data := by
  refine ⟨?_, ?_⟩
  · intro i
    unfold example_input_data
    dsimp only
    split <;> norm_num
  · intro k
    unfold example_input_data
    dsimp only
    split <;> norm_num

/-- Witness for C12: the example input with insertion sort as `qsort`; the totals after
the nine iterations are listed. -/
theorem C12_monotonic_ledger_witness :
    CostsAndWeightsNonneg example_input_data ∧
    (run_allocation_algorithm insertion_qsort example_input_data).trace.map
      (fun v => (v.post.total_cost, v.post.total_utility)) =
        [(550, 1900), (550, 1900), (550, 1900), (550, 1900), (550, 1900),
          (600, 7500), (700, 13100), (850, 15000), (850, 15000)] ∧
    ((run_allocation_algorithm insertion_qsort example_input_data).scored.total_cost = 0 ∧
    (run_allocation_algorithm insertion_qsort example_input_data).scored.total_utility = 0 ∧
    (∀ v ∈ (run_allocation_algorithm insertion_qsort example_input_data).trace,
      LedgerLe (run_allocation_algorithm insertion_qsort example_input_data).scored v.pre ∧
        LedgerLe v.pre v.post ∧
        LedgerLe v.post (run_allocation_algorithm insertion_qsort example_input_data).final) ∧
    (run_allocation_algorithm insertion_qsort example_input_data).trace.Pairwise
      (fun v w => LedgerLe v.post w.pre) ∧
    LedgerLe (run_allocation_algorithm insertion_qsort example_input_data).scored
      (run_allocation_algorithm insertion_qsort example_input_data).final ∧
    (∀ v ∈ (run_allocation_algorithm insertion_qsort example_input_data).trace,
      v.committed = false →
        v.post.total_cost = v.pre.total_cost ∧ v.post.total_utility = v.pre.total_utility) ∧
    (run_allocation_algorithm insertion_qsort example_input_data).phase2_start.total_cost =
      (run_allocation_algorithm insertion_qsort example_input_data).after_phase1.total_cost ∧
    (run_allocation_algorithm insertion_qsort example_input_data).phase2_start.total_utility =
      (run_allocation_algorithm insertion_qsort example_input_data).after_phase1.total_utility) :=
  ⟨example_input_data_costs, by decide!,
    C12_monotonic_ledger insertion_qsort example_input_data example_input_data_costs⟩

theorem visit_equity_count (v : Visit) (hok : v.ok) :
    v.post.equity_count =
      if v.committed = true ∧ v.phase = 1 then v.pre.equity_count + 1
      else v.pre.equity_count := by
  by_cases hc : v.committed = true
  · rw [hok.post_of_committed hc, commit_step_eq]
    by_cases hp : v.phase = 1 <;> simp [hc, hp]
  · rw [hok.post_of_skipped (by simpa using hc)]
    simp [hc]

theorem run_trace_phase (qsort : Qsort) (s : State) :
    (∀ v ∈ (run_allocation_algorithm qsort s).trace1, v.phase = 1) ∧
    (∀ v ∈ (run_allocation_algorithm qsort s).trace2, v.phase = 2) :=
  ⟨fun v hv => ((Walk.all_later (run_walk1 qsort s)).1 v hv).1,
    fun v hv => ((Walk.all_later (run_walk2 qsort s)).1 v hv).1⟩

/-- C13 (equity priority): for every input in which each test's id equals its array
position, every test committed in Phase 1 has, in `tests[]`, exactly the entry the Phase 0
scoring pass stored, whose `TPS` is strictly below 50.0, and it was not scheduled (neither
after Phase 0 nor when its iteration started); the commits of Phase 1 are exactly the
iterations that increment `equity_count`. -/
theorem C13_equity_priority (qsort : Qsort) (hq : QsortPerm qsort) (s : State)
    (hid : IdsArePositions s) :
    (∀ v ∈ (run_allocation_algorithm qsort s).trace1, v.committed = true →
      v.pre.tests v.index = scored_test s v.index ∧
      (scored_test s v.index).TPS < TPS_CUTOFF ∧
      (v.pre.tests v.index).TPS < TPS_CUTOFF ∧
      (run_allocation_algorithm qsort s).scored.is_scheduled v.index = false ∧
      v.pre.is_scheduled v.index = false ∧
      v.post.equity_count = v.pre.equity_count + 1) ∧
    (∀ v ∈ (run_allocation_algorithm qsort s).trace,
      v.post.equity_count = v.pre.equity_count + 1 ↔
        (v ∈ (run_allocation_algorithm qsort s).trace1 ∧ v.committed = true)) := by
  obtain ⟨hp1, hp2⟩ := run_trace_phase qsort s
  refine ⟨?_, ?_⟩
  · intro v hv hc
    obtain ⟨hph, hok, hpre, _, hlt, hun, htps⟩ := trace1_facts qsort hq s hid v hv
    have hsc : (run_allocation_algorithm qsort s).scored.tests v.index =
        scored_test s v.index := by
      rw [run_scored_eq]
      simp only [hlt, if_true]
    have heq : v.pre.tests v.index = scored_test s v.index := by rw [hpre.tests, hsc]
    refine ⟨heq, ?_, ?_, hun,
      run_candidates_unscheduled qsort hq s hid v (List.mem_append_left _ hv), ?_⟩
    · rw [← hsc]
      exact htps
    · rw [heq, ← hsc]
      exact htps
    · rw [visit_equity_count v hok]
      simp [hc, hph]
  · intro v hv
    have hok := run_trace_ok qsort s v hv
    rw [visit_equity_count v hok]
    rcases List.mem_append.mp hv with h | h
    · have hph := hp1 v h
      by_cases hc : v.committed = true
      · simp [hc, hph, h]
      · simp [hc]
    · have hph := hp2 v h
      constructor
      · intro h1
        simp [hph] at h1
      · rintro ⟨h1, _⟩
        have := hp1 v h1
        omega

/-- Witness for C13: the example input with insertion sort as `qsort`; Phase 1 commits
test 1 only. -/
theorem C13_equity_priority_witness :
    QsortPerm insertion_qsort ∧ IdsArePositions example_input_data ∧
    ((run_allocation_algorithm insertion_qsort example_input_data).trace1.filter
      (fun v => v.committed)).map Visit.index = [1] ∧
    ((∀ v ∈ (run_allocation_algorithm insertion_qsort example_input_data).trace1,
      v.committed = true →
        v.pre.tests v.index = scored_test example_input_data v.index ∧
        (scored_test example_input_data v.index).TPS < TPS_CUTOFF ∧
        (v.pre.tests v.index).TPS < TPS_CUTOFF ∧
        (run_allocation_algorithm insertion_qsort example_input_data).scored.is_scheduled
          v.index = false ∧
        v.pre.is_scheduled v.index = false ∧
        v.post.equity_count = v.pre.equity_count + 1) ∧
    (∀ v ∈ (run_allocation_algorithm insertion_qsort example_input_data).trace,
      v.post.equity_count = v.pre.equity_count + 1 ↔
        (v ∈ (run_allocation_algorithm insertion_qsort example_input_data).trace1 ∧
          v.committed = true))) :=
  ⟨insertion_qsort_perm, example_input_data_ids, by decide!,
    C13_equity_priority insertion_qsort insertion_qsort_perm example_input_data
      example_input_data_ids⟩

theorem phase1_loop_cons (target : Int) (c : Test) (rest : List Test) (s : State) :
    phase1_loop target (c :: rest) s =
      if s.equity_count < target then
        if can_commit s c.test_id = true then
          ((phase1_loop target rest (commit_step 1 s c.test_id)).1,
            ⟨1, c.test_id, s, true, commit_step 1 s c.test_id⟩ ::
              (phase1_loop target rest (commit_step 1 s c.test_id)).2)
        else
          ((phase1_loop target rest s).1,
            ⟨1, c.test_id, s, false, s⟩ :: (phase1_loop target rest s).2)
      else (s, []) := by
  simp only [phase1_loop, commit_step, if_true]

theorem phase1_loop_equity (target : Int) (pool : List Test) (s : State) :
    (phase1_loop target pool s).1.equity_count =
        s.equity_count + (((phase1_loop target pool s).2.filter (fun v => v.committed)).length
          : Int) ∧
    (∀ v ∈ (phase1_loop target pool s).2, v.pre.equity_count < target) ∧
    (s.equity_count ≤ target → (phase1_loop target pool s).1.equity_count ≤ target) ∧
    ((phase1_loop target pool s).2.length = pool.length ∨
      target ≤ (phase1_loop target pool s).1.equity_count) := by
  induction pool generalizing s with
  | nil => simp [phase1_loop]
  | cons c rest ih =>
    rw [phase1_loop_cons]
    split_ifs with h1 h2
    · obtain ⟨i1, i2, i3, i4⟩ := ih (commit_step 1 s c.test_id)
      have he : (commit_step 1 s c.test_id).equity_count = s.equity_count + 1 := by
        rw [commit_step_eq]
        simp
      rw [he] at i1 i3
      refine ⟨?_, ?_, ?_, ?_⟩
      · rw [i1]
        simp only [List.filter_cons_of_pos, List.length_cons, Nat.cast_add, Nat.cast_one]
        ring
      · intro v hv
        rcases List.mem_cons.mp hv with rfl | hmem
        · exact h1
        · exact i2 v hmem
      · intro _
        exact i3 (by omega)
      · rcases i4 with h | h
        · left
          simp [h]
        · exact Or.inr h
    · obtain ⟨i1, i2, i3, i4⟩ := ih s
      refine ⟨?_, ?_, i3, ?_⟩
      · rw [i1]
        simp
      · intro v hv
        rcases List.mem_cons.mp hv with rfl | hmem
        · exact h1
        · exact i2 v hmem
      · rcases i4 with h | h
        · left
          simp [h]
        · exact Or.inr h
    · refine ⟨by simp, by simp, fun h => h, Or.inr (not_lt.mp h1)⟩

theorem run_phase2_equity_count (qsort : Qsort) (s : State) :
    (run_allocation_algorithm qsort s).final.equity_count =
      (run_allocation_algorithm qsort s).after_phase1.equity_count := by
  have h2 : (run_allocation_algorithm qsort s).phase2_start.equity_count =
      (run_allocation_algorithm qsort s).after_phase1.equity_count := by
    rw [run_phase2_start_def, build_pool_all_state]
  have := (Walk.inv
    (fun t => t.equity_count = (run_allocation_algorithm qsort s).after_phase1.equity_count)
    (fun v hph hok hpre => by
      show v.post.equity_count = _
      rw [visit_equity_count v hok, hph]
      simpa using hpre)
    _ _ _ _ (run_walk2 qsort s) h2).2
  exact this

theorem round_to_even_nonneg (q : ℚ) (hq : 0 ≤ q) : 0 ≤ round_to_even q := by
  have hf : 0 ≤ ⌊q⌋ := Int.floor_nonneg.mpr hq
  unfold round_to_even
  split_ifs <;> omega

theorem round_double_nonneg (x : ℚ) (hx : 0 ≤ x) : 0 ≤ round_double x := by
  unfold round_double
  split_ifs with h0 hpos
  · exact le_refl _
  · unfold round_double_pos
    have hulp : (0 : ℚ) < (2 : ℚ) ^ (max (binade x - 52) (-1074)) := zpow_pos (by norm_num) _
    have hq : 0 ≤ x / (2 : ℚ) ^ (max (binade x - 52) (-1074)) := div_nonneg hx (le_of_lt hulp)
    have hn : (0 : ℚ) ≤ (round_to_even (x / (2 : ℚ) ^ (max (binade x - 52) (-1074))) : ℚ) := by
      exact_mod_cast round_to_even_nonneg _ hq
    exact mul_nonneg hn (le_of_lt hulp)
  · exact absurd (lt_of_le_of_ne hx (Ne.symm h0)) hpos

theorem c_int_cast_in_range (x : ℚ) (h0 : 0 ≤ x) (h1 : x < 2 ^ 31) : c_int_cast x = ⌊x⌋ := by
  have hf : 0 ≤ ⌊x⌋ := Int.floor_nonneg.mpr h0
  have hlt : ⌊x⌋ < 2 ^ 31 := by
    rw [Int.floor_lt]
    exact_mod_cast h1
  unfold c_int_cast
  simp only [if_pos h0]
  rw [if_pos ⟨by omega, hlt⟩]

/-- C14, counterexample: with `113.33333333333333` as `Cap_Total[0]` the program's rounded
product is 17.0, so `equity_target` is 17, while `⌊0.15 * Cap_Total[0]⌋` is 16; with
`2e10` as `Cap_Total[0]` the product 3e9 does not fit the 32-bit `int`, the converted
`equity_target` is `INT_MIN`, and the final `equity_count = 0` is above it. -/
theorem C14_counterexample :
    (0 ≤ (rounded_target_data.resources 0).Cap_Total ∧
      (run_allocation_algorithm insertion_qsort rounded_target_data).target = 17 ∧
      ⌊(15 / 100 : ℚ) * (rounded_target_data.resources 0).Cap_Total⌋ = 16) ∧
    (0 ≤ (huge_capacity_data.resources 0).Cap_Total ∧
      ⌊(15 / 100 : ℚ) * (huge_capacity_data.resources 0).Cap_Total⌋ = 3000000000 ∧
      (run_allocation_algorithm insertion_qsort huge_capacity_data).target = -2147483648 ∧
      (run_allocation_algorithm insertion_qsort huge_capacity_data).final.equity_count = 0 ∧
      ¬ ((run_allocation_algorithm insertion_qsort huge_capacity_data).final.equity_count ≤
        (run_allocation_algorithm insertion_qsort huge_capacity_data).target)) := by
  decide!

/-- C14, amended (equity target and stop rule): for every input with `Cap_Total[0] ≥ 0`
whose double-precision product `T_EQUITY * Cap_Total[0]` is below `2^31`, `equity_target`
is the floor of that rounded product (`T_EQUITY` being the binary64 value of `0.15`); every
iteration of the Phase 1 walk starts with `equity_count < equity_target`, and the walk
either examines its whole pool or ends with `equity_count = equity_target`; at the end of
the run `equity_count` is the number of Phase 1 commits and is at most
`equity_target`. -/
theorem C14_equity_target_in_range (qsort : Qsort) (s : State)
    (hcap : 0 ≤ (s.resources 0).Cap_Total)
    (hrange : round_double (T_EQUITY * (s.resources 0).Cap_Total) < 2 ^ 31) :
    (run_allocation_algorithm qsort s).target =
      ⌊round_double (T_EQUITY * (s.resources 0).Cap_Total)⌋ ∧
    (∀ v ∈ (run_allocation_algorithm qsort s).trace1,
      v.pre.equity_count < (run_allocation_algorithm qsort s).target) ∧
    ((run_allocation_algorithm qsort s).trace1.length =
        (run_allocation_algorithm qsort s).pool1.length ∨
      (run_allocation_algorithm qsort s).after_phase1.equity_count =
        (run_allocation_algorithm qsort s).target) ∧
    (run_allocation_algorithm qsort s).final.equity_count =
      (((run_allocation_algorithm qsort s).trace1.filter (fun v => v.committed)).length
        : Int) ∧
    (run_allocation_algorithm qsort s).final.equity_count ≤
      (run_allocation_algorithm qsort s).target := by
  have hprod : 0 ≤ round_double (T_EQUITY * (s.resources 0).Cap_Total) :=
    round_double_nonneg _ (mul_nonneg (round_double_nonneg _ (by norm_num)) hcap)
  have ht : (run_allocation_algorithm qsort s).target =
      ⌊round_double (T_EQUITY * (s.resources 0).Cap_Total)⌋ := by
    show equity_target (run_allocation_algorithm qsort s).scored = _
    rw [run_scored_eq]
    simp only [equity_target]
    exact c_int_cast_in_range _ hprod hrange
  have hpos : 0 ≤ (run_allocation_algorithm qsort s).target := by
    rw [ht]
    exact Int.floor_nonneg.mpr hprod
  have h0 : (run_allocation_algorithm qsort s).scored.equity_count = 0 := by
    rw [run_scored_eq]
  obtain ⟨e1, e2, e3, e4⟩ := phase1_loop_equity (run_allocation_algorithm qsort s).target
    (run_allocation_algorithm qsort s).pool1 (run_allocation_algorithm qsort s).scored
  have e1' : (run_allocation_algorithm qsort s).after_phase1.equity_count =
      (run_allocation_algorithm qsort s).scored.equity_count +
        (((run_allocation_algorithm qsort s).trace1.filter (fun v => v.committed)).length
          : Int) := e1
  have e3' : (run_allocation_algorithm qsort s).after_phase1.equity_count ≤
      (run_allocation_algorithm qsort s).target := e3 (by rw [h0]; exact hpos)
  refine ⟨ht, e2, ?_, ?_, ?_⟩
  · rcases e4 with h | h
    · exact Or.inl h
    · exact Or.inr (le_antisymm e3' h)
  · rw [run_phase2_equity_count, e1', h0, zero_add]
  · rw [run_phase2_equity_count]
    exact e3'

/-- Witness for the amended C14: the example input (capacity 50) with insertion sort as
`qsort`; the rounded product is 7.5, the target is 7 and one test is committed in
Phase 1. -/
theorem C14_equity_target_in_range_witness :
    0 ≤ (example_input_data.resources 0).Cap_Total ∧
    round_double (T_EQUITY * (example_input_data.resources 0).Cap_Total)
      < 2 ^ 31 ∧
    round_double (T_EQUITY * (example_input_data.resources 0).Cap_Total)
      = 15 / 2 ∧
    (run_allocation_algorithm insertion_qsort example_input_data).target = 7 ∧
    (run_allocation_algorithm insertion_qsort example_input_data).final.equity_count = 1 ∧
    ((run_allocation_algorithm insertion_qsort example_input_data).target =
      ⌊round_double (T_EQUITY * (example_input_data.resources 0).Cap_Total)⌋ ∧
    (∀ v ∈ (run_allocation_algorithm insertion_qsort example_input_data).trace1,
      v.pre.equity_count < (run_allocation_algorithm insertion_qsort example_input_data).target) ∧
    ((run_allocation_algorithm insertion_qsort example_input_data).trace1.length =
        (run_allocation_algorithm insertion_qsort example_input_data).pool1.length ∨
      (run_allocation_algorithm insertion_qsort example_input_data).after_phase1.equity_count =
        (run_allocation_algorithm insertion_qsort example_input_data).target) ∧
    (run_allocation_algorithm insertion_qsort example_input_data).final.equity_count =
      (((run_allocation_algorithm insertion_qsort example_input_data).trace1.filter
        (fun v => v.committed)).length : Int) ∧
    (run_allocation_algorithm insertion_qsort example_input_data).final.equity_count ≤
      (run_allocation_algorithm insertion_qsort example_input_data).target) :=
  ⟨by decide!, by decide!, by decide!, by decide!, by decide!,
    C14_equity_target_in_range insertion_qsort example_input_data (by decide!) (by decide!)⟩

/-! ## Scenario A: no resource configured -/

theorem unutilized_setup_sum_zero (resources : Nat → Resource) :
    unutilized_setup_sum 0 resources = 0 := by
  simp [unutilized_setup_sum]

theorem scored_test_scenario_a (s : State) (h0 : s.num_resources = 0) (i : Nat) :
    ScenarioAScores s.conditions (scored_test s i) := by
  simp [ScenarioAScores, scored_test, calculate_tps, calculate_marginal_cost_eq,
    spec_marginal_cost, h0, unutilized_setup_sum_zero]

theorem rescored_test_scenario_a (s : State) (h0 : s.num_resources = 0) (i : Nat) :
    ScenarioAScores s.conditions (rescored_test s i) := by
  simp [ScenarioAScores, rescored_test, calculate_tps, calculate_marginal_cost_eq,
    spec_marginal_cost, h0, unutilized_setup_sum_zero]

/-- C15 (Scenario A): for every input with `num_resources == 0`: `calculate_marginal_cost`
yields `Marginal_Cost = C_Explicit`; `calculate_tps` yields
`(W_Crit * W_Surv) / Marginal_Cost` when `Marginal_Cost > 0` and 0 otherwise;
`check_feasibility` is true for every test and every resource state; each of the
`num_tests` tests carries those scores after the scoring pass and at the end of the run;
and an iteration of the Phase 2 walk (or of the Phase 1 walk) commits its candidate if
and only if `total_cost + Marginal_Cost ≤ B_Max` when it is examined. -/
theorem C15_scenario_a (qsort : Qsort) (s : State) (h0 : s.num_resources = 0) :
    (∀ (test : Test) (resources : Nat → Resource),
      (calculate_marginal_cost s.num_resources test resources).Marginal_Cost =
        test.C_Explicit) ∧
    (∀ (test : Test) (cond : Condition),
      (calculate_tps s.num_resources test cond).TPS =
        if 0 < test.Marginal_Cost then (cond.W_Crit * cond.W_Surv) / test.Marginal_Cost
        else 0) ∧
    (∀ (test : Test) (resources : Nat → Resource),
      check_feasibility s.num_resources test resources = true) ∧
    (∀ i : Nat, (i : Int) < s.num_tests →
      ScenarioAScores s.conditions ((run_allocation_algorithm qsort s).scored.tests i) ∧
      ScenarioAScores s.conditions ((run_allocation_algorithm qsort s).final.tests i)) ∧
    (∀ v ∈ (run_allocation_algorithm qsort s).trace,
      (v.committed = true ↔
        v.pre.total_cost + (v.pre.tests v.index).Marginal_Cost ≤ v.pre.B_Max)) := by
  have hfeas : ∀ (test : Test) (resources : Nat → Resource),
      check_feasibility s.num_resources test resources = true := by
    intro test resources
    rw [h0]
    rfl
  have hn0 : (run_allocation_algorithm qsort s).scored.num_resources = s.num_resources := by
    rw [run_scored_eq]
  have hc0 : (run_allocation_algorithm qsort s).scored.conditions = s.conditions := by
    rw [run_scored_eq]
  have hN0 : (run_allocation_algorithm qsort s).scored.num_tests = s.num_tests := by
    rw [run_scored_eq]
  have hl1 := run_later1 qsort s
  have hl2 := run_later2 qsort s
  refine ⟨?_, ?_, hfeas, ?_, ?_⟩
  · intro test resources
    rw [calculate_marginal_cost_eq, h0]
    simp [spec_marginal_cost, unutilized_setup_sum_zero]
  · intro test cond
    simp [calculate_tps, h0]
  · intro i hi
    have hi2 : i < s.num_tests.toNat := by omega
    have hsc : (run_allocation_algorithm qsort s).scored.tests i = scored_test s i := by
      rw [run_scored_eq]
      simp only [hi2, if_true]
    refine ⟨by rw [hsc]; exact scored_test_scenario_a s h0 i, ?_⟩
    rw [hl2.tests, run_phase2_start_def, build_pool_all_state]
    by_cases hu : (run_allocation_algorithm qsort s).after_phase1.is_scheduled i = false
    · have hcond : i < (run_allocation_algorithm qsort s).after_phase1.num_tests.toNat ∧
          (run_allocation_algorithm qsort s).after_phase1.is_scheduled i = false := by
        rw [hl1.num_tests, hN0]
        exact ⟨hi2, hu⟩
      simp only [hcond, and_self, if_true]
      have := rescored_test_scenario_a (run_allocation_algorithm qsort s).after_phase1
        (by rw [hl1.num_resources, hn0, h0]) i
      rw [hl1.conditions, hc0] at this
      exact this
    · have hcond : ¬ (i < (run_allocation_algorithm qsort s).after_phase1.num_tests.toNat ∧
          (run_allocation_algorithm qsort s).after_phase1.is_scheduled i = false) :=
        fun h => hu h.2
      simp only [if_neg hcond]
      rw [hl1.tests, hsc]
      exact scored_test_scenario_a s h0 i
  · intro v hv
    have hok := run_trace_ok qsort s v hv
    have hvn : v.pre.num_resources = s.num_resources := by
      obtain ⟨_, _, hrel⟩ := run_pairwise qsort s
        (fun a b => b.num_resources = a.num_resources)
        (fun _ _ _ h1 h2 => h2.trans h1) (fun _ _ h => h.num_resources)
        (run_phase2_start_num_resources qsort s)
      rw [hrel v hv, hn0]
    rw [hok.1]
    unfold can_commit
    rw [hvn, hfeas]
    simp

/-- Witness for C15: on `no_resource_data` Phase 2 commits test 0 (cost 100 of the budget
120) and skips test 1 (cost 50), which only the budget blocks. -/
theorem C15_scenario_a_witness :
    no_resource_data.num_resources = 0 ∧
    (run_allocation_algorithm insertion_qsort no_resource_data).trace.map
      (fun v => (v.phase, v.index, v.committed)) = [(2, 0, true), (2, 1, false)] ∧
    ((∀ (test : Test) (resources : Nat → Resource),
      (calculate_marginal_cost no_resource_data.num_resources test resources).Marginal_Cost =
        test.C_Explicit) ∧
    (∀ (test : Test) (cond : Condition),
      (calculate_tps no_resource_data.num_resources test cond).TPS =
        if 0 < test.Marginal_Cost then (cond.W_Crit * cond.W_Surv) / test.Marginal_Cost
        else 0) ∧
    (∀ (test : Test) (resources : Nat → Resource),
      check_feasibility no_resource_data.num_resources test resources = true) ∧
    (∀ i : Nat, (i : Int) < no_resource_data.num_tests →
      ScenarioAScores no_resource_data.conditions
        ((run_allocation_algorithm insertion_qsort no_resource_data).scored.tests i) ∧
      ScenarioAScores no_resource_data.conditions
        ((run_allocation_algorithm insertion_qsort no_resource_data).final.tests i)) ∧
    (∀ v ∈ (run_allocation_algorithm insertion_qsort no_resource_data).trace,
      (v.committed = true ↔
        v.pre.total_cost + (v.pre.tests v.index).Marginal_Cost ≤ v.pre.B_Max))) :=
  ⟨rfl, by decide!, C15_scenario_a insertion_qsort no_resource_data rfl⟩

/-! ## What a run depends on -/

theorem run_congr (qsort : Qsort) (a b : State)
    (h : scoring_pass (initialize_globals a) = scoring_pass (initialize_globals b)) :
    run_allocation_algorithm qsort a = run_allocation_algorithm qsort b := by
  unfold run_allocation_algorithm
  rw [h]

theorem scored_state_eq (s : State) :
    scoring_pass (initialize_globals s) =
      { s with
        total_cost := 0
        total_utility := 0
        equity_count := 0
        is_scheduled := fun i => if i < MAX_TESTS then false else s.is_scheduled i
        tests := fun i => if i < s.num_tests.toNat then scored_test s i else s.tests i } :=
  run_scored_eq insertion_qsort s

/-- The entry the scoring pass stores depends on the old entry only through its id, its
condition, its explicit cost, its probability, its immediate demands and the future
demands beyond the configured resources. -/
theorem score_congr (n : Int) (resources : Nat → Resource) (conditions : Nat → Condition)
    (t t' : Test) (h1 : t'.test_id = t.test_id) (h2 : t'.condition_k = t.condition_k)
    (h3 : t'.C_Explicit = t.C_Explicit) (h4 : t'.P_Pos = t.P_Pos)
    (h5 : t'.D_Immediate = t.D_Immediate)
    (h6 : ∀ j, ¬ j < n.toNat → t'.D_Future_Calc j = t.D_Future_Calc j) :
    calculate_tps n
        (calculate_marginal_cost n ((List.range n.toNat).foldl future_demand_body t') resources)
        (conditions t'.condition_k) =
      calculate_tps n
        (calculate_marginal_cost n ((List.range n.toNat).foldl future_demand_body t) resources)
        (conditions t.condition_k) := by
  cases t
  cases t'
  simp only at h1 h2 h3 h4 h5 h6
  subst h1 h2 h3 h4 h5
  simp only [calculate_tps, calculate_marginal_cost_eq, future_demand_foldl,
    spec_marginal_cost]
  congr 1
  funext j
  by_cases hj : j < n.toNat
  · simp only [hj, if_true]
  · simp only [hj, if_false]
    exact h6 j hj

theorem scored_test_condition_k (s : State) (i : Nat) :
    (scored_test s i).condition_k = (s.tests i).condition_k := by
  simp [scored_test, calculate_tps, calculate_marginal_cost_eq, future_demand_foldl]

theorem scored_test_P_Pos (s : State) (i : Nat) :
    (scored_test s i).P_Pos = (s.tests i).P_Pos := by
  simp [scored_test, calculate_tps, calculate_marginal_cost_eq, future_demand_foldl]

theorem scored_test_D_Future_Calc (s : State) (i j : Nat) :
    (scored_test s i).D_Future_Calc j =
      if j < s.num_resources.toNat then (s.tests i).P_Pos * 1 else (s.tests i).D_Future_Calc j := by
  simp [scored_test, calculate_tps, calculate_marginal_cost_eq, future_demand_foldl]

theorem rescored_test_condition_k (s : State) (i : Nat) :
    (rescored_test s i).condition_k = (s.tests i).condition_k := by
  simp [rescored_test, calculate_tps, calculate_marginal_cost_eq]

theorem rescored_test_P_Pos (s : State) (i : Nat) :
    (rescored_test s i).P_Pos = (s.tests i).P_Pos := by
  simp [rescored_test, calculate_tps, calculate_marginal_cost_eq]

/-- The data of a test that no part of the run changes after the scoring pass. -/
theorem run_final_tests (qsort : Qsort) (s : State) (i : Nat) :
    ((run_allocation_algorithm qsort s).final.tests i).test_id = (s.tests i).test_id ∧
    ((run_allocation_algorithm qsort s).final.tests i).condition_k =
      (s.tests i).condition_k ∧
    ((run_allocation_algorithm qsort s).final.tests i).C_Explicit = (s.tests i).C_Explicit ∧
    ((run_allocation_algorithm qsort s).final.tests i).P_Pos = (s.tests i).P_Pos ∧
    ((run_allocation_algorithm qsort s).final.tests i).D_Immediate =
      (s.tests i).D_Immediate ∧
    (∀ j, ((run_allocation_algorithm qsort s).final.tests i).D_Future_Calc j =
      ((run_allocation_algorithm qsort s).scored.tests i).D_Future_Calc j) ∧
    (¬ i < s.num_tests.toNat → (run_allocation_algorithm qsort s).final.tests i = s.tests i) := by
  have hl1 := run_later1 qsort s
  have hl2 := run_later2 qsort s
  have hsc : (run_allocation_algorithm qsort s).scored.tests i =
      if i < s.num_tests.toNat then scored_test s i else s.tests i := by
    rw [run_scored_eq]
  have hN : (run_allocation_algorithm qsort s).after_phase1.num_tests = s.num_tests := by
    rw [hl1.num_tests, run_scored_eq]
  have hfin : (run_allocation_algorithm qsort s).final.tests i =
      if i < s.num_tests.toNat ∧
          (run_allocation_algorithm qsort s).after_phase1.is_scheduled i = false then
        rescored_test (run_allocation_algorithm qsort s).after_phase1 i
      else (run_allocation_algorithm qsort s).scored.tests i := by
    rw [hl2.tests, run_phase2_start_def, build_pool_all_state]
    simp only [hN, hl1.tests]
  have hbase : ((run_allocation_algorithm qsort s).scored.tests i).test_id =
        (s.tests i).test_id ∧
      ((run_allocation_algorithm qsort s).scored.tests i).condition_k =
        (s.tests i).condition_k ∧
      ((run_allocation_algorithm qsort s).scored.tests i).C_Explicit =
        (s.tests i).C_Explicit ∧
      ((run_allocation_algorithm qsort s).scored.tests i).P_Pos = (s.tests i).P_Pos ∧
      ((run_allocation_algorithm qsort s).scored.tests i).D_Immediate =
        (s.tests i).D_Immediate := by
    rw [hsc]
    split_ifs
    · exact ⟨scored_test_test_id s i, scored_test_condition_k s i, scored_test_C_Explicit s i,
        scored_test_P_Pos s i, scored_test_D_Immediate s i⟩
    · exact ⟨rfl, rfl, rfl, rfl, rfl⟩
  rw [hfin]
  split_ifs with h
  · rw [rescored_test_test_id, rescored_test_condition_k, rescored_test_C_Explicit,
      rescored_test_P_Pos, rescored_test_D_Immediate, rescored_test_D_Future_Calc, hl1.tests]
    exact ⟨hbase.1, hbase.2.1, hbase.2.2.1, hbase.2.2.2.1, hbase.2.2.2.2, fun _ => rfl,
      fun hn => absurd h.1 hn⟩
  · refine ⟨hbase.1, hbase.2.1, hbase.2.2.1, hbase.2.2.2.1, hbase.2.2.2.2, fun _ => rfl, ?_⟩
    intro hn
    rw [hsc, if_neg hn]

theorem run_final_static (qsort : Qsort) (s : State) :
    (run_allocation_algorithm qsort s).final.conditions = s.conditions ∧
    (run_allocation_algorithm qsort s).final.num_tests = s.num_tests ∧
    (run_allocation_algorithm qsort s).final.num_resources = s.num_resources ∧
    (run_allocation_algorithm qsort s).final.num_conditions = s.num_conditions ∧
    (run_allocation_algorithm qsort s).final.B_Max = s.B_Max := by
  have hl1 := run_later1 qsort s
  have hl2 := run_later2 qsort s
  have h2 : (run_allocation_algorithm qsort s).phase2_start.conditions =
        (run_allocation_algorithm qsort s).after_phase1.conditions ∧
      (run_allocation_algorithm qsort s).phase2_start.num_tests =
        (run_allocation_algorithm qsort s).after_phase1.num_tests ∧
      (run_allocation_algorithm qsort s).phase2_start.num_resources =
        (run_allocation_algorithm qsort s).after_phase1.num_resources ∧
      (run_allocation_algorithm qsort s).phase2_start.num_conditions =
        (run_allocation_algorithm qsort s).after_phase1.num_conditions ∧
      (run_allocation_algorithm qsort s).phase2_start.B_Max =
        (run_allocation_algorithm qsort s).after_phase1.B_Max := by
    rw [run_phase2_start_def, build_pool_all_state]
    exact ⟨rfl, rfl, rfl, rfl, rfl⟩
  rw [hl2.conditions, hl2.num_tests, hl2.num_resources, hl2.num_conditions, hl2.B_Max,
    h2.1, h2.2.1, h2.2.2.1, h2.2.2.2.1, h2.2.2.2.2,
    hl1.conditions, hl1.num_tests, hl1.num_resources, hl1.num_conditions, hl1.B_Max,
    run_scored_eq]
  exact ⟨rfl, rfl, rfl, rfl, rfl⟩

theorem run_trace_index_lt (qsort : Qsort) (hq : QsortPerm qsort) (s : State)
    (hid : IdsArePositions s) :
    ∀ v ∈ (run_allocation_algorithm qsort s).trace, v.index < s.num_tests.toNat := by
  intro v hv
  rcases List.mem_append.mp hv with h | h
  · exact (trace1_facts qsort hq s hid v h).2.2.2.2.1
  · exact (trace2_facts qsort hq s hid v h).2.2.2.2.1

theorem run_flags_beyond (qsort : Qsort) (hq : QsortPerm qsort) (s : State)
    (hid : IdsArePositions s) (hN : s.num_tests ≤ MAX_TESTS) :
    ∀ i, MAX_TESTS ≤ i →
      (run_allocation_algorithm qsort s).final.is_scheduled i = s.is_scheduled i := by
  obtain ⟨_, _, _, h, _⟩ := run_rel qsort s
    (fun a b => ∀ i, MAX_TESTS ≤ i → b.is_scheduled i = a.is_scheduled i) (fun _ => True)
    (fun _ _ _ => rfl) (fun _ _ _ h1 h2 i hi => (h2 i hi).trans (h1 i hi))
    (fun v hv hok _ => by
      refine ⟨trivial, ?_⟩
      intro i hi
      have hlt := run_trace_index_lt qsort hq s hid v hv
      have hne : i ≠ v.index := by omega
      by_cases hc : v.committed = true
      · rw [hok.post_of_committed hc, commit_step_eq]
        simp [Function.update_noteq hne]
      · rw [hok.post_of_skipped (by simpa using hc)])
    (fun a _ => ⟨trivial, fun i _ => by rw [build_pool_all_state]⟩) trivial
  intro i hi
  rw [h i hi, run_scored_eq]
  have : ¬ i < MAX_TESTS := by omega
  simp [this]

/-- C11, counterexample: after a first run on the example input, `initialize_globals`
leaves resource 0 with `Cap_Rem = 15` of 50, `Utilized = true` and
`Future_Demand_Commit = 31/20`; a second run started from the state the first one left
schedules only tests 1 and 4 for a total cost of 100, whereas the first run scheduled
tests 0, 1, 2 and 4 for 850. -/
theorem C11_counterexample :
    ((initialize_globals
        (run_allocation_algorithm insertion_qsort example_input_data).final).resources 0).Cap_Rem
      = 15 ∧
    ((initialize_globals
        (run_allocation_algorithm insertion_qsort example_input_data).final).resources 0).Cap_Total
      = 50 ∧
    ((initialize_globals
        (run_allocation_algorithm insertion_qsort example_input_data).final).resources 0).Utilized
      = true ∧
    ((initialize_globals (run_allocation_algorithm insertion_qsort
        example_input_data).final).resources 0).Future_Demand_Commit = 31 / 20 ∧
    (List.range 5).map (run_allocation_algorithm insertion_qsort example_input_data).final.is_scheduled
      = [true, true, true, false, true] ∧
    (run_allocation_algorithm insertion_qsort example_input_data).final.total_cost = 850 ∧
    (List.range 5).map (run_allocation_algorithm insertion_qsort
        (run_allocation_algorithm insertion_qsort example_input_data).final).final.is_scheduled
      = [false, true, false, false, true] ∧
    (run_allocation_algorithm insertion_qsort
      (run_allocation_algorithm insertion_qsort example_input_data).final).final.total_cost
      = 100 := by
  decide!

/-- C11, amended: whatever state a previous run left behind, `initialize_globals` sets
`total_cost`, `total_utility` and `equity_count` to 0 and every `is_scheduled` flag of the
array to false, and leaves everything else, in particular every resource's `Cap_Rem`,
`Utilized` and `Future_Demand_Commit`, as it was.  Consequently, for an input in which
each test's id equals its array position and `num_tests ≤ MAX_TESTS`, running the
allocation again on the state a run left, once the resource entries are restored to their
loaded values, repeats the run exactly: same logs, same scheduled set, same totals. -/
theorem C11_fresh_run (qsort : Qsort) (hq : QsortPerm qsort) (s : State)
    (hid : IdsArePositions s) (hN : s.num_tests ≤ MAX_TESTS) :
    (∀ prev : State,
      (initialize_globals prev).total_cost = 0 ∧
      (initialize_globals prev).total_utility = 0 ∧
      (initialize_globals prev).equity_count = 0 ∧
      (∀ i, i < MAX_TESTS → (initialize_globals prev).is_scheduled i = false) ∧
      (initialize_globals prev).resources = prev.resources ∧
      (initialize_globals prev).tests = prev.tests ∧
      (initialize_globals prev).conditions = prev.conditions ∧
      (initialize_globals prev).B_Max = prev.B_Max) ∧
    run_allocation_algorithm qsort
        { (run_allocation_algorithm qsort s).final with resources := s.resources } =
      run_allocation_algorithm qsort s := by
  refine ⟨?_, ?_⟩
  · intro prev
    rw [initialize_globals_eq]
    refine ⟨rfl, rfl, rfl, ?_, rfl, rfl, rfl, rfl⟩
    intro i hi
    simp [hi]
  · apply run_congr
    obtain ⟨c1, c2, c3, c4, c5⟩ := run_final_static qsort s
    have htests : ∀ i, (if i < s.num_tests.toNat then
          scored_test { (run_allocation_algorithm qsort s).final with resources := s.resources } i
          else (run_allocation_algorithm qsort s).final.tests i) =
        if i < s.num_tests.toNat then scored_test s i else s.tests i := by
      intro i
      obtain ⟨t1, t2, t3, t4, t5, t6, t7⟩ := run_final_tests qsort s i
      by_cases hi : i < s.num_tests.toNat
      · simp only [hi, if_true]
        unfold scored_test
        simp only [c1, c3]
        refine score_congr s.num_resources s.resources s.conditions _ _ t1 t2 t3 t4 t5 ?_
        intro j hj
        rw [t6 j, run_scored_eq]
        simp only [hi, if_true, scored_test_D_Future_Calc, hj, if_false]
      · simp only [hi, if_false]
        exact t7 hi
    have hflags : ∀ i, (if i < MAX_TESTS then false
          else (run_allocation_algorithm qsort s).final.is_scheduled i) =
        if i < MAX_TESTS then false else s.is_scheduled i := by
      intro i
      by_cases hi : i < MAX_TESTS
      · simp only [hi, if_true]
      · simp only [hi, if_false]
        exact run_flags_beyond qsort hq s hid hN i (by omega)
    rw [scored_state_eq, scored_state_eq]
    congr 1
    · funext i
      rw [← htests i]
      simp only [c2]
    · funext i
      exact hflags i

/-- Witness for the amended C11: the example input with insertion sort as `qsort`. -/
theorem C11_fresh_run_witness :
    QsortPerm insertion_qsort ∧ IdsArePositions example_input_data ∧
    example_input_data.num_tests ≤ MAX_TESTS ∧
    ((∀ prev : State,
      (initialize_globals prev).total_cost = 0 ∧
      (initialize_globals prev).total_utility = 0 ∧
      (initialize_globals prev).equity_count = 0 ∧
      (∀ i, i < MAX_TESTS → (initialize_globals prev).is_scheduled i = false) ∧
      (initialize_globals prev).resources = prev.resources ∧
      (initialize_globals prev).tests = prev.tests ∧
      (initialize_globals prev).conditions = prev.conditions ∧
      (initialize_globals prev).B_Max = prev.B_Max) ∧
    run_allocation_algorithm insertion_qsort
        { (run_allocation_algorithm insertion_qsort example_input_data).final with
          resources := example_input_data.resources } =
      run_allocation_algorithm insertion_qsort example_input_data) :=
  ⟨insertion_qsort_perm, example_input_data_ids, by decide,
    C11_fresh_run insertion_qsort insertion_qsort_perm example_input_data
      example_input_data_ids (by decide)⟩

/-! ## Sorted pools -/

theorem compare_demand_asc_le (a b : Test) :
    compare_demand_asc a b ≤ 0 ↔ a.D_Immediate 0 ≤ b.D_Immediate 0 := by
  unfold compare_demand_asc
  split_ifs with h1 h2
  · simp [le_of_lt h1]
  · simp [not_le.mpr h2]
  · simp [not_lt.mp h2]

theorem compare_tps_desc_le (a b : Test) : compare_tps_desc a b ≤ 0 ↔ b.TPS ≤ a.TPS := by
  unfold compare_tps_desc
  split_ifs with h1 h2
  · simp [not_le.mpr h1]
  · simp [le_of_lt h2]
  · simp [not_lt.mp h1]

theorem insertion_qsort_sorted : QsortSorted insertion_qsort := by
  intro pool
  constructor
  · haveI : IsTotal Test (fun a b => compare_demand_asc a b ≤ 0) :=
      ⟨fun a b => by
        simp only [compare_demand_asc_le]
        exact le_total _ _⟩
    haveI : IsTrans Test (fun a b => compare_demand_asc a b ≤ 0) :=
      ⟨fun a b c => by
        simp only [compare_demand_asc_le]
        exact le_trans⟩
    exact List.sorted_insertionSort (fun a b => compare_demand_asc a b ≤ 0) pool
  · haveI : IsTotal Test (fun a b => compare_tps_desc a b ≤ 0) :=
      ⟨fun a b => by
        simp only [compare_tps_desc_le]
        exact le_total _ _⟩
    haveI : IsTrans Test (fun a b => compare_tps_desc a b ≤ 0) :=
      ⟨fun a b c => by
        simp only [compare_tps_desc_le]
        exact fun h1 h2 => le_trans h2 h1⟩
    exact List.sorted_insertionSort (fun a b => compare_tps_desc a b ≤ 0) pool

theorem run_pool1_sorted (qsort : Qsort) (hs : QsortSorted qsort) (s : State) :
    (run_allocation_algorithm qsort s).pool1.Pairwise
      (fun a b => a.D_Immediate 0 ≤ b.D_Immediate 0) :=
  ((hs _).1 : List.Pairwise _ (run_allocation_algorithm qsort s).pool1).imp
    (fun h => (compare_demand_asc_le _ _).mp h)

theorem run_pool2_sorted (qsort : Qsort) (hs : QsortSorted qsort) (s : State) :
    (run_allocation_algorithm qsort s).pool2.Pairwise (fun a b => b.TPS ≤ a.TPS) :=
  ((hs _).2 : List.Pairwise _ (run_allocation_algorithm qsort s).pool2).imp
    (fun h => (compare_tps_desc_le _ _).mp h)

theorem run_scored_tests (qsort : Qsort) (s : State) (i : Nat) (hi : i < s.num_tests.toNat) :
    (run_allocation_algorithm qsort s).scored.tests i = scored_test s i := by
  rw [run_scored_eq]
  simp only [hi, if_true]

theorem run_scored_flags (qsort : Qsort) (s : State) (hN : s.num_tests ≤ MAX_TESTS) (i : Nat)
    (hi : i < s.num_tests.toNat) :
    (run_allocation_algorithm qsort s).scored.is_scheduled i = false := by
  rw [run_scored_eq]
  have : i < MAX_TESTS := by omega
  simp [this]

theorem run_pool1_entries (qsort : Qsort) (hq : QsortPerm qsort) (s : State)
    (hid : IdsArePositions s) :
    ∀ c ∈ (run_allocation_algorithm qsort s).pool1,
      c = scored_test s c.test_id ∧ c.test_id < s.num_tests.toNat := by
  intro c hc
  have hN : (run_allocation_algorithm qsort s).scored.num_tests = s.num_tests := by
    rw [run_scored_eq]
  rw [run_pool1_eq] at hc
  have hc2 := (hq _).1.subset hc
  obtain ⟨i, hi, rfl⟩ := List.mem_map.mp hc2
  have hi2 : i < s.num_tests.toNat := by
    have := List.mem_range.mp (List.mem_filter.mp hi).1
    rw [hN] at this
    exact this
  rw [scored_test_id qsort s hid i hi2]
  exact ⟨run_scored_tests qsort s i hi2, hi2⟩

theorem run_pool2_entries (qsort : Qsort) (hq : QsortPerm qsort) (s : State)
    (hid : IdsArePositions s) :
    ∀ c ∈ (run_allocation_algorithm qsort s).pool2,
      c = rescored_test (run_allocation_algorithm qsort s).after_phase1 c.test_id ∧
      c = (run_allocation_algorithm qsort s).phase2_start.tests c.test_id ∧
      c.test_id < s.num_tests.toNat ∧
      (run_allocation_algorithm qsort s).after_phase1.is_scheduled c.test_id = false := by
  intro c hc
  have hl := run_later1 qsort s
  have hN : (run_allocation_algorithm qsort s).after_phase1.num_tests = s.num_tests := by
    rw [hl.num_tests, run_scored_eq]
  rw [run_pool2_eq] at hc
  have hc2 := (hq _).2.subset hc
  obtain ⟨i, hi, rfl⟩ := List.mem_map.mp hc2
  have hi2 : i < s.num_tests.toNat := by
    have := List.mem_range.mp (List.mem_filter.mp hi).1
    rw [hN] at this
    exact this
  have hun : (run_allocation_algorithm qsort s).after_phase1.is_scheduled i = false :=
    of_decide_eq_true (List.mem_filter.mp hi).2
  have hid2 : (rescored_test (run_allocation_algorithm qsort s).after_phase1 i).test_id = i := by
    rw [rescored_test_test_id, hl.tests]
    exact scored_test_id qsort s hid i hi2
  rw [hid2]
  refine ⟨rfl, ?_, hi2, hun⟩
  rw [run_phase2_start_def, build_pool_all_state]
  simp only [hN, hi2, hun, and_self, if_true]

theorem phase1_commit_keeps_scores (qsort : Qsort) (hq : QsortPerm qsort) (s : State)
    (hid : IdsArePositions s) :
    ∀ v ∈ (run_allocation_algorithm qsort s).trace1, v.committed = true →
      (run_allocation_algorithm qsort s).final.tests v.index = scored_test s v.index := by
  intro v hv hc
  obtain ⟨_, hok, _, _, hlt, _, _⟩ := trace1_facts qsort hq s hid v hv
  have hset := (run_flags_persist qsort s).2.1 v hv v.index (commit_flags v hok hc)
  rw [(run_later2 qsort s).tests, run_phase2_start_def, build_pool_all_state]
  have hcond : ¬ (v.index < (run_allocation_algorithm qsort s).after_phase1.num_tests.toNat ∧
      (run_allocation_algorithm qsort s).after_phase1.is_scheduled v.index = false) := by
    rintro ⟨_, h⟩
    rw [hset] at h
    exact Bool.noConfusion h
  simp only [if_neg hcond]
  rw [(run_later1 qsort s).tests]
  exact run_scored_tests qsort s v.index hlt

/-- C17 (Phase 2 candidate order): for every input in which each test's id equals its
array position, and every admissible `qsort`: the Phase 2 walk examines the candidates of
the sorted `pool_all` one by one in order; their ids are a permutation of exactly the
indices below `num_tests` that are unscheduled after Phase 1; each pool entry is the
`tests[]` entry of its id as rescored, by `calculate_marginal_cost` and `calculate_tps`,
from the resource state at the start of Phase 2; the sequence is in non-increasing order
of that `TPS`; and a test committed in Phase 1 still has, at the end of the run, the
entry the Phase 0 scoring pass stored. -/
theorem C17_phase2_order (qsort : Qsort) (hq : QsortPerm qsort) (hs : QsortSorted qsort)
    (s : State) (hid : IdsArePositions s) :
    (run_allocation_algorithm qsort s).trace2.map Visit.index =
      (run_allocation_algorithm qsort s).pool2.map Test.test_id ∧
    ((run_allocation_algorithm qsort s).pool2.map Test.test_id).Perm
      ((List.range s.num_tests.toNat).filter
        (fun i => decide ((run_allocation_algorithm qsort s).after_phase1.is_scheduled i =
          false))) ∧
    (∀ c ∈ (run_allocation_algorithm qsort s).pool2,
      c = (run_allocation_algorithm qsort s).phase2_start.tests c.test_id ∧
      c = calculate_tps (run_allocation_algorithm qsort s).after_phase1.num_resources
          (calculate_marginal_cost (run_allocation_algorithm qsort s).after_phase1.num_resources
            ((run_allocation_algorithm qsort s).after_phase1.tests c.test_id)
            (run_allocation_algorithm qsort s).after_phase1.resources)
          ((run_allocation_algorithm qsort s).after_phase1.conditions
            ((run_allocation_algorithm qsort s).after_phase1.tests c.test_id).condition_k)) ∧
    (run_allocation_algorithm qsort s).pool2.Pairwise (fun a b => b.TPS ≤ a.TPS) ∧
    ((run_allocation_algorithm qsort s).trace2.map Visit.index).Pairwise
      (fun i j => ((run_allocation_algorithm qsort s).phase2_start.tests j).TPS ≤
        ((run_allocation_algorithm qsort s).phase2_start.tests i).TPS) ∧
    (∀ v ∈ (run_allocation_algorithm qsort s).trace1, v.committed = true →
      (run_allocation_algorithm qsort s).final.tests v.index = scored_test s v.index) := by
  have hidx : (run_allocation_algorithm qsort s).trace2.map Visit.index =
      (run_allocation_algorithm qsort s).pool2.map Test.test_id :=
    phase2_loop_indices _ _
  have hent := run_pool2_entries qsort hq s hid
  have hsorted := run_pool2_sorted qsort hs s
  refine ⟨hidx, run_pool2_ids qsort hq s hid, ?_, hsorted, ?_,
    phase1_commit_keeps_scores qsort hq s hid⟩
  · intro c hc
    exact ⟨(hent c hc).2.1, (hent c hc).1⟩
  · rw [hidx, List.pairwise_map]
    refine hsorted.imp_of_mem ?_
    intro a b ha hb h
    rw [← (hent a ha).2.1, ← (hent b hb).2.1]
    exact h

/-- Witness for C17: the example input with insertion sort as `qsort`; Phase 2 examines
tests 4, 0, 2, 3 in this order. -/
theorem C17_phase2_order_witness :
    QsortPerm insertion_qsort ∧ QsortSorted insertion_qsort ∧
    IdsArePositions example_input_data ∧
    (run_allocation_algorithm insertion_qsort example_input_data).trace2.map Visit.index =
      [4, 0, 2, 3] ∧
    ((run_allocation_algorithm insertion_qsort example_input_data).trace2.map Visit.index =
      (run_allocation_algorithm insertion_qsort example_input_data).pool2.map Test.test_id ∧
    ((run_allocation_algorithm insertion_qsort example_input_data).pool2.map Test.test_id).Perm
      ((List.range example_input_data.num_tests.toNat).filter
        (fun i => decide ((run_allocation_algorithm insertion_qsort
          example_input_data).after_phase1.is_scheduled i = false))) ∧
    (∀ c ∈ (run_allocation_algorithm insertion_qsort example_input_data).pool2,
      c = (run_allocation_algorithm insertion_qsort example_input_data).phase2_start.tests
        c.test_id ∧
      c = calculate_tps
          (run_allocation_algorithm insertion_qsort example_input_data).after_phase1.num_resources
          (calculate_marginal_cost
            (run_allocation_algorithm insertion_qsort
              example_input_data).after_phase1.num_resources
            ((run_allocation_algorithm insertion_qsort example_input_data).after_phase1.tests
              c.test_id)
            (run_allocation_algorithm insertion_qsort example_input_data).after_phase1.resources)
          ((run_allocation_algorithm insertion_qsort example_input_data).after_phase1.conditions
            ((run_allocation_algorithm insertion_qsort example_input_data).after_phase1.tests
              c.test_id).condition_k)) ∧
    (run_allocation_algorithm insertion_qsort example_input_data).pool2.Pairwise
      (fun a b => b.TPS ≤ a.TPS) ∧
    ((run_allocation_algorithm insertion_qsort example_input_data).trace2.map
      Visit.index).Pairwise
      (fun i j =>
        ((run_allocation_algorithm insertion_qsort example_input_data).phase2_start.tests j).TPS ≤
        ((run_allocation_algorithm insertion_qsort example_input_data).phase2_start.tests
          i).TPS) ∧
    (∀ v ∈ (run_allocation_algorithm insertion_qsort example_input_data).trace1,
      v.committed = true →
        (run_allocation_algorithm insertion_qsort example_input_data).final.tests v.index =
          scored_test example_input_data v.index)) :=
  ⟨insertion_qsort_perm, insertion_qsort_sorted, example_input_data_ids, by decide!,
    C17_phase2_order insertion_qsort insertion_qsort_perm insertion_qsort_sorted
      example_input_data example_input_data_ids⟩

/-- C19 (Phase 1 candidate order): for every input in which each test's id equals its
array position (and `num_tests ≤ MAX_TESTS`), and every admissible `qsort`: the ids of the
sorted `pool_low_crit` that Phase 1 walks are a permutation of exactly the indices below
`num_tests` whose Phase 0 `TPS` is strictly below 50.0; each pool entry is the scored
`tests[]` entry of its id; the pool is in non-decreasing order of `D_Immediate[0]`; the
walk examines the candidates of an initial segment of the pool in order, and stops before
the end of the pool only once `equity_count` has reached `equity_target`; each candidate
examined is committed if and only if it is feasible and
`total_cost + Marginal_Cost ≤ B_Max` at that moment, and an iteration that skips its
candidate leaves the state unchanged. -/
theorem C19_phase1_order (qsort : Qsort) (hq : QsortPerm qsort) (hs : QsortSorted qsort)
    (s : State) (hid : IdsArePositions s) (hN : s.num_tests ≤ MAX_TESTS) :
    ((run_allocation_algorithm qsort s).pool1.map Test.test_id).Perm
      ((List.range s.num_tests.toNat).filter
        (fun i => decide ((scored_test s i).TPS < TPS_CUTOFF))) ∧
    (∀ c ∈ (run_allocation_algorithm qsort s).pool1, c = scored_test s c.test_id) ∧
    (run_allocation_algorithm qsort s).pool1.Pairwise
      (fun a b => a.D_Immediate 0 ≤ b.D_Immediate 0) ∧
    (run_allocation_algorithm qsort s).trace1.map Visit.index <+:
      (run_allocation_algorithm qsort s).pool1.map Test.test_id ∧
    ((run_allocation_algorithm qsort s).trace1.length =
        (run_allocation_algorithm qsort s).pool1.length ∨
      (run_allocation_algorithm qsort s).target ≤
        (run_allocation_algorithm qsort s).after_phase1.equity_count) ∧
    (∀ v ∈ (run_allocation_algorithm qsort s).trace1,
      (v.committed = true ↔
        (check_feasibility v.pre.num_resources (v.pre.tests v.index) v.pre.resources = true ∧
          v.pre.total_cost + (v.pre.tests v.index).Marginal_Cost ≤ v.pre.B_Max)) ∧
      (v.committed = true →
        v.post = { schedule_test v.pre v.index
            (v.pre.conditions (v.pre.tests v.index).condition_k) with
          equity_count := v.pre.equity_count + 1 }) ∧
      (v.committed = false → v.post = v.pre)) := by
  refine ⟨?_, fun c hc => (run_pool1_entries qsort hq s hid c hc).1,
    run_pool1_sorted qsort hs s, Walk.visits_initial _ _ _ _ (run_walk1 qsort s),
    (phase1_loop_equity _ _ _).2.2.2, ?_⟩
  · have h := run_pool1_ids qsort hq s hid
    have hfilter : (List.range s.num_tests.toNat).filter
          (fun i => decide ((run_allocation_algorithm qsort s).scored.is_scheduled i = false ∧
            ((run_allocation_algorithm qsort s).scored.tests i).TPS < TPS_CUTOFF)) =
        (List.range s.num_tests.toNat).filter
          (fun i => decide ((scored_test s i).TPS < TPS_CUTOFF)) := by
      apply List.filter_congr
      intro i hi
      have hi2 := List.mem_range.mp hi
      rw [run_scored_tests qsort s i hi2, run_scored_flags qsort s hN i hi2]
      simp
    rw [hfilter] at h
    exact h
  · intro v hv
    obtain ⟨hph, hok, _⟩ := (Walk.all_later (run_walk1 qsort s)).1 v hv
    refine ⟨?_, ?_, fun hc => hok.post_of_skipped hc⟩
    · rw [hok.1]
      unfold can_commit
      simp
    · intro hc
      rw [hok.post_of_committed hc, hph]
      simp only [commit_step, if_true]
      rw [schedule_test_eq]

theorem small_capacity_data_ids : IdsArePositions small_capacity_data :=
  example_input_data_ids

/-- Witness for C19: on `small_capacity_data` the sorted pool holds tests 1, 4, 0, 2, 3 and
the walk stops after committing test 1, which reaches the equity target 1. -/
theorem C19_phase1_order_witness :
    QsortPerm insertion_qsort ∧ QsortSorted insertion_qsort ∧
    IdsArePositions small_capacity_data ∧ small_capacity_data.num_tests ≤ MAX_TESTS ∧
    (run_allocation_algorithm insertion_qsort small_capacity_data).pool1.map Test.test_id =
      [1, 4, 0, 2, 3] ∧
    (run_allocation_algorithm insertion_qsort small_capacity_data).trace1.map
      (fun v => (v.index, v.committed)) = [(1, true)] ∧
    (run_allocation_algorithm insertion_qsort small_capacity_data).target = 1 ∧
    (((run_allocation_algorithm insertion_qsort small_capacity_data).pool1.map
        Test.test_id).Perm
      ((List.range small_capacity_data.num_tests.toNat).filter
        (fun i => decide ((scored_test small_capacity_data i).TPS < TPS_CUTOFF))) ∧
    (∀ c ∈ (run_allocation_algorithm insertion_qsort small_capacity_data).pool1,
      c = scored_test small_capacity_data c.test_id) ∧
    (run_allocation_algorithm insertion_qsort small_capacity_data).pool1.Pairwise
      (fun a b => a.D_Immediate 0 ≤ b.D_Immediate 0) ∧
    (run_allocation_algorithm insertion_qsort small_capacity_data).trace1.map Visit.index <+:
      (run_allocation_algorithm insertion_qsort small_capacity_data).pool1.map Test.test_id ∧
    ((run_allocation_algorithm insertion_qsort small_capacity_data).trace1.length =
        (run_allocation_algorithm insertion_qsort small_capacity_data).pool1.length ∨
      (run_allocation_algorithm insertion_qsort small_capacity_data).target ≤
        (run_allocation_algorithm insertion_qsort small_capacity_data).after_phase1.equity_count) ∧
    (∀ v ∈ (run_allocation_algorithm insertion_qsort small_capacity_data).trace1,
      (v.committed = true ↔
        (check_feasibility v.pre.num_resources (v.pre.tests v.index) v.pre.resources = true ∧
          v.pre.total_cost + (v.pre.tests v.index).Marginal_Cost ≤ v.pre.B_Max)) ∧
      (v.committed = true →
        v.post = { schedule_test v.pre v.index
            (v.pre.conditions (v.pre.tests v.index).condition_k) with
          equity_count := v.pre.equity_count + 1 }) ∧
      (v.committed = false → v.post = v.pre))) :=
  ⟨insertion_qsort_perm, insertion_qsort_sorted, small_capacity_data_ids, by decide,
    by decide!, by decide!, by decide!,
    C19_phase1_order insertion_qsort insertion_qsort_perm insertion_qsort_sorted
      small_capacity_data small_capacity_data_ids (by decide)⟩

/-! ## Deferred tests -/

theorem Tighter.same (a : State) : Tighter a a :=
  ⟨Later.refl a, le_refl _, fun _ _ => ⟨le_refl _, le_refl _⟩⟩

theorem Tighter.chain {a b c : State} (h1 : Tighter a b) (h2 : Tighter b c) : Tighter a c := by
  refine ⟨h1.1.trans h2.1, le_trans h1.2.1 h2.2.1, ?_⟩
  intro j hj
  have hj2 : (j : Int) < b.num_resources := by
    rw [h1.1.num_resources]
    exact hj
  exact ⟨le_trans (h2.2.2 j hj2).1 (h1.2.2 j hj).1, le_trans (h1.2.2 j hj).2 (h2.2.2 j hj2).2⟩

theorem can_commit_of_tighter {a b : State} (h : Tighter a b) (i : Nat)
    (hb : can_commit b i = true) : can_commit a i = true := by
  have hf := (check_feasibility_iff _ _ _).mp (can_commit_feasible hb)
  have ha := can_commit_affordable hb
  rw [h.1.tests, h.1.B_Max] at ha
  rw [h.1.tests, h.1.num_resources] at hf
  unfold can_commit
  rw [Bool.and_eq_true]
  refine ⟨(check_feasibility_iff _ _ _).mpr ?_, decide_eq_true (by linarith [h.2.1])⟩
  intro j hj
  obtain ⟨f1, f2⟩ := hf j hj
  obtain ⟨t1, t2⟩ := h.2.2 j hj
  rw [h.1.cap_total j] at f2
  exact ⟨le_trans f1 t1, by linarith⟩

theorem tighter_step (num_tests num_resources : Int) (v : Visit) (hok : v.ok)
    (hlt : (v.index : Int) < num_tests) (h : LoadsNonneg num_tests num_resources v.pre) :
    LoadsNonneg num_tests num_resources v.post ∧ Tighter v.pre v.post := by
  by_cases hc : v.committed = true
  · have hl := hok.step_later
    refine ⟨?_, hl, ?_, ?_⟩
    · refine ⟨by rw [hl.num_resources, h.1], ?_⟩
      rw [hl.tests]
      exact h.2
    · rw [hok.post_of_committed hc, commit_step_eq]
      have h1 := unutilized_setup_sum_nonneg v.pre.num_resources v.pre.resources
      have h2 := (h.2 v.index hlt).2
      show v.pre.total_cost ≤ v.pre.total_cost + _ + _
      linarith
    · intro j hj
      have hj2 : j < v.pre.num_resources.toNat := by omega
      have hj3 : (j : Int) < num_resources := by
        rw [← h.1]
        exact hj
      obtain ⟨d1, d2⟩ := (h.2 v.index hlt).1 j hj3
      rw [hok.post_of_committed hc, commit_step_eq]
      simp only [hj2, if_true, committed_resource]
      exact ⟨by linarith, by linarith⟩
  · rw [hok.post_of_skipped (by simpa using hc)]
    exact ⟨h, Tighter.same _⟩

theorem loads_nonneg_phase2_start (qsort : Qsort) (s : State) (h : TestsNonneg s) :
    LoadsNonneg s.num_tests s.num_resources (run_allocation_algorithm qsort s).phase2_start := by
  have hl1 := run_later1 qsort s
  have hn0 : (run_allocation_algorithm qsort s).scored.num_resources = s.num_resources := by
    rw [run_scored_eq]
  have hn : (run_allocation_algorithm qsort s).after_phase1.num_resources =
      s.num_resources := by
    rw [hl1.num_resources, hn0]
  refine ⟨by rw [run_phase2_start_num_resources, hn], ?_⟩
  intro i hi
  have hi2 : i < s.num_tests.toNat := by omega
  obtain ⟨hd, hp, hc⟩ := h i hi
  have hbase : (∀ j : Nat, (j : Int) < s.num_resources →
        0 ≤ (scored_test s i).D_Immediate j ∧ 0 ≤ (scored_test s i).D_Future_Calc j) ∧
      0 ≤ (scored_test s i).C_Explicit := by
    refine ⟨?_, by rw [scored_test_C_Explicit]; exact hc⟩
    intro j hj
    have hj2 : j < s.num_resources.toNat := by omega
    rw [scored_test_D_Immediate, scored_test_D_Future_Calc]
    simp only [hj2, if_true, mul_one]
    exact ⟨hd j hj, hp⟩
  rw [run_phase2_start_def, build_pool_all_state]
  by_cases hcond : i < (run_allocation_algorithm qsort s).after_phase1.num_tests.toNat ∧
      (run_allocation_algorithm qsort s).after_phase1.is_scheduled i = false
  · simp only [if_pos hcond, rescored_test_D_Immediate, rescored_test_D_Future_Calc,
      rescored_test_C_Explicit]
    rw [hl1.tests, run_scored_tests qsort s i hi2]
    exact hbase
  · simp only [if_neg hcond]
    rw [hl1.tests, run_scored_tests qsort s i hi2]
    exact hbase

/-- C18 (deferred tests do not fit): for every input with test ids equal to array
positions and non-negative immediate demands, positivity probabilities and explicit
costs, and every admissible `qsort`: every test left unscheduled at the end of the run was
examined and skipped by the Phase 2 walk, and in the final state `check_feasibility` is
false for it or `total_cost` plus its stored `Marginal_Cost` exceeds `B_Max`; a candidate
skipped by the Phase 2 walk fails the commit test at the start of every later iteration
and in the final state. -/
theorem C18_deferred_do_not_fit (qsort : Qsort) (hq : QsortPerm qsort) (s : State)
    (hid : IdsArePositions s) (hnn : TestsNonneg s) :
    (∀ i : Nat, (i : Int) < s.num_tests →
      (run_allocation_algorithm qsort s).final.is_scheduled i = false →
      (∃ v ∈ (run_allocation_algorithm qsort s).trace2, v.index = i ∧ v.committed = false) ∧
      (check_feasibility (run_allocation_algorithm qsort s).final.num_resources
          ((run_allocation_algorithm qsort s).final.tests i)
          (run_allocation_algorithm qsort s).final.resources = false ∨
        (run_allocation_algorithm qsort s).final.B_Max <
          (run_allocation_algorithm qsort s).final.total_cost +
            ((run_allocation_algorithm qsort s).final.tests i).Marginal_Cost)) ∧
    (∀ v ∈ (run_allocation_algorithm qsort s).trace2, v.committed = false →
      can_commit (run_allocation_algorithm qsort s).final v.index = false) ∧
    (run_allocation_algorithm qsort s).trace2.Pairwise
      (fun v w => v.committed = false → can_commit w.pre v.index = false) := by
  obtain ⟨_, _, r3, r4⟩ := Walk.rel Tighter (LoadsNonneg s.num_tests s.num_resources)
    Tighter.same (fun _ _ _ h1 h2 => Tighter.chain h1 h2) _ _ _ _ (run_walk2 qsort s)
    (fun v hv _ hok hi => tighter_step _ _ v hok
      (by have := (trace2_facts qsort hq s hid v hv).2.2.2.2.1; omega) hi)
    (loads_nonneg_phase2_start qsort s hnn)
  have hskip : ∀ v ∈ (run_allocation_algorithm qsort s).trace2, v.committed = false →
      can_commit v.pre v.index = false := by
    intro v hv hc
    have hok := ((Walk.all_later (run_walk2 qsort s)).1 v hv).2.1
    rw [← hok.1, hc]
  have hfinal : ∀ v ∈ (run_allocation_algorithm qsort s).trace2, v.committed = false →
      can_commit (run_allocation_algorithm qsort s).final v.index = false := by
    intro v hv hc
    have hok := ((Walk.all_later (run_walk2 qsort s)).1 v hv).2.1
    have ht := (r3 v hv).2.2.2.2
    rw [hok.post_of_skipped hc] at ht
    by_contra hcon
    have := can_commit_of_tighter ht v.index (by simpa using hcon)
    rw [hskip v hv hc] at this
    exact Bool.noConfusion this
  refine ⟨?_, hfinal, ?_⟩
  · intro i hi hun
    have hi2 : i < s.num_tests.toNat := by omega
    have hun1 : (run_allocation_algorithm qsort s).after_phase1.is_scheduled i = false := by
      by_contra hcon
      have h1 : (run_allocation_algorithm qsort s).after_phase1.is_scheduled i = true := by
        simpa using hcon
      rw [← run_phase2_start_is_scheduled] at h1
      rw [(run_later2 qsort s).scheduled i h1] at hun
      exact Bool.noConfusion hun
    have hmem : i ∈ (run_allocation_algorithm qsort s).trace2.map Visit.index := by
      have hidx : (run_allocation_algorithm qsort s).trace2.map Visit.index =
          (run_allocation_algorithm qsort s).pool2.map Test.test_id :=
        phase2_loop_indices _ _
      rw [hidx]
      apply (run_pool2_ids qsort hq s hid).symm.subset
      rw [List.mem_filter, List.mem_range]
      exact ⟨hi2, decide_eq_true hun1⟩
    obtain ⟨v, hv, hvi⟩ := List.mem_map.mp hmem
    have hok := ((Walk.all_later (run_walk2 qsort s)).1 v hv).2.1
    have hc : v.committed = false := by
      by_contra hcon
      have hc1 : v.committed = true := by simpa using hcon
      have h1 := commit_flags v hok hc1
      have h2 := (run_flags_persist qsort s).2.2 v (List.mem_append_right _ hv) v.index h1
      rw [hvi, hun] at h2
      exact Bool.noConfusion h2
    refine ⟨⟨v, hv, hvi, hc⟩, ?_⟩
    have hf := hfinal v hv hc
    rw [hvi] at hf
    unfold can_commit at hf
    rw [Bool.and_eq_false_iff] at hf
    rcases hf with h | h
    · exact Or.inl h
    · exact Or.inr (not_le.mp (of_decide_eq_false h))
  · refine r4.imp_of_mem ?_
    intro v w hv hw ht hc
    have hok := ((Walk.all_later (run_walk2 qsort s)).1 v hv).2.1
    rw [hok.post_of_skipped hc] at ht
    by_contra hcon
    have := can_commit_of_tighter ht v.index (by simpa using hcon)
    rw [hskip v hv hc] at this
    exact Bool.noConfusion this

theorem example_input_data_tests_nonneg : TestsNonneg example_input_data := by
  intro i hi
  have h5 : i < 5 := by
    have : (i : Int) < 5 := hi
    omega
  refine ⟨fun j hj => example_input_data_demands i j hj, ?_, ?_⟩
  · interval_cases i <;> (simp only [example_input_data]; norm_num)
  · interval_cases i <;> (simp only [example_input_data]; norm_num)

/-- Witness for C18: the example input with insertion sort as `qsort`; test 3 is the
only test left unscheduled, and in the final state it is feasible but
`850 + 200 > 1000`. -/
theorem C18_deferred_do_not_fit_witness :
    QsortPerm insertion_qsort ∧ IdsArePositions example_input_data ∧
    TestsNonneg example_input_data ∧
    (List.range 5).map
      (run_allocation_algorithm insertion_qsort example_input_data).final.is_scheduled =
        [true, true, true, false, true] ∧
    (run_allocation_algorithm insertion_qsort example_input_data).final.total_cost +
      ((run_allocation_algorithm insertion_qsort example_input_data).final.tests 3).Marginal_Cost
        = 1050 ∧
    ((∀ i : Nat, (i : Int) < example_input_data.num_tests →
      (run_allocation_algorithm insertion_qsort example_input_data).final.is_scheduled i = false →
      (∃ v ∈ (run_allocation_algorithm insertion_qsort example_input_data).trace2,
        v.index = i ∧ v.committed = false) ∧
      (check_feasibility
          (run_allocation_algorithm insertion_qsort example_input_data).final.num_resources
          ((run_allocation_algorithm insertion_qsort example_input_data).final.tests i)
          (run_allocation_algorithm insertion_qsort example_input_data).final.resources = false ∨
        (run_allocation_algorithm insertion_qsort example_input_data).final.B_Max <
          (run_allocation_algorithm insertion_qsort example_input_data).final.total_cost +
            ((run_allocation_algorithm insertion_qsort example_input_data).final.tests
              i).Marginal_Cost)) ∧
    (∀ v ∈ (run_allocation_algorithm insertion_qsort example_input_data).trace2,
      v.committed = false →
        can_commit (run_allocation_algorithm insertion_qsort example_input_data).final v.index
          = false) ∧
    (run_allocation_algorithm insertion_qsort example_input_data).trace2.Pairwise
      (fun v w => v.committed = false → can_commit w.pre v.index = false)) :=
  ⟨insertion_qsort_perm, example_input_data_ids, example_input_data_tests_nonneg,
    by decide!, by decide!,
    C18_deferred_do_not_fit insertion_qsort insertion_qsort_perm example_input_data
      example_input_data_ids example_input_data_tests_nonneg⟩

/-! ## Ledger accounting -/

theorem phase1_loop_eq_walk1 (target : Int) (pool : List Test) (s : State) :
    phase1_loop target pool s = walk1_ids target (pool.map Test.test_id) s := by
  induction pool generalizing s with
  | nil => simp [phase1_loop, walk1_ids]
  | cons c rest ih =>
    rw [phase1_loop_cons, List.map_cons, walk1_ids]
    simp only [ih]

theorem phase2_loop_cons (c : Test) (rest : List Test) (s : State) :
    phase2_loop (c :: rest) s =
      if can_commit s c.test_id = true then
        ((phase2_loop rest (commit_step 2 s c.test_id)).1,
          ⟨2, c.test_id, s, true, commit_step 2 s c.test_id⟩ ::
            (phase2_loop rest (commit_step 2 s c.test_id)).2)
      else ((phase2_loop rest s).1, ⟨2, c.test_id, s, false, s⟩ :: (phase2_loop rest s).2) := by
  simp [phase2_loop, commit_step]

theorem phase2_loop_eq_walk2 (pool : List Test) (s : State) :
    phase2_loop pool s = walk2_ids (pool.map Test.test_id) s := by
  induction pool generalizing s with
  | nil => simp [phase2_loop, walk2_ids]
  | cons c rest ih =>
    rw [phase2_loop_cons, List.map_cons, walk2_ids]
    simp only [ih]

theorem mem_sorted_orders (l L : List Nat) (R : Nat → Nat → Prop) [DecidableRel R]
    (hp : l.Perm L) (hs : l.Pairwise R) :
    l ∈ (L.permutations').filter (fun l => decide (l.Pairwise R)) := by
  rw [List.mem_filter]
  exact ⟨List.mem_permutations'.mpr hp, decide_eq_true hs⟩

theorem run_after_phase1_replay (qsort : Qsort) (s : State) :
    (run_allocation_algorithm qsort s).after_phase1 =
      after_phase1_of s ((run_allocation_algorithm qsort s).pool1.map Test.test_id) := by
  show (phase1_loop _ _ _).1 = _
  rw [phase1_loop_eq_walk1]
  rfl

theorem run_replay (qsort : Qsort) (s : State) :
    (run_allocation_algorithm qsort s).final =
        (replay s ((run_allocation_algorithm qsort s).pool1.map Test.test_id)
          ((run_allocation_algorithm qsort s).pool2.map Test.test_id)).1 ∧
    (run_allocation_algorithm qsort s).trace =
        (replay s ((run_allocation_algorithm qsort s).pool1.map Test.test_id)
          ((run_allocation_algorithm qsort s).pool2.map Test.test_id)).2 := by
  have h1 : (run_allocation_algorithm qsort s).trace1 =
      (walk1_ids (equity_target (scoring_pass (initialize_globals s)))
        ((run_allocation_algorithm qsort s).pool1.map Test.test_id)
        (scoring_pass (initialize_globals s))).2 := by
    show (phase1_loop _ _ _).2 = _
    rw [phase1_loop_eq_walk1]
    rfl
  have ha := run_after_phase1_replay qsort s
  have h2 : phase2_loop (run_allocation_algorithm qsort s).pool2
        (run_allocation_algorithm qsort s).phase2_start =
      walk2_ids ((run_allocation_algorithm qsort s).pool2.map Test.test_id)
        (build_pool_all (after_phase1_of s
          ((run_allocation_algorithm qsort s).pool1.map Test.test_id))).1 := by
    rw [phase2_loop_eq_walk2, run_phase2_start_def, ha]
  have hf : (run_allocation_algorithm qsort s).final =
      (phase2_loop (run_allocation_algorithm qsort s).pool2
        (run_allocation_algorithm qsort s).phase2_start).1 := rfl
  have ht : (run_allocation_algorithm qsort s).trace2 =
      (phase2_loop (run_allocation_algorithm qsort s).pool2
        (run_allocation_algorithm qsort s).phase2_start).2 := rfl
  refine ⟨?_, ?_⟩
  · rw [hf, h2]
    rfl
  · unfold Run.trace
    rw [h1, ht, h2]
    rfl

/-- For an input in which each test's id equals its array position, whatever admissible
`qsort` is used, the id order of the sorted `pool_low_crit` is one of `phase1_orders` and
the id order of the sorted `pool_all` is one of `phase2_orders`. -/
theorem run_orders (qsort : Qsort) (hq : QsortPerm qsort) (hs : QsortSorted qsort) (s : State)
    (hid : IdsArePositions s) :
    (run_allocation_algorithm qsort s).pool1.map Test.test_id ∈ phase1_orders s ∧
    (run_allocation_algorithm qsort s).pool2.map Test.test_id ∈
      phase2_orders s ((run_allocation_algorithm qsort s).pool1.map Test.test_id) := by
  have hN0 : (run_allocation_algorithm qsort s).scored.num_tests = s.num_tests := by
    rw [run_scored_eq]
  have hNa : (run_allocation_algorithm qsort s).after_phase1.num_tests = s.num_tests := by
    rw [(run_later1 qsort s).num_tests, hN0]
  refine ⟨?_, ?_⟩
  · apply mem_sorted_orders
    · have h := run_pool1_ids qsort hq s hid
      rw [← hN0] at h
      exact h
    · rw [List.pairwise_map]
      refine (run_pool1_sorted qsort hs s).imp_of_mem ?_
      intro a b ha hb h
      obtain ⟨ea, la⟩ := run_pool1_entries qsort hq s hid a ha
      obtain ⟨eb, lb⟩ := run_pool1_entries qsort hq s hid b hb
      have ea2 : (run_allocation_algorithm qsort s).scored.tests a.test_id = a := by
        rw [run_scored_tests qsort s _ la, ← ea]
      have eb2 : (run_allocation_algorithm qsort s).scored.tests b.test_id = b := by
        rw [run_scored_tests qsort s _ lb, ← eb]
      show ((run_allocation_algorithm qsort s).scored.tests a.test_id).D_Immediate 0 ≤
        ((run_allocation_algorithm qsort s).scored.tests b.test_id).D_Immediate 0
      rw [ea2, eb2]
      exact h
  · unfold phase2_orders
    rw [← run_after_phase1_replay]
    apply mem_sorted_orders
    · have h := run_pool2_ids qsort hq s hid
      rw [← hNa] at h
      exact h
    · rw [List.pairwise_map]
      refine (run_pool2_sorted qsort hs s).imp_of_mem ?_
      intro a b ha hb h
      have ea := (run_pool2_entries qsort hq s hid a ha).2.1
      have eb := (run_pool2_entries qsort hq s hid b hb).2.1
      show ((run_allocation_algorithm qsort s).phase2_start.tests b.test_id).TPS ≤
        ((run_allocation_algorithm qsort s).phase2_start.tests a.test_id).TPS
      rw [← ea, ← eb]
      exact h

/-! ## Scenario B: the example input and the preset data -/

theorem example_input_phase1_orders :
    phase1_orders example_input_data = [[1, 4, 0, 2, 3], [4, 1, 0, 2, 3]] := by
  decide!

theorem example_input_replay_outcome :
    ∀ ids1 ∈ phase1_orders example_input_data,
      ∀ ids2 ∈ phase2_orders example_input_data ids1,
        ScenarioBOutcome (replay example_input_data ids1 ids2) := by
  decide!

theorem reverse_insertion_qsort_perm : QsortPerm reverse_insertion_qsort := by
  intro pool
  exact ⟨(List.perm_insertionSort _ _).trans (List.reverse_perm pool),
    (List.perm_insertionSort _ _).trans (List.reverse_perm pool)⟩

theorem reverse_insertion_qsort_sorted : QsortSorted reverse_insertion_qsort := by
  intro pool
  exact insertion_qsort_sorted pool.reverse

/-- Scenario B on the example input `example_input_data`, the data the comment of
`setup_preset_data` announces: in exact arithmetic and for every admissible `qsort`, hence
for either order of the equal-demand tie between tests 1 and 4 (the sorted Phase 1 pool
lists the ids as 1, 4, 0, 2, 3 or as 4, 1, 0, 2, 3):
`equity_target` is 7; the final `equity_count` is 1, so `equity_count >= equity_target`
fails; exactly one iteration charges resource 0's setup cost 500, it is the first commit
of the run, and no iteration charges resource 1; the run ends with tests 0, 1, 2 and 4
scheduled, test 3 not, `total_cost = 850`, `total_utility = 15000` and
`Cap_Rem[0] = 15`. -/
theorem scenario_b_on_example_input (qsort : Qsort) (hq : QsortPerm qsort) (hs : QsortSorted qsort) :
    ((run_allocation_algorithm qsort example_input_data).pool1.map Test.test_id =
        [1, 4, 0, 2, 3] ∨
      (run_allocation_algorithm qsort example_input_data).pool1.map Test.test_id =
        [4, 1, 0, 2, 3]) ∧
    (run_allocation_algorithm qsort example_input_data).target = 7 ∧
    (run_allocation_algorithm qsort example_input_data).final.equity_count = 1 ∧
    ¬ ((run_allocation_algorithm qsort example_input_data).final.equity_count ≥
      (run_allocation_algorithm qsort example_input_data).target) ∧
    (run_allocation_algorithm qsort example_input_data).trace.countP
      (fun v => v.charges 0) = 1 ∧
    (run_allocation_algorithm qsort example_input_data).trace.countP
      (fun v => v.charges 1) = 0 ∧
    (∀ v, (run_allocation_algorithm qsort example_input_data).trace.find?
        (fun v => v.committed) = some v →
      v.charges 0 = true ∧ (v.pre.resources 0).R_SetupCost = 500 ∧
        v.post.total_cost = 500 + (v.pre.tests v.index).C_Explicit) ∧
    (List.range 5).map (run_allocation_algorithm qsort example_input_data).final.is_scheduled =
      [true, true, true, false, true] ∧
    (run_allocation_algorithm qsort example_input_data).final.total_cost = 850 ∧
    (run_allocation_algorithm qsort example_input_data).final.total_utility = 15000 ∧
    ((run_allocation_algorithm qsort example_input_data).final.resources 0).Cap_Rem = 15 := by
  obtain ⟨o1, o2⟩ := run_orders qsort hq hs example_input_data example_input_data_ids
  obtain ⟨hf, ht⟩ := run_replay qsort example_input_data
  obtain ⟨b1, b2, b3, b4, b5, b6, b7, b8⟩ := example_input_replay_outcome _ o1 _ o2
  rw [← hf] at b1 b5 b6 b7 b8
  rw [← ht] at b2 b3 b4
  have htarget : (run_allocation_algorithm qsort example_input_data).target = 7 := by
    show equity_target (scoring_pass (initialize_globals example_input_data)) = 7
    decide!
  refine ⟨?_, htarget, b1, ?_, b2, b3, ?_, b5, b6, b7, b8⟩
  · rw [example_input_phase1_orders] at o1
    simpa using o1
  · rw [b1, htarget]
    decide
  · intro v hv
    rw [hv] at b4
    simp only [Option.map_some', Option.some.injEq, Prod.mk.injEq] at b4
    obtain ⟨c1, c2, c3⟩ := b4
    have hsetup : (v.pre.resources 0).R_SetupCost = 500 := by
      obtain ⟨_, _, hrel⟩ := run_pairwise qsort example_input_data
        (fun a b => (b.resources 0).R_SetupCost = (a.resources 0).R_SetupCost)
        (fun _ _ _ h1 h2 => h2.trans h1) (fun _ _ h => h.setup 0)
        (by
          show (_ : Resource).R_SetupCost = _
          rw [run_phase2_start_resources])
      rw [hrel v (List.mem_of_find?_eq_some hv), run_scored_eq]
      rfl
    refine ⟨c1, hsetup, ?_⟩
    rw [c2, c3]
    norm_num

/-- Scenario B on the example input with both tie orders: insertion sort leaves the tie as
1, 4 and insertion sort of the reversed array leaves it as 4, 1; both are admissible and
both runs have the stated outcome. -/
theorem scenario_b_on_example_input_orders :
    (QsortPerm insertion_qsort ∧ QsortSorted insertion_qsort ∧
      (run_allocation_algorithm insertion_qsort example_input_data).pool1.map Test.test_id =
        [1, 4, 0, 2, 3] ∧
      (run_allocation_algorithm insertion_qsort example_input_data).final.total_cost = 850) ∧
    (QsortPerm reverse_insertion_qsort ∧ QsortSorted reverse_insertion_qsort ∧
      (run_allocation_algorithm reverse_insertion_qsort example_input_data).pool1.map
        Test.test_id = [4, 1, 0, 2, 3] ∧
      (run_allocation_algorithm reverse_insertion_qsort example_input_data).final.total_cost
        = 850) :=
  ⟨⟨insertion_qsort_perm, insertion_qsort_sorted, by decide!,
      (scenario_b_on_example_input insertion_qsort insertion_qsort_perm insertion_qsort_sorted).2.2.2.2.2.2.2.2.1⟩,
    ⟨reverse_insertion_qsort_perm, reverse_insertion_qsort_sorted, by decide!,
      (scenario_b_on_example_input reverse_insertion_qsort reverse_insertion_qsort_perm
        reverse_insertion_qsort_sorted).2.2.2.2.2.2.2.2.1⟩⟩

theorem setup_preset_data_ids : IdsArePositions setup_preset_data := by
  intro i hi
  have h5 : i < 5 := by
    have : (i : Int) < 5 := hi
    omega
  interval_cases i <;> rfl

theorem rotated_insertion_qsort_perm : QsortPerm rotated_insertion_qsort := by
  intro pool
  exact ⟨(List.perm_insertionSort _ _).trans (List.rotate_perm pool 3),
    (List.perm_insertionSort _ _).trans (List.rotate_perm pool 3)⟩

theorem rotated_insertion_qsort_sorted : QsortSorted rotated_insertion_qsort := by
  intro pool
  exact insertion_qsort_sorted (pool.rotate 3)

theorem setup_preset_data_replay_outcome :
    ∀ ids1 ∈ phase1_orders setup_preset_data,
      ∀ ids2 ∈ phase2_orders setup_preset_data ids1,
        PresetDataOutcome (replay setup_preset_data ids1 ids2) := by
  decide!

/-- C16, evaluated on the values `setup_preset_data` stores (choice 1 of `main`), in exact
arithmetic and for every admissible `qsort`: the stored `TPS` fields are 10, 5, 15, 20, 5
and every stored immediate demand is 0, so all five tests tie in the Phase 1 order;
`equity_target` is 7 and the final `equity_count` is 1, so `equity_count >= equity_target`
fails; exactly one iteration charges resource 0's setup cost 500, it is the first
iteration of the run, a Phase 1 commit, and no iteration charges resource 1; `Cap_Rem[0]`
ends at 50, not 15; and the run ends either with tests 0, 1, 2, 4 scheduled,
`total_cost = 850` and `total_utility = 15000` (when the sorted Phase 1 pool does not start
with test 3) or with tests 0, 1, 3, 4 scheduled, `total_cost = 900` and
`total_utility = 13600` (when it starts with test 3). -/
theorem C16_scenario_b_on_preset_data (qsort : Qsort) (hq : QsortPerm qsort)
    (hs : QsortSorted qsort) :
    (List.range 5).map (fun i => (setup_preset_data.tests i).TPS) = [10, 5, 15, 20, 5] ∧
    (List.range 5).map (fun i => (setup_preset_data.tests i).D_Immediate 0) =
      [0, 0, 0, 0, 0] ∧
    (List.range 5).map (fun i => (setup_preset_data.tests i).D_Immediate 1) =
      [0, 0, 0, 0, 0] ∧
    ((run_allocation_algorithm qsort setup_preset_data).pool1.map Test.test_id).Perm
      [0, 1, 2, 3, 4] ∧
    (run_allocation_algorithm qsort setup_preset_data).target = 7 ∧
    (run_allocation_algorithm qsort setup_preset_data).final.equity_count = 1 ∧
    ¬ ((run_allocation_algorithm qsort setup_preset_data).final.equity_count ≥
      (run_allocation_algorithm qsort setup_preset_data).target) ∧
    (run_allocation_algorithm qsort setup_preset_data).trace.countP
      (fun v => v.charges 0) = 1 ∧
    (run_allocation_algorithm qsort setup_preset_data).trace.countP
      (fun v => v.charges 1) = 0 ∧
    (∃ v, (run_allocation_algorithm qsort setup_preset_data).trace.head? = some v ∧
      v.phase = 1 ∧ v.committed = true ∧ v.charges 0 = true ∧
      v.post.total_cost = 500 + (v.pre.tests v.index).C_Explicit) ∧
    ((run_allocation_algorithm qsort setup_preset_data).final.resources 0).Cap_Rem = 50 ∧
    ((run_allocation_algorithm qsort setup_preset_data).final.resources 0).Cap_Rem ≠ 15 ∧
    (((run_allocation_algorithm qsort setup_preset_data).trace.head?.map
          (fun v => decide (v.index = 3)) = some false ∧
        (List.range 5).map (run_allocation_algorithm qsort setup_preset_data).final.is_scheduled
          = [true, true, true, false, true] ∧
        (run_allocation_algorithm qsort setup_preset_data).final.total_cost = 850 ∧
        (run_allocation_algorithm qsort setup_preset_data).final.total_utility = 15000) ∨
      ((run_allocation_algorithm qsort setup_preset_data).trace.head?.map
          (fun v => decide (v.index = 3)) = some true ∧
        (List.range 5).map (run_allocation_algorithm qsort setup_preset_data).final.is_scheduled
          = [true, true, false, true, true] ∧
        (run_allocation_algorithm qsort setup_preset_data).final.total_cost = 900 ∧
        (run_allocation_algorithm qsort setup_preset_data).final.total_utility = 13600)) := by
  obtain ⟨o1, o2⟩ := run_orders qsort hq hs setup_preset_data setup_preset_data_ids
  obtain ⟨hf, ht⟩ := run_replay qsort setup_preset_data
  obtain ⟨b1, b2, b3, b4, b5, b6⟩ := setup_preset_data_replay_outcome _ o1 _ o2
  rw [← hf] at b1 b5 b6
  rw [← ht] at b2 b3 b4 b6
  have htarget : (run_allocation_algorithm qsort setup_preset_data).target = 7 := by
    show equity_target (scoring_pass (initialize_globals setup_preset_data)) = 7
    decide!
  have hperm : ((run_allocation_algorithm qsort setup_preset_data).pool1.map
      Test.test_id).Perm [0, 1, 2, 3, 4] := by
    have hmem := (List.mem_filter.mp o1).1
    rw [List.mem_permutations'] at hmem
    refine hmem.trans ?_
    have hl : (List.range (scoring_pass (initialize_globals setup_preset_data)).num_tests.toNat).filter
        (fun i => decide ((scoring_pass (initialize_globals setup_preset_data)).is_scheduled i
            = false ∧
          ((scoring_pass (initialize_globals setup_preset_data)).tests i).TPS < TPS_CUTOFF)) =
        [0, 1, 2, 3, 4] := by
      decide!
    rw [hl]
  refine ⟨by decide!, by decide!, by decide!, hperm, htarget, b1, ?_, b2, b3, ?_, b5, ?_, b6⟩
  · rw [b1, htarget]
    decide
  · cases hh : (run_allocation_algorithm qsort setup_preset_data).trace.head? with
    | none =>
      rw [hh] at b4
      simp at b4
    | some v =>
      rw [hh] at b4
      simp only [Option.map_some', Option.some.injEq, Prod.mk.injEq, decide_eq_true_eq] at b4
      exact ⟨v, rfl, b4.1, b4.2.1, b4.2.2.1, b4.2.2.2⟩
  · rw [b5]
    norm_num

/-- Witness for C16 on the stored preset data: insertion sort keeps the five tied tests in
array order, commits test 0 first (`total_cost = 600`) and ends with tests 0, 1, 2, 4 at
850; insertion sort of the array rotated by three places puts test 3 first, commits it
(`total_cost = 700`) and ends with tests 0, 1, 3, 4 at 900; both routines are
admissible. -/
theorem C16_scenario_b_on_preset_data_witness :
    (QsortPerm insertion_qsort ∧ QsortSorted insertion_qsort ∧
      (run_allocation_algorithm insertion_qsort setup_preset_data).trace.map
        (fun v => (v.phase, v.index, v.committed, v.post.total_cost)) =
        [(1, 0, true, 600), (1, 1, false, 600), (1, 2, false, 600), (1, 3, false, 600),
          (1, 4, false, 600), (2, 4, true, 650), (2, 1, true, 700), (2, 2, true, 850),
          (2, 3, false, 850)] ∧
      ((run_allocation_algorithm insertion_qsort setup_preset_data).final.resources 0).Cap_Rem
        = 50) ∧
    (QsortPerm rotated_insertion_qsort ∧ QsortSorted rotated_insertion_qsort ∧
      (run_allocation_algorithm rotated_insertion_qsort setup_preset_data).trace.map
        (fun v => (v.phase, v.index, v.committed, v.post.total_cost)) =
        [(1, 3, true, 700), (1, 4, false, 700), (1, 0, false, 700), (1, 1, false, 700),
          (1, 2, false, 700), (2, 4, true, 750), (2, 0, true, 850), (2, 1, true, 900),
          (2, 2, false, 900)] ∧
      ((run_allocation_algorithm rotated_insertion_qsort setup_preset_data).final.resources
        0).Cap_Rem = 50) :=
  ⟨⟨insertion_qsort_perm, insertion_qsort_sorted, by decide!,
      (C16_scenario_b_on_preset_data insertion_qsort insertion_qsort_perm
        insertion_qsort_sorted).2.2.2.2.2.2.2.2.2.2.1⟩,
    ⟨rotated_insertion_qsort_perm, rotated_insertion_qsort_sorted, by decide!,
      (C16_scenario_b_on_preset_data rotated_insertion_qsort rotated_insertion_qsort_perm
        rotated_insertion_qsort_sorted).2.2.2.2.2.2.2.2.2.2.1⟩⟩

end Alloc
